import Mathlib

/-!
# okam-build: dependency resolver, entry-script expansion, Quick-App features, view plugins

A shallow embedding of parts of `packages/okam-build/lib`:

* `processor/helper/npm.js`   : `isNpmModuleFile`, `resolveNpmModuleNewPath`, `resolve`
* `processor/index.js`        : `processConfigInfo`, `processEntryScript`
* `config/quick.js`           : `resolve.onResolve`
* `build/quick/index.js`      : `getAllUsedAPIFeatures`
* `processor/helper/init-view.js` : `normalizeViewPlugins`, `addRefPlugin`,
  `initViewTransformOptions`

Conventions of the embedding:

* JavaScript strings are Lean strings, read as their list of characters (a character
  outside the Basic Multilingual Plane counts once here and twice in JavaScript).
* File objects live in a heap (a list); a reference to a file is its index in the heap, so
  that two names for the same object (aliasing) denote the same heap cell. Stateful
  functions take the build state and return the new one.
* A function that may return `undefined` returns an `Option`.
* Functions of the repository that are not among the source files (the file factory, the
  methods of a file, `addNeedBuildFile`) are modelled from the spec and marked so; Node's
  `path` functions, `require`, `getRequirePath` and the orchestrator's path lookup are
  parameters.
-/

namespace Okam

/-! ## JavaScript string primitives -/

/-- JavaScript `s.replace(pat, rep)` for a string pattern `pat` and a replacement without
a dollar sign: only the first (leftmost) occurrence of `pat` is replaced. -/
def replaceFirst (pat rep : List Char) : List Char → List Char
  | [] => if pat.isEmpty then rep else []
  | c :: s =>
    if pat.isPrefixOf (c :: s) then rep ++ (c :: s).drop pat.length
    else c :: replaceFirst pat rep s

/-- Worker of `replaceAll`: the first argument counts the characters of the current match
that are still to be skipped. -/
def replaceAllAux (pat rep : List Char) : Nat → List Char → List Char
  | _, [] => []
  | k + 1, _ :: s => replaceAllAux pat rep k s
  | 0, c :: s =>
    if pat.isPrefixOf (c :: s) then rep ++ replaceAllAux pat rep (pat.length - 1) s
    else c :: replaceAllAux pat rep 0 s

/-- JavaScript `s.replace(new RegExp(pat, 'g'), rep)` for a non-empty pattern `pat` without
regular expression metacharacters: every occurrence found by the left-to-right scan is
replaced, the scan resuming right after each match. -/
def replaceAll (pat rep s : List Char) : List Char :=
  replaceAllAux pat rep 0 s

/-- JavaScript `s.indexOf(pat) === 0`. -/
def startsWith (s pat : String) : Bool :=
  pat.toList.isPrefixOf s.toList

/-- The string `s` contains `pat` as a substring. -/
def containsStr (s pat : String) : Prop :=
  pat.toList <:+: s.toList

instance (s pat : String) : Decidable (containsStr s pat) :=
  inferInstanceAs (Decidable (pat.toList <:+: s.toList))

/-- The string `s` ends with `pat`. -/
def endsWithStr (s pat : String) : Prop :=
  pat.toList <:+ s.toList

instance (s pat : String) : Decidable (endsWithStr s pat) :=
  inferInstanceAs (Decidable (pat.toList <:+ s.toList))

/-! ## `processor/helper/npm.js`: path rewriting -/

def DEP_DIR_NAME : String := "node_modules"

def NEW_DEP_DIR_NAME : String := "npm"

/-- Function `exports.isNpmModuleFile`. -/
def isNpmModuleFile (modulePath : String) : Bool :=
  startsWith modulePath DEP_DIR_NAME

/-- Function `exports.resolveNpmModuleNewPath`. -/
def resolveNpmModuleNewPath (oldPath rebaseDepDir : String) : String :=
  let newPath := rebaseDepDir.toList ++ oldPath.toList.drop (DEP_DIR_NAME.length + 1)
  let result := replaceAll DEP_DIR_NAME.toList NEW_DEP_DIR_NAME.toList newPath
  String.mk
    (replaceFirst "/@babel/runtime/helpers/".toList "/babel/".toList
      (replaceFirst "/okam-core/".toList "/okam/".toList
        (replaceFirst "/src/".toList "/".toList result)))

/-! ## JSON values and `JSON.stringify(value, null, 4)` -/

/-- The values a config object holds. Numbers are integers (a number with a fraction or an
exponent is outside the model). The fields of an object are listed in the order in which
JavaScript enumerates its own keys, each key once. -/
inductive Json where
  | null
  | bool (b : Bool)
  | num (n : Int)
  | str (s : String)
  | arr (items : List Json)
  | obj (fields : List (String × Json))

/-- JavaScript truthiness of a value. -/
def Json.truthy : Json → Bool
  | .null => false
  | .bool b => b
  | .num n => n != 0
  | .str s => s != ""
  | .arr _ => true
  | .obj _ => true

/-- JavaScript `o[k]` for an object given by its own fields. -/
def objGet {α : Type} (k : String) : List (String × α) → Option α
  | [] => none
  | (k', v) :: rest => if k' = k then some v else objGet k rest

/-- JavaScript `o[k] = v` on an object given by its own fields, for a key that is no array
index: an existing key keeps its place, a new key is added last. -/
def objSet {α : Type} (k : String) (v : α) : List (String × α) → List (String × α)
  | [] => [(k, v)]
  | (k', v') :: rest => if k' = k then (k, v) :: rest else (k', v') :: objSet k v rest

/-- JavaScript `xs.map(f)` for a callback that may fail (throw): the list of the results,
none when the callback fails on an element. -/
def mapOpt {α β : Type} (f : α → Option β) : List α → Option (List β)
  | [] => some []
  | x :: xs =>
    match f x with
    | none => none
    | some y => (mapOpt f xs).map (fun ys => y :: ys)

/-- The names every plain object inherits from `Object.prototype`. -/
def objectPrototypeKeys : List String :=
  ["constructor", "__defineGetter__", "__defineSetter__", "hasOwnProperty",
   "__lookupGetter__", "__lookupSetter__", "isPrototypeOf", "propertyIsEnumerable",
   "toString", "valueOf", "__proto__", "toLocaleString"]

def hexDigit (n : Nat) : Char :=
  if n < 10 then Char.ofNat (48 + n) else Char.ofNat (87 + n)

/-- One character of a string inside the quotes written by `JSON.stringify`: the double
quote (34) and the backslash (92) are escaped by a backslash, a control character by its
short escape or by a `u00XX` escape. -/
def jsonEscapeChar (c : Char) : List Char :=
  if c.toNat = 34 then [Char.ofNat 92, Char.ofNat 34]
  else if c.toNat = 92 then [Char.ofNat 92, Char.ofNat 92]
  else if c.toNat = 10 then [Char.ofNat 92, 'n']
  else if c.toNat = 13 then [Char.ofNat 92, 'r']
  else if c.toNat = 9 then [Char.ofNat 92, 't']
  else if c.toNat = 8 then [Char.ofNat 92, 'b']
  else if c.toNat = 12 then [Char.ofNat 92, 'f']
  else if c.toNat < 32 then
    [Char.ofNat 92, 'u', '0', '0', hexDigit (c.toNat / 16), hexDigit (c.toNat % 16)]
  else [c]

/-- A string as `JSON.stringify` writes it. -/
def jsonQuote (s : String) : List Char :=
  [Char.ofNat 34] ++ s.toList.flatMap jsonEscapeChar ++ [Char.ofNat 34]

mutual
/-- JavaScript `JSON.stringify(v, null, 4)`, where `ind` is the indentation of the line
`v` starts on. -/
def Json.render (ind : Nat) : Json → List Char
  | .null => "null".toList
  | .bool b => if b then "true".toList else "false".toList
  | .num n => (toString n).toList
  | .str s => jsonQuote s
  | .arr xs =>
    if xs.isEmpty then "[]".toList
    else "[\n".toList ++ Json.renderItems (ind + 4) xs ++ "\n".toList ++ List.replicate ind ' '
      ++ "]".toList
  | .obj fs =>
    if fs.isEmpty then "\x7b\x7d".toList
    else "\x7b\n".toList ++ Json.renderFields (ind + 4) fs ++ "\n".toList ++ List.replicate ind ' '
      ++ "\x7d".toList
def Json.renderItems (ind : Nat) : List Json → List Char
  | [] => []
  | x :: ys =>
    List.replicate ind ' ' ++ Json.render ind x ++ (if ys.isEmpty then [] else ",\n".toList)
      ++ Json.renderItems ind ys
def Json.renderFields (ind : Nat) : List (String × Json) → List Char
  | [] => []
  | f :: gs =>
    List.replicate ind ' ' ++ Json.renderField ind f ++ (if gs.isEmpty then [] else ",\n".toList)
      ++ Json.renderFields ind gs
def Json.renderField (ind : Nat) : String × Json → List Char
  | (k, v) => jsonQuote k ++ ": ".toList ++ Json.render ind v
end

/-- JavaScript `JSON.stringify(v, null, 4)`. -/
def Json.stringify (v : Json) : String :=
  String.mk (Json.render 0 v)

mutual
/-- JavaScript `String(v)`, the conversion that `+` with a string and
`Array.prototype.join` apply to a value: an array is the join of its elements, a plain
object is `[object Object]`. None is the TypeError for an object with an own key
`toString`, whose value is no function. -/
def Json.toText : Json → Option String
  | .null => some "null"
  | .bool b => some (if b then "true" else "false")
  | .num n => some (toString n)
  | .str s => some s
  | .arr items => (Json.itemTexts items).map (fun texts => ",".intercalate texts)
  | .obj fields =>
    if (fields.map Prod.fst).contains "toString" then none else some "[object Object]"
/-- The texts that `Array.prototype.join` joins: the empty string for `null`, the
conversion of any other element. -/
def Json.itemTexts : List Json → Option (List String)
  | [] => some []
  | x :: xs =>
    match Json.itemText x, Json.itemTexts xs with
    | some t, some ts => some (t :: ts)
    | _, _ => none
def Json.itemText : Json → Option String
  | .null => some ""
  | .bool b => some (if b then "true" else "false")
  | .num n => some (toString n)
  | .str s => some s
  | .arr items => (Json.itemTexts items).map (fun texts => ",".intercalate texts)
  | .obj fields =>
    if (fields.map Prod.fst).contains "toString" then none else some "[object Object]"
end

/-! ## The file model and the build manager -/

/-- The record `{id, file}` that `resolve` stores in a file's `resolvedModIds`. -/
structure CacheInfo where
  id : String
  file : Nat

/-- What reading `cacheResolveModIds[requireModId]` yields: a falsy value, a truthy value
that has no `id` (a member inherited from the prototype chain), or a cache record. -/
inductive CacheGet where
  | miss
  | noId
  | info (c : CacheInfo)

/-- The object `file.resolvedModIds`, created by the literal `{}`: its own properties, and
its prototype when an assignment to the key `__proto__` has replaced `Object.prototype` by
a cache record. -/
structure ModIdCache where
  own : List (String × CacheInfo) := []
  proto : Option CacheInfo := none

/-- JavaScript `cacheResolveModIds[k]`: the `__proto__` accessor returns the prototype; any
other key reads an own property, else a property of the prototype chain (the replaced
prototype's `id` and `file`, then the members of `Object.prototype`). -/
def ModIdCache.get (c : ModIdCache) (k : String) : CacheGet :=
  if k = "__proto__" then
    match c.proto with
    | some p => .info p
    | none => .noId
  else
    match objGet k c.own with
    | some i => .info i
    | none =>
      match c.proto with
      | some p =>
        if k = "id" then (if p.id = "" then .miss else .noId)
        else if k = "file" then .noId
        else if objectPrototypeKeys.contains k then .noId else .miss
      | none => if objectPrototypeKeys.contains k then .noId else .miss

/-- JavaScript `cacheResolveModIds[k] = v`: the key `__proto__` runs the prototype setter,
any other key writes an own property. -/
def ModIdCache.set (c : ModIdCache) (k : String) (v : CacheInfo) : ModIdCache :=
  if k = "__proto__" then { c with proto := some v }
  else { c with own := objSet k v c.own }

/-- A file object. `config` is the in-memory config object (its own fields), `tags` holds
the own keys of the tag-usage object (each mapped to `true`), `refs` and `tplRefs` are
values this development never looks into, and `component` is the back-link of a
component config file. -/
structure File where
  fullPath : String := ""
  path : String := ""
  dirname : String := ""
  resolvePath : Option String := none
  isVirtual : Bool := false
  data : Option String := none
  config : Option (List (String × Json)) := none
  isNpm : Bool := false
  isWxCompScript : Bool := false
  isSwanCompScript : Bool := false
  isAntCompScript : Bool := false
  isEntryScript : Bool := false
  isPageComponent : Bool := false
  isConfig : Bool := false
  isAppConfig : Bool := false
  deps : List String := []
  owner : Option Nat := none
  subFiles : List Nat := []
  resolvedModIds : Option ModIdCache := none
  features : Option (List String) := none
  isStyle : Bool := false
  extname : String := ""
  compiled : Bool := false
  allowRelease : Bool := false
  isComponentConfig : Bool := false
  isPageScript : Bool := false
  isComponentScript : Bool := false
  component : Option Nat := none
  content : Option String := none
  rext : Option String := none
  refs : Option Json := none
  tags : Option (List String) := none
  tplRefs : Option Json := none
  injectComponents : Option (List (String × String)) := none
  isEntryStyle : Bool := false

instance : Inhabited File := ⟨{}⟩

/-- One call of the logger: its level and its arguments. -/
structure LogEntry where
  level : String
  args : List String

/-- The mutable part of a build manager: the heap of file objects (a file reference is an
index into it), the file factory's registered files, the files handed to
`addNeedBuildFile` in call order, and the logger's output. -/
structure BuildManager where
  heap : List File := []
  files : List Nat := []
  needBuild : List Nat := []
  log : List LogEntry := []

/-- The fixed surroundings of a build: `buildManager.root`, `componentExtname`, the
orchestrator's path lookup `buildManager.resolve(requireModId, file)` (none: nothing
found), `util.file.getRequirePath` (its second argument may be `undefined`), Node's
`path.resolve`, `path.relative` and `path.dirname`, and JavaScript's `s > 0` for a string
`s` (whether the number that `s` converts to is greater than zero). -/
structure Env where
  root : String := ""
  componentExtname : String := ""
  resolve : String → Nat → Option String := fun _ _ => none
  getRequirePath : String → Option String → String := fun p _ => p
  pathResolve : String → String → String := fun d p => d ++ "/" ++ p
  pathRelative : String → String → String := fun _ p => p
  pathDirname : String → String := fun p => p
  numberGtZero : String → Bool := fun _ => false

/-- The file object a reference denotes. -/
def BuildManager.file (bm : BuildManager) (r : Nat) : File :=
  bm.heap.getD r default

/-- An in-place update of the file object behind a reference. -/
def BuildManager.modify (bm : BuildManager) (r : Nat) (f : File → File) : BuildManager :=
  { bm with heap := bm.heap.set r (f (bm.file r)) }

/-- JavaScript `logger.debug(...)`, `logger.error(...)`. -/
def BuildManager.logMsg (bm : BuildManager) (level : String) (args : List String) :
    BuildManager :=
  { bm with log := bm.log ++ [{ level := level, args := args }] }

/-- The argument object of `createFile`. -/
structure FileOpts where
  fullPath : String
  isVirtual : Bool := false
  data : Option String := none

/-- Modelled from the spec: `createFile` of `processor/FileFactory.js` is not under src/.
It makes a new file object from the given properties (a virtual file is backed by the
in-memory payload `data`), with its project-relative path and directory derived from the
full path, no role flag set, no owner and no sub-file. -/
def createFile (env : Env) (bm : BuildManager) (opts : FileOpts) : BuildManager × Nat :=
  ({ bm with heap := bm.heap ++ [{ fullPath := opts.fullPath,
                                   path := env.pathRelative env.root opts.fullPath,
                                   dirname := env.pathDirname opts.fullPath,
                                   isVirtual := opts.isVirtual,
                                   data := opts.data }] },
   bm.heap.length)

/-- Modelled from the spec: `files.getByFullPath` of the file factory is not under src/.
It is the registered file with the given absolute path, if any. -/
def getByFullPath (bm : BuildManager) (fullPath : String) : Option Nat :=
  bm.files.find? (fun r => (bm.file r).fullPath == fullPath)

/-- Modelled from the spec: `files.push` of the file factory is not under src/.
It registers a file object in the file set. -/
def push (bm : BuildManager) (r : Nat) : BuildManager :=
  { bm with files := bm.files ++ [r] }

/-- Modelled from the spec: `files.addFile` of the file factory is not under src/.
It is get-or-create: the registered file with that absolute path, else a new registered
file. -/
def addFile (env : Env) (bm : BuildManager) (fullPath : String) : BuildManager × Nat :=
  match getByFullPath bm fullPath with
  | some r => (bm, r)
  | none =>
    let (bm1, r) := createFile env bm { fullPath := fullPath }
    (push bm1 r, r)

/-- Modelled from the spec: `buildManager.addNeedBuildFile` is not under src/.
The model records the files handed to it, in call order. -/
def addNeedBuildFile (bm : BuildManager) (r : Nat) : BuildManager :=
  { bm with needBuild := bm.needBuild ++ [r] }

/-- Modelled from the spec: `file.addDeps` is not under src/. It adds a path to the file's
dependency set, once. -/
def addDeps (bm : BuildManager) (file : Nat) (depPath : String) : BuildManager :=
  bm.modify file (fun f =>
    if f.deps.contains depPath then f else { f with deps := f.deps ++ [depPath] })

/-- Modelled from the spec: `file.addSubFile` is not under src/. It sets the sub-file's
owner back-link and appends the sub-file to the owner's list, once. -/
def addSubFile (bm : BuildManager) (owner subFile : Nat) : BuildManager :=
  let bm1 := bm.modify subFile (fun f => { f with owner := some owner })
  bm1.modify owner (fun f =>
    if f.subFiles.contains subFile then f else { f with subFiles := f.subFiles ++ [subFile] })

/-! ## `processor/helper/npm.js`: `resolve` -/

/-- JavaScript `depFile.resolvePath || depFile.path`. -/
def outputPathOf (f : File) : String :=
  match f.resolvePath with
  | some p => if p = "" then f.path else p
  | none => f.path

/-- Line 58 of `resolve`: `cacheResolveModIds || (file.resolvedModIds = ... = {})`. -/
def initResolvedModIds (bm : BuildManager) (file : Nat) : BuildManager :=
  match (bm.file file).resolvedModIds with
  | some _ => bm
  | none => bm.modify file (fun f => { f with resolvedModIds := some {} })

/-- Lines 77-79 of `resolve`: the sticky reachability flags of the referencing file are
set on the dependency file. -/
def propagateFlags (bm : BuildManager) (file depFile : Nat) : BuildManager :=
  let bm1 :=
    if (bm.file file).isWxCompScript then
      bm.modify depFile (fun f => { f with isWxCompScript := true })
    else bm
  let bm2 :=
    if (bm1.file file).isSwanCompScript then
      bm1.modify depFile (fun f => { f with isSwanCompScript := true })
    else bm1
  if (bm2.file file).isAntCompScript then
    bm2.modify depFile (fun f => { f with isAntCompScript := true })
  else bm2

/-- Lines 81-90 of `resolve`: the id to return (`isNpmMod` and `isRelModId` were read
before the dependency file was looked up). -/
def resolveModIdOf (env : Env) (bm : BuildManager) (file depFile : Nat)
    (requireModId : String) (isNpmMod isRelModId : Bool) : String :=
  if isRelModId then requireModId
  else
    let rebaseRelPath :=
      if isNpmMod then (bm.file file).resolvePath else some (bm.file file).path
    env.getRequirePath (outputPathOf (bm.file depFile)) rebaseRelPath

/-- Lines 92-97 of `resolve`: the cache record is stored under the requested id and under
the resolved id, in the object that `file.resolvedModIds` holds. -/
def writeCache (bm : BuildManager) (file : Nat) (requireModId resolveModId : String)
    (cacheInfo : CacheInfo) : BuildManager :=
  bm.modify file (fun f =>
    { f with resolvedModIds :=
        f.resolvedModIds.map (fun c =>
          (c.set requireModId cacheInfo).set resolveModId cacheInfo) })

/-- Lines 70-99 of `resolve`: what it does once the lookup has found `depFileFullPath`. -/
def resolveFound (env : Env) (bm : BuildManager) (file : Nat) (requireModId : String)
    (isNpmMod isRelModId : Bool) (depFileFullPath : String) : BuildManager × String :=
  let bm1 := bm.logMsg "debug" ["resolve", (bm.file file).path, requireModId]
  let added := addFile env bm1 depFileFullPath
  let depFile := added.2
  let bm3 := addNeedBuildFile added.1 depFile
  let bm4 := addDeps bm3 file (bm3.file depFile).path
  let bm7 := propagateFlags bm4 file depFile
  let resolveModId := resolveModIdOf env bm7 file depFile requireModId isNpmMod isRelModId
  (writeCache bm7 file requireModId resolveModId { id := resolveModId, file := depFile },
   resolveModId)

/-- Function `exports.resolve`: the new build state and the returned id (none:
`undefined`). -/
def resolve (env : Env) (bm : BuildManager) (file : Nat) (requireModId : String) :
    BuildManager × Option String :=
  if requireModId = "" then (bm, some requireModId)
  else
    let isNpmMod := (bm.file file).isNpm
    let cacheResolveModIds := ((bm.file file).resolvedModIds).getD {}
    let bm0 := initResolvedModIds bm file
    match cacheResolveModIds.get requireModId with
    | .info resolveModInfo => (bm0, some resolveModInfo.id)
    | .noId => (bm0, none)
    | .miss =>
      let isRelModId := requireModId.toList.head? == some '.'
      match env.resolve requireModId file with
      | none => (bm0, none)
      | some depFileFullPath =>
        if depFileFullPath = "" then (bm0, none)
        else
          let found := resolveFound env bm0 file requireModId isNpmMod isRelModId depFileFullPath
          (found.1, some found.2)

/-! ## `processor/index.js`: entry-script expansion -/

/-- An array of strings, read as the list of its elements; none for any other value. -/
def Json.asStrings : Json → Option (List String)
  | .arr xs => mapOpt (fun x => match x with
      | .str s => some s
      | _ => none) xs
  | _ => none

/-- JavaScript `String(v)` for a property value `v`, where none is `undefined`. -/
def textOf (v : Option Json) : Option String :=
  match v with
  | none => some "undefined"
  | some x => x.toText

/-- JavaScript `v > 0`: `null` counts as 0, `true` as 1, a string or an array (through its
join) as the number it converts to, an object as no number. None is the TypeError of a
conversion. -/
def Json.gtZero (env : Env) (v : Json) : Option Bool :=
  match v with
  | .null => some false
  | .bool b => some b
  | .num n => some (decide (0 < n))
  | .str s => some (env.numberGtZero s)
  | .arr items => (Json.toText (.arr items)).map env.numberGtZero
  | .obj fields => (Json.toText (.obj fields)).map (fun _ => false)

/-- JavaScript `v.length > 0`: the length of an array or a string, the own property
`length` of an object, and `undefined` (so the test fails) for a number or boolean. None
is a TypeError. -/
def Json.lengthGtZero (env : Env) (v : Json) : Option Bool :=
  match v with
  | .null => none
  | .bool _ => some false
  | .num _ => some false
  | .str s => some (s != "")
  | .arr items => some (!items.isEmpty)
  | .obj fields =>
    match objGet "length" fields with
    | none => some false
    | some l => l.gtZero env

/-- JavaScript `pkg.root + '/' + subPage`; none is the TypeError of a conversion. -/
def joinPage (root : Option Json) (subPage : Json) : Option String :=
  match textOf root, subPage.toText with
  | some r, some q => some (r ++ "/" ++ q)
  | _, _ => none

/-- JavaScript `pkg.pages.map(subPage => pkg.root + '/' + subPage)` for a value
`pkg.pages` with `pkg.pages.length > 0`: only an array has a `map`, for any other value
the call is a TypeError. -/
def mapPages (root : Option Json) (pages : Json) : Option (List String) :=
  match pages with
  | .arr items => mapOpt (joinPage root) items
  | _ => none

/-- Lines 49-53 of `processEntryScript` for a package object: `pkg.pages` given by
`pages` (none: the package has no such property). -/
def packagePages (env : Env) (root pages : Option Json) : Option (List String) :=
  match pages with
  | none => some []
  | some ps =>
    if ps.truthy then
      match ps.lengthGtZero env with
      | none => none
      | some true => mapPages root ps
      | some false => some []
    else some []

/-- The callback `pkg => ...` of `subPackages.map` in `processEntryScript` (lines 48-54):
reading `pkg.pages` is a TypeError for `null` and yields `undefined` for a number, a
boolean, a string or an array. None is a TypeError. -/
def subPackagePages (env : Env) (pkg : Json) : Option (List String) :=
  match pkg with
  | .null => none
  | .obj fields => packagePages env (objGet "root" fields) (objGet "pages" fields)
  | _ => some []

/-- JavaScript `subPackages.map(pkg => ...).reduce((a, b) => a.concat(b))` for a value
`subPackages` with `subPackages.length > 0`: only an array has a `map`. -/
def mapPackages (env : Env) (subPackages : Json) : Option (List String) :=
  match subPackages with
  | .arr pkgs => (mapOpt (subPackagePages env) pkgs).map List.flatten
  | _ => none

/-- Lines 45-58 of `processEntryScript`: the pages that the `subPackages` of the app
config add, the empty list when the block is skipped (`subPackages` absent or falsy, or
`subPackages.length > 0` not true). None is a TypeError. -/
def subPackagesPages (env : Env) (subPackages : Option Json) : Option (List String) :=
  match subPackages with
  | none => some []
  | some v =>
    if v.truthy then
      match v.lengthGtZero env with
      | none => none
      | some true => mapPackages env v
      | some false => some []
    else some []

/-- Function `processConfigInfo(file, root, owner)`: the new state and the synthesized
file. -/
def processConfigInfo (env : Env) (bm : BuildManager) (file : Nat) (owner : Option Nat) :
    BuildManager × Option Nat :=
  match (bm.file file).config with
  | none => (bm, none)
  | some config =>
    let (bm1, jsonFile) := createFile env bm
      { isVirtual := true,
        data := some (Json.stringify (.obj config)),
        fullPath := (bm.file (owner.getD file)).fullPath ++ ".json" }
    let bm2 := bm1.modify jsonFile (fun f => { f with isConfig := true })
    let bm3 :=
      match owner with
      | some o => addSubFile bm2 o jsonFile
      | none => bm2
    (bm3, some jsonFile)

/-- JavaScript `path.resolve(file.dirname, p) + '.' + componentExtname` in
`processEntryScript`. -/
def pageFullPathOf (env : Env) (bm : BuildManager) (file : Nat) (p : String) : String :=
  env.pathResolve (bm.file file).dirname p ++ "." ++ env.componentExtname

/-- The body of `pages.forEach(p => ...)` in `processEntryScript`. -/
def markPage (env : Env) (file : Nat) (bm : BuildManager) (p : String) : BuildManager :=
  let pageFullPath := pageFullPathOf env bm file p
  match getByFullPath bm pageFullPath with
  | some pageFile =>
    addNeedBuildFile (bm.modify pageFile (fun f => { f with isPageComponent := true })) pageFile
  | none => bm

/-- JavaScript `appConfig.pages || []` in `processEntryScript`. -/
def pagesOrEmpty (appConfig : List (String × Json)) : Json :=
  match objGet "pages" appConfig with
  | some v => if v.truthy then v else .arr []
  | none => .arr []

/-- Lines 38-42 of `processEntryScript`: the config object defaults to an empty object and
its `pages` to an empty array, both written back to the file. -/
def initAppConfig (bm : BuildManager) (file : Nat) : BuildManager :=
  let appConfig := ((bm.file file).config).getD []
  let bm1 := bm.modify file (fun f => { f with config := some appConfig })
  bm1.modify file (fun f =>
    { f with config := f.config.map (objSet "pages" (pagesOrEmpty appConfig)) })

/-- Lines 72-80 of `processEntryScript`: the app config file is synthesized, or the
missing config is reported. -/
def finishEntryScript (env : Env) (bm : BuildManager) (file : Nat) : BuildManager :=
  match processConfigInfo env bm file (some file) with
  | (bm4, none) =>
    bm4.logMsg "error"
      ["missing app `config` property information in", (bm4.file file).path]
  | (bm4, some jsonFile) =>
    let bm5 := bm4.modify jsonFile (fun f => { f with isAppConfig := true })
    let bm6 := push bm5 jsonFile
    addNeedBuildFile bm6 jsonFile

/-- Function `processEntryScript(file, buildManager)`. None is a TypeError: of the
sub-package block (lines 45-58), of `pages.concat` or `pages.forEach` for a truthy `pages`
that is no array, or of Node's `path.resolve` for a page that is no string. -/
def processEntryScript (env : Env) (bm : BuildManager) (file : Nat) : Option BuildManager :=
  let appConfig := ((bm.file file).config).getD []
  let bm2 := initAppConfig bm file
  match (pagesOrEmpty appConfig).asStrings with
  | none => none
  | some pages =>
    match subPackagesPages env (((bm2.file file).config).bind (objGet "subPackages")) with
    | none => none
    | some subPackagesPages =>
      let bm3 := (pages ++ subPackagesPages).foldl (markPage env file) bm2
      some (finishEntryScript env bm3 file)

/-! ## `config/quick.js` and `build/quick/index.js`: API features -/

def notNeedDeclarationAPIFeatures : List String :=
  ["@system.router", "@system.app"]

/-- The test of `/^@(system|service)\./` on a module id. -/
def isSystemOrServiceId (requireModId : String) : Bool :=
  startsWith requireModId "@system." || startsWith requireModId "@service."

/-- JavaScript `file.features || (file.features = [])` in `onResolve`. -/
def initFeatures (bm : BuildManager) (file : Nat) : BuildManager :=
  match (bm.file file).features with
  | some _ => bm
  | none => bm.modify file (fun f => { f with features := some [] })

/-- Function `resolve.onResolve(requireModId, file)` of the Quick-App config. -/
def onResolve (bm : BuildManager) (requireModId : String) (file : Nat) : BuildManager :=
  if notNeedDeclarationAPIFeatures.contains requireModId then bm
  else if isSystemOrServiceId requireModId then
    let features := ((bm.file file).features).getD []
    let bm1 := initFeatures bm file
    if features.contains requireModId then bm1
    else bm1.modify file (fun f =>
      { f with features := f.features.map (fun fs => fs ++ [requireModId]) })
  else bm

/-- The inner loop of `getAllUsedAPIFeatures` over one file's features. -/
def collectFeatures (result features : List String) : List String :=
  features.foldl (fun res item => if res.contains item then res else res ++ [item]) result

/-- The callback of `this.files.forEach` in `getAllUsedAPIFeatures`. -/
def addFileFeatures (bm : BuildManager) (result : List String) (r : Nat) : List String :=
  match (bm.file r).features with
  | none => result
  | some features => collectFeatures result features

/-- Function `BuildQuickAppManager.getAllUsedAPIFeatures`. -/
def getAllUsedAPIFeatures (bm : BuildManager) : List String :=
  bm.files.foldl (addFileFeatures bm) []

/-! ## `processor/helper/init-view.js`: the template plugin chain -/

/-- A plugin object (an exported module or an object passed in the config), named by its
identity: two plugins are `===` exactly when they are equal here. -/
structure Plugin where
  id : Nat
  deriving DecidableEq

/-- What a plugin entry refers to: a string (a builtin name or a module path) or a plugin
object. -/
inductive PluginRef where
  | name (s : String)
  | plugin (p : Plugin)
  deriving DecidableEq

/-- An entry of a plugin list: `item`, or the array `[item, options]` (whose options may be
missing). -/
inductive PluginItem where
  | single (item : PluginRef)
  | pair (item : PluginRef) (options : Option Json)

/-- What `init-view.js` takes from its surroundings: `__dirname`, Node's `path.join` and
`require`, and of the build manager `appType`, `componentConf` and the answer of
`isEnableRefSupport()`. -/
structure ViewEnv where
  dirname : String := ""
  pathJoin : List String → String := fun ps => "/".intercalate ps
  require : String → Plugin := fun _ => { id := 0 }
  appType : String := ""
  componentConf : Option Json := none
  isEnableRefSupport : Bool := false

def PLUGIN_BASE_NAME (env : ViewEnv) : String :=
  env.pathJoin [env.dirname, "..", "template/plugins"]

def getEventSyntaxPlugin (env : ViewEnv) (appType : String) : String :=
  env.pathJoin [PLUGIN_BASE_NAME env, "event", appType ++ "-event-plugin"]

def getTemplateSyntaxPlugin (env : ViewEnv) (appType : String) : String :=
  env.pathJoin [PLUGIN_BASE_NAME env, appType ++ "-syntax-plugin"]

/-- JavaScript `BUILTIN_PLUGINS[item]`, for its own keys, with a function value already
applied to the app type: the module path of the builtin plugin. -/
def builtinPluginPath (env : ViewEnv) (item appType : String) : Option String :=
  if item = "syntax" then some (getTemplateSyntaxPlugin env appType)
  else if item = "eventSync" then some (getEventSyntaxPlugin env appType)
  else if item = "tagTransform" then
    some (env.pathJoin [PLUGIN_BASE_NAME env, "tag-transform-plugin"])
  else if item = "vuePrefix" then
    some (env.pathJoin [PLUGIN_BASE_NAME env, "vue-prefix-plugin"])
  else if item = "ref" then some (env.pathJoin [PLUGIN_BASE_NAME env, "ref-plugin"])
  else none

/-- The ref plugin, `require(BUILTIN_PLUGINS.ref)`. -/
def refPlugin (env : ViewEnv) : Plugin :=
  env.require (env.pathJoin [PLUGIN_BASE_NAME env, "ref-plugin"])

/-- JavaScript `Array.isArray(item) ? item[0] : item`. -/
def PluginItem.head : PluginItem → PluginRef
  | .single item => item
  | .pair item _ => item

/-- Function `addRefPlugin(plugins)`. -/
def addRefPlugin (env : ViewEnv) (plugins : List PluginItem) : List PluginItem :=
  let hasRefPlugin :=
    plugins.any (fun item => decide (PluginRef.plugin (refPlugin env) = item.head))
  if !hasRefPlugin then plugins ++ [.single (.plugin (refPlugin env))]
  else plugins

/-- The callback of `plugins.map` in `normalizeViewPlugins`; none for a bare name that is
no own key of `BUILTIN_PLUGINS` but a member inherited from `Object.prototype` (where the
JavaScript throws or yields a value that is no plugin). -/
def normalizeViewPlugin (env : ViewEnv) (appType : String) (item : PluginItem) :
    Option PluginItem :=
  let step1 : Option (PluginRef × Option Json) :=
    match item with
    | .pair item0 item1 => some (item0, item1)
    | .single (.name s) =>
      match builtinPluginPath env s appType with
      | some pluginPath =>
        if pluginPath = "" then some (.name s, none) else some (.name pluginPath, none)
      | none => if objectPrototypeKeys.contains s then none else some (.name s, none)
    | .single (.plugin q) => some (.plugin q, none)
  step1.map (fun (pluginItem, pluginOptions) =>
    let pluginItem1 : PluginRef :=
      match pluginItem with
      | .name s => .plugin (env.require s)
      | .plugin q => .plugin q
    match pluginOptions with
    | some o => if o.truthy then .pair pluginItem1 (some o) else .single pluginItem1
    | none => .single pluginItem1)

/-- Function `normalizeViewPlugins(plugins, appType)`. -/
def normalizeViewPlugins (env : ViewEnv) (plugins : List PluginItem) (appType : String) :
    Option (List PluginItem) :=
  mapOpt (normalizeViewPlugin env appType) plugins

/-- JavaScript `o[k]` for a JSON value `o` and a key that no string, array or prototype
defines. -/
def Json.field (o : Json) (k : String) : Option Json :=
  match o with
  | .obj fields => objGet k fields
  | _ => none

/-- The truthiness of `o[k]`. -/
def Json.fieldTruthy (o : Json) (k : String) : Bool :=
  match o.field k with
  | some v => v.truthy
  | none => false

/-- JavaScript `(componentConf && componentConf.template) || {}`. -/
def templateConfOf (componentConf : Option Json) : Json :=
  match componentConf with
  | some c =>
    if c.truthy then
      match c.field "template" with
      | some t => if t.truthy then t else .obj []
      | none => .obj []
    else .obj []
  | none => .obj []

/-- The object returned by `initViewTransformOptions`: its `plugins`, its `template` and
the file that `onTag` is bound to (the other properties of `processOpts` are copied as
they are). -/
structure ViewTransformOptions where
  plugins : List PluginItem
  template : Json
  onTagFile : Nat

/-- Lines 136-145 of `initViewTransformOptions`: the plugin names used when
`processOpts.plugins` is absent or empty. -/
def defaultViewPlugins (templateConf : Json) : List PluginItem :=
  let plugins : List PluginItem := [.single (.name "syntax")]
  let plugins1 :=
    if templateConf.fieldTruthy "transformTags" then plugins ++ [.single (.name "tagTransform")]
    else plugins
  if templateConf.fieldTruthy "useVuePrefix" then .single (.name "vuePrefix") :: plugins1
  else plugins1

/-- Function `initViewTransformOptions(file, processOpts, buildManager)`, given
`processOpts.plugins` (none: absent); the returned options, whose `plugins` is also what
is written back to `processOpts.plugins`. -/
def initViewTransformOptions (env : ViewEnv) (file : Nat)
    (processOptsPlugins : Option (List PluginItem)) : Option ViewTransformOptions :=
  let isSupportRef := env.isEnableRefSupport
  let templateConf := templateConfOf env.componentConf
  let plugins0 : List PluginItem :=
    match processOptsPlugins with
    | some (p :: ps) => p :: ps
    | _ => defaultViewPlugins templateConf
  (normalizeViewPlugins env plugins0 env.appType).map (fun plugins1 =>
    let plugins2 := if isSupportRef then addRefPlugin env plugins1 else plugins1
    { plugins := plugins2, template := templateConf, onTagFile := file })

/-! ## `config/quick.js`: `output.file`, and the page data access type -/

/-- Function `output.file(path, file)` of the Quick-App config; none is the result
`false`. -/
def outputFile (path : String) (file : File) : Option String :=
  if file.isStyle && file.extname != "css" && !file.compiled then none
  -- do not output not processed file and component config file
  else if !file.allowRelease || file.isComponentConfig then none
  else some path

def VALIDATED_DATA_TYPES : List String := ["public", "protected", "private"]

/-- JavaScript `VALIDATED_DATA_TYPES.includes(v)`: only a string equals a member. -/
def isValidatedDataType (v : Json) : Bool :=
  match v with
  | .str s => VALIDATED_DATA_TYPES.contains s
  | _ => false

/-- The text the logger writes for a value: a string as it is, any other value as
JSON. -/
def Json.logText (v : Json) : String :=
  match v with
  | .str s => s
  | _ => v.stringify

/-- JavaScript `envConfig && envConfig.data` for `envConfig = config[envConfigKey]`, the
key being one that no string, array or prototype defines; none is `undefined`. -/
def dataAccessTypeOf (config : Json) (envConfigKey : String) : Option Json :=
  match config.field envConfigKey with
  | none => none
  | some envConfig => if envConfig.truthy then envConfig.field "data" else some envConfig

/-- The branch `if (dataAccessType) ...` of `getAppBaseClassInitOptions`. -/
def initOptionsOf (bm : BuildManager) (dataAccessType : Json) : BuildManager × Option Json :=
  if dataAccessType.truthy then
    let bm1 :=
      if !isValidatedDataType dataAccessType then
        bm.logMsg "warn" ["illegal quick app page data type:", dataAccessType.logText]
      else bm
    (bm1, some (.obj [("dataAccessType", dataAccessType)]))
  else (bm, none)

/-- Function `BuildQuickAppManager.getAppBaseClassInitOptions(config, opts)`, with
`this.envConfigKey` and `opts.isPage` as arguments; a `config` of none is `undefined`, a
result of none is `undefined`. -/
def getAppBaseClassInitOptions (envConfigKey : String) (bm : BuildManager)
    (config : Option Json) (isPage : Bool) : BuildManager × Option Json :=
  match config with
  | none => (bm, none)
  | some config =>
    if !isPage || !config.truthy then (bm, none)
    else
      match dataAccessTypeOf config envConfigKey with
      | none => (bm, none)
      | some dataAccessType => initOptionsOf bm dataAccessType

/-! ## `processor/index.js`: `registerProcessor` -/

/-- A processor definition, given by the own fields of the object. -/
abbrev ProcessorDef := List (String × Json)

/-- JavaScript `Object.assign(target, source)` for two objects given by their own
fields. -/
def objAssign (target source : List (String × Json)) : List (String × Json) :=
  source.foldl (fun t kv => objSet kv.1 kv.2 t) target

/-- Modelled from the spec: `registerProcessor` of `processor/type.js` is not under src/.
The model keeps the registry as the definitions handed to it, in call order. -/
def registerProcessorType (registry : List ProcessorDef) (item : ProcessorDef) :
    List ProcessorDef :=
  registry ++ [item]

/-- The argument of `exports.registerProcessor`: an array of definitions, or an object
that maps names to definitions (its own keys in the order of `Object.keys`). -/
inductive CustomProcessors where
  | list (items : List ProcessorDef)
  | mapping (fields : List (String × ProcessorDef))

/-- The array built from a mapping: `result.push(Object.assign({name: k}, m[k]))` for
every key. -/
def processorsOfMapping (fields : List (String × ProcessorDef)) : List ProcessorDef :=
  fields.foldl (fun result kv => result ++ [objAssign [("name", .str kv.1)] kv.2]) []

/-- Function `exports.registerProcessor(customProcessors)`; none is a falsy argument. -/
def registerProcessor (registry : List ProcessorDef)
    (customProcessors : Option CustomProcessors) : List ProcessorDef :=
  match customProcessors with
  | none => registry
  | some (.list items) => items.foldl registerProcessorType registry
  | some (.mapping fields) => (processorsOfMapping fields).foldl registerProcessorType registry

/-- The list the statement compares with: for each key `k` of the mapping, in key order,
the definition `m[k]` with its name equal to `k`. -/
def namedDefinitions (fields : List (String × ProcessorDef)) : List ProcessorDef :=
  fields.map (fun kv => ("name", Json.str kv.1) :: kv.2.filter (fun f => f.1 != "name"))

/-! ## `processor/index.js`: `processFile`, `compile`, `compileComponent` -/

/-- The result object of a component handler: its template, script and style parts. -/
structure Component where
  tpl : Option Nat := none
  script : Option Nat := none
  styles : Option (List Nat) := none

/-- What a processor handler returns: a falsy value, a promise, an object with
`isComponent` set, or any other object (of which the model keeps `content`). -/
inductive HandlerResult where
  | falsy
  | promise
  | component (parts : Component)
  | result (content : Option String)

/-- A processor as `findMatchProcessor` and `getBuiltinProcessor` yield it. The handler is
the call of `processor.handler` on the file with the processor options and the compile
context: it may change the build state and returns its result. -/
structure Processor where
  name : String := ""
  handler : BuildManager → Nat → BuildManager × HandlerResult := fun bm _ => (bm, .falsy)
  options : Option Json := none
  rext : Option String := none

/-- What a call did, in order: a handler invoked by `processFile`, the calls of
`buildManager.addAsyncTask`, `buildManager.updateFileCompileResult` and
`buildManager.emit`, and the nested calls of `compile` and `compileComponent`, each with
what it did in turn. -/
inductive Event where
  | handler (file : Nat) (processor : String)
  | asyncTask (file : Nat)
  | updateResult (file : Nat) (content : Option String)
  | emit (event : String) (file : Nat)
  | compile (file : Nat) (inner : List Event)
  | component (file : Nat) (inner : List Event)

/-- An entry of `buildManager.globalComponents`. -/
structure GlobalComponent where
  isNpmMod : Bool := false
  modPath : String := ""

/-- What `processor/index.js` takes from its surroundings: the build environment, the view
environment (`buildManager.appType`), `findMatchProcessor(file, rules, buildManager)`,
`getBuiltinProcessor` for one plugin with the option `customComponentTags`, as a function
of the processor name, the plugin path and the tags, `util.string.toHyphen`, and
`buildManager.globalComponents`. -/
structure CompileEnv where
  env : Env := {}
  view : ViewEnv := {}
  findMatchProcessor : BuildManager → Nat → List Processor := fun _ _ => []
  getBuiltinProcessor : String → String → Option (List String) → Processor := fun _ _ _ => {}
  toHyphen : String → String := fun s => s
  globalComponents : Option (List (String × GlobalComponent)) := none

/-- The functions `compile` and `processFile` as a nested call reaches them; none is a
call that does not return (an exception, or a nesting deeper than the model follows). -/
structure Funs where
  compile : BuildManager → Nat → Option (BuildManager × List Event)
  processFile : BuildManager → Nat → Processor → Option (BuildManager × List Event)

/-- The number of UTF-16 code units of a string, JavaScript `s.length`. -/
def utf16Length (s : String) : Nat :=
  (s.toList.map (fun c => if c.toNat < 65536 then 1 else 2)).sum

/-- JavaScript `Object.keys(v)` for a truthy value. -/
def Json.keys : Json → List String
  | .obj fields => fields.map Prod.fst
  | .arr items => (List.range items.length).map toString
  | .str s => (List.range (utf16Length s)).map toString
  | _ => []

/-- Function `getCustomComponentTags(config)`; none is `undefined`. -/
def getCustomComponentTags (cenv : CompileEnv) (config : Option (List (String × Json))) :
    Option (List String) :=
  match objGet "usingComponents" (config.getD []) with
  | none => none
  | some usingComponents =>
    if !usingComponents.truthy then none
    else some (usingComponents.keys.map cenv.toHyphen)

/-- JavaScript `allTags[k]`, read for its truthiness, on the tag-usage object: an own key
is mapped to `true`, and every plain object inherits the members of `Object.prototype`. -/
def tagUsed (allTags : List String) (k : String) : Bool :=
  allTags.contains k || objectPrototypeKeys.contains k

/-- The body of the `forEach` callback of `getImportComponents`. Assigning a string to the
key `__proto__` of a plain object adds no own property. -/
def addImportComponent (env : Env) (fullPath : String) (allTags : List String)
    (result : List (String × String)) (item : String × GlobalComponent) :
    List (String × String) :=
  if tagUsed allTags item.1 then
    let modPath :=
      if !item.2.isNpmMod then env.getRequirePath item.2.modPath (some fullPath)
      else item.2.modPath
    if item.1 = "__proto__" then result else objSet item.1 modPath result
  else result

/-- Function `getImportComponents(file, globalComponents, allTags)`: the inner none is the
result `null`, the outer none the TypeError of reading `allTags[k]` when `allTags` is
`undefined`. -/
def getImportComponents (env : Env) (bm : BuildManager) (file : Nat)
    (globalComponents : Option (List (String × GlobalComponent)))
    (allTags : Option (List String)) : Option (Option (List (String × String))) :=
  match globalComponents with
  | none => some none
  | some components =>
    if components.isEmpty then some none
    else
      match allTags with
      | none => none
      | some tags =>
        let result := components.foldl (addImportComponent env (bm.file file).fullPath tags) []
        some (if result.isEmpty then none else some result)

/-- JavaScript `rext && (file.rext = rext)` in `processFile`. -/
def setRext (bm : BuildManager) (file : Nat) (rext : Option String) : BuildManager :=
  match rext with
  | none => bm
  | some x => if x = "" then bm else bm.modify file (fun f => { f with rext := some x })

/-- The text the logger writes for the options of a processor. -/
def optionsText (options : Option Json) : String :=
  match options with
  | none => "undefined"
  | some o => o.logText

/-- The text the logger writes for `scriptFile.injectComponents`. -/
def injectText (injectComponents : Option (List (String × String))) : String :=
  match injectComponents with
  | none => "null"
  | some m => Json.stringify (.obj (m.map (fun kv => (kv.1, Json.str kv.2))))

/-- JavaScript `xs.forEach(x => step(x))` for a step that may not return: the state after
the last step and what the steps did, in order. -/
def forEachStep {α : Type} (step : BuildManager → α → Option (BuildManager × List Event)) :
    List α → BuildManager → Option (BuildManager × List Event)
  | [], bm => some (bm, [])
  | x :: xs, bm =>
    match step bm x with
    | none => none
    | some r1 =>
      match forEachStep step xs r1.1 with
      | none => none
      | some r2 => some (r2.1, r1.2 ++ r2.2)

/-- Lines 193-213 of `compileComponent`: the script file gets its role flag, the refs of
the template, the components to inject, and the logger's debug line is written. None is
the TypeError of `getImportComponents`. -/
def prepareScript (cenv : CompileEnv) (bm : BuildManager) (tpl scriptFile file : Nat) :
    Option BuildManager :=
  let bm1 :=
    if (bm.file file).isPageComponent then
      bm.modify scriptFile (fun f => { f with isPageScript := true })
    else bm.modify scriptFile (fun f => { f with isComponentScript := true })
  let bm2 := bm1.modify scriptFile (fun f => { f with tplRefs := (bm1.file tpl).refs })
  match getImportComponents cenv.env bm2 scriptFile cenv.globalComponents
      (bm2.file tpl).tags with
  | none => none
  | some injectComponents =>
    let bm3 := bm2.modify scriptFile (fun f => { f with injectComponents := injectComponents })
    some (bm3.logMsg "debug"
      [(bm3.file scriptFile).path, "inject components", injectText injectComponents])

/-- Lines 217-225 of `compileComponent`: the view processor of the second template pass,
with the event-syntax plugin of the app type and the custom-component tags of the script's
config. -/
def secondPass (cenv : CompileEnv) (bm : BuildManager) (scriptFile : Nat) : Processor :=
  cenv.getBuiltinProcessor "view" (getEventSyntaxPlugin cenv.view cenv.view.appType)
    (getCustomComponentTags cenv (bm.file scriptFile).config)

/-- The step `compile(item, buildManager)`, recorded as one nested call. -/
def compileStep (prev : Funs) (bm : BuildManager) (item : Nat) :
    Option (BuildManager × List Event) :=
  (prev.compile bm item).map (fun r => (r.1, [Event.compile item r.2]))

/-- Lines 192-227 of `compileComponent`: the script part. Reading `tplFile.refs` throws a
TypeError when the component has no template. -/
def compileScriptPart (prev : Funs) (cenv : CompileEnv) (bm : BuildManager)
    (tplFile : Option Nat) (scriptFile file : Nat) : Option (BuildManager × List Event) :=
  match tplFile with
  | none => none
  | some tpl =>
    match prepareScript cenv bm tpl scriptFile file with
    | none => none
    | some bm4 =>
      match compileStep prev bm4 scriptFile with
      | none => none
      | some r1 =>
        match prev.processFile r1.1 tpl (secondPass cenv r1.1 scriptFile) with
        | none => none
        | some r2 => some (r2.1, r1.2 ++ r2.2)

/-- Function `compileComponent(component, file, buildManager)`, its nested calls of
`compile` and `processFile` given by `prev`. -/
def compileComponentWith (prev : Funs) (cenv : CompileEnv) (bm : BuildManager)
    (component : Component) (file : Nat) : Option (BuildManager × List Event) :=
  -- tpl compile should ahead of the script part to extract ref info
  let tplPart :=
    match component.tpl with
    | none => some (bm, [])
    | some tplFile => compileStep prev bm tplFile
  match tplPart with
  | none => none
  | some r1 =>
    let scriptPart :=
      match component.script with
      | none => some (r1.1, [])
      | some scriptFile => compileScriptPart prev cenv r1.1 component.tpl scriptFile file
    match scriptPart with
    | none => none
    | some r2 =>
      match forEachStep (compileStep prev) (component.styles.getD []) r2.1 with
      | none => none
      | some r3 => some (r3.1, r1.2 ++ r2.2 ++ r3.2)

/-- Line 103 of `processFile`: the logger's debug line. -/
def processFileLog (bm : BuildManager) (file : Nat) (processor : Processor) : BuildManager :=
  bm.logMsg "debug"
    ["compile file " ++ (bm.file file).path ++ ", using " ++ processor.name ++ ": ",
     optionsText processor.options]

/-- Function `processFile(file, processor, buildManager)`, its nested calls given by
`prev`. -/
def processFileWith (prev : Funs) (cenv : CompileEnv) (bm : BuildManager) (file : Nat)
    (processor : Processor) : Option (BuildManager × List Event) :=
  let called := processor.handler (processFileLog bm file processor) file
  match called.2 with
  | .falsy => some (called.1, [.handler file processor.name])
  | .promise =>
    some (setRext called.1 file processor.rext, [.handler file processor.name, .asyncTask file])
  | .component parts =>
    match compileComponentWith prev cenv (setRext called.1 file processor.rext) parts file with
    | none => none
    | some r =>
      some (r.1, [.handler file processor.name, .component file r.2,
                  .updateResult file (r.1.file file).content])
  | .result content =>
    some (setRext called.1 file processor.rext,
          [.handler file processor.name, .updateResult file content])

/-- Function `processComponentScript(buildManager, file, root)`, its nested call of
`compile` given by `prev`. -/
def processComponentScriptWith (prev : Funs) (cenv : CompileEnv) (bm : BuildManager)
    (file : Nat) : Option (BuildManager × List Event) :=
  let made := processConfigInfo cenv.env bm file (bm.file file).owner
  match made.2 with
  | none => some (made.1, [])
  | some jsonFile =>
    let bm1 := made.1.modify jsonFile
      (fun f => { f with component := some file, isComponentConfig := true })
    compileStep prev bm1 jsonFile

/-- Lines 143-148 of `compile`: the expansion that the role of the file asks for. -/
def expandRole (prev : Funs) (cenv : CompileEnv) (bm : BuildManager) (file : Nat) :
    Option (BuildManager × List Event) :=
  if (bm.file file).isEntryScript then
    (processEntryScript cenv.env bm file).map (fun st => (st, []))
  else if (bm.file file).isPageScript || (bm.file file).isComponentScript then
    processComponentScriptWith prev cenv bm file
  else some (bm, [])

/-- Lines 135-137 of `compile`: the state in which the first processor runs. -/
def startCompile (cenv : CompileEnv) (bm : BuildManager) (file : Nat) : BuildManager :=
  (bm.logMsg "debug"
    ["compile file:", (bm.file file).path,
     toString (cenv.findMatchProcessor bm file).length]).modify file
    (fun f => { f with allowRelease := true }) -- add allow release flag

/-- Function `compile(file, buildManager)`, its nested calls given by `prev`. -/
def compileWith (prev : Funs) (cenv : CompileEnv) (bm : BuildManager) (file : Nat) :
    Option (BuildManager × List Event) :=
  let processors := cenv.findMatchProcessor bm file
  match forEachStep (fun b p => processFileWith prev cenv b file p) processors
      (startCompile cenv bm file) with
  | none => none
  | some r1 =>
    match expandRole prev cenv r1.1 file with
    | none => none
    | some r2 => some (r2.1, r1.2 ++ r2.2 ++ [.emit "buildFileDone" file])

/-- The functions `compile` and `processFile` with nested calls followed to the given
depth. -/
def run (cenv : CompileEnv) : Nat → Funs
  | 0 => { compile := fun _ _ => none, processFile := fun _ _ _ => none }
  | n + 1 =>
    { compile := compileWith (run cenv n) cenv,
      processFile := processFileWith (run cenv n) cenv }

/-- Function `compile(file, buildManager)`, nested calls followed to the depth `fuel`. -/
def compile (cenv : CompileEnv) (fuel : Nat) (bm : BuildManager) (file : Nat) :
    Option (BuildManager × List Event) :=
  (run cenv fuel).compile bm file

/-- Function `processFile(file, processor, buildManager)`, nested calls followed to the
depth `fuel`. -/
def processFile (cenv : CompileEnv) (fuel : Nat) (bm : BuildManager) (file : Nat)
    (processor : Processor) : Option (BuildManager × List Event) :=
  (run cenv fuel).processFile bm file processor

/-- Function `compileComponent(component, file, buildManager)`, nested calls followed to
the depth `fuel`. -/
def compileComponent (cenv : CompileEnv) (fuel : Nat) (bm : BuildManager)
    (component : Component) (file : Nat) : Option (BuildManager × List Event) :=
  compileComponentWith (run cenv fuel) cenv bm component file

/-- Function `processComponentScript(buildManager, file, root)`, nested calls followed to
the depth `fuel`. -/
def processComponentScript (cenv : CompileEnv) (fuel : Nat) (bm : BuildManager)
    (file : Nat) : Option (BuildManager × List Event) :=
  processComponentScriptWith (run cenv fuel) cenv bm file

/-- The handler invocation that an event records, if it is one. -/
def Event.handlerOf : Event → Option (Nat × String)
  | .handler file processor => some (file, processor)
  | _ => none

/-- The emitted event that an event records, if it is one. -/
def Event.emitOf : Event → Option (String × Nat)
  | .emit event file => some (event, file)
  | _ => none

/-- The file whose nested compile an event records, if it is one. -/
def Event.compileOf : Event → Option Nat
  | .compile file _ => some file
  | _ => none

/-! ## `processor/helper/init-view.js`: `handleOnTag` -/

/-- JavaScript `delete tags[k]` on the own keys of the tag-usage object. -/
def tagsDelete (tags : List String) (k : String) : List String :=
  tags.filter (fun x => x != k)

/-- JavaScript `tags[k] = true` on the own keys of the tag-usage object: the key
`__proto__` runs the prototype setter, which ignores the value `true`; any other key is an
own key afterwards (a new one is added last). -/
def tagsSet (tags : List String) (k : String) : List String :=
  if k = "__proto__" then tags
  else if tags.contains k then tags
  else tags ++ [k]

/-- Lines 105-107 of `handleOnTag`; a `replaceTagName` of none is `undefined`. None is the
TypeError of calling `tags.hasOwnProperty` when the tag-usage object has an own key of
that name, whose value `true` is no function. -/
def replaceTag (tags : List String) (replaceTagName : Option String) : Option (List String) :=
  match replaceTagName with
  | none => some tags
  | some r =>
    if r = "" then some tags
    else if tags.contains "hasOwnProperty" then none
    else some (if tags.contains r then tagsDelete tags r else tags)

/-- Function `handleOnTag(file, tagName, replaceTagName)`. -/
def handleOnTag (bm : BuildManager) (file : Nat) (tagName : String)
    (replaceTagName : Option String) : Option BuildManager :=
  let tags := ((bm.file file).tags).getD []
  (replaceTag tags replaceTagName).map (fun replaced =>
    bm.modify file (fun f => { f with tags := some (tagsSet replaced tagName) }))

/-! ## `build/quick/index.js`: `initAddCSSDependenciesProcessor` -/

/-- What `initAddCSSDependenciesProcessor` takes from its surroundings: `this.root`, Node's
`path.join`, and `this.generator.getOutputPath(file)`, which reads the file as the build
state has it. -/
structure QuickEnv where
  root : String := ""
  pathJoin : List String → String := fun ps => "/".intercalate ps
  getOutputPath : BuildManager → Nat → String := fun bm r => (bm.file r).path

/-- The mapping that `initAddCSSDependenciesProcessor` registers for a style file path. -/
def addCssDependenciesOf (styleFile : String) : List (String × ProcessorDef) :=
  [("addCssDependencies", [("options", .obj [("styleFiles", .arr [.str styleFile])])])]

/-- Function `BuildQuickAppManager.initAddCSSDependenciesProcessor`, on the build state and
the processor registry. -/
def initAddCSSDependenciesProcessor (qenv : QuickEnv) (bm : BuildManager)
    (registry : List ProcessorDef) : BuildManager × List ProcessorDef :=
  match bm.files.find? (fun r => (bm.file r).isEntryStyle) with
  | none => (bm, registry)
  | some found =>
    let bm1 := bm.modify found (fun f => { f with allowRelease := true })
    -- avoid the file output path return false, here we make an assumption
    -- that the file has been compiled
    let bm2 := bm1.modify found (fun f => { f with compiled := true })
    let outputPath := qenv.getOutputPath bm2 found
    let bm3 := bm2.modify found (fun f => { f with compiled := false }) -- reset compiled info
    (bm3, registerProcessor registry
      (some (.mapping (addCssDependenciesOf (qenv.pathJoin [qenv.root, outputPath])))))

/-! ## Predicates and sample data used by the statements -/

/-- Every record that the cache yields can also be read under its own id. -/
def CacheClosed (c : ModIdCache) : Prop :=
  ∀ k i, c.get k = .info i → ∃ i', c.get i.id = .info i' ∧ i'.id = i.id

/-- A sequence of `onResolve(requireModId, file)` calls, in order. -/
def runOnResolve (bm : BuildManager) (calls : List (String × Nat)) : BuildManager :=
  calls.foldl (fun b c => onResolve b c.1 c.2) bm

/-- The ids that need a feature declaration: a system or service id outside the list of
always available features. -/
def needsDeclaration (requireModId : String) : Bool :=
  isSystemOrServiceId requireModId && !notNeedDeclarationAPIFeatures.contains requireModId

/-- The feature list of a file, empty when the file has none. -/
def featuresOf (bm : BuildManager) (g : Nat) : List String :=
  ((bm.file g).features).getD []

/-- A declared page path of an app config, in the words of the spec: an element of
`config.pages`, or `root + '/' + q` for a sub-package with that root and a page `q` of
it. -/
def IsDeclaredPage (config : List (String × Json)) (p : String) : Prop :=
  (∃ pages, objGet "pages" config = some (.arr pages) ∧ Json.str p ∈ pages) ∨
  (∃ pkgs fields root pages q,
    objGet "subPackages" config = some (.arr pkgs) ∧ Json.obj fields ∈ pkgs ∧
    objGet "root" fields = some (.str root) ∧ objGet "pages" fields = some (.arr pages) ∧
    Json.str q ∈ pages ∧ p = root ++ "/" ++ q)

/-- A declared page path where `root + '/' + q` is read as the JavaScript expression, with
the conversion to a string that `+` applies to a root or a page that is no string. -/
def IsDeclaredPageText (config : List (String × Json)) (p : String) : Prop :=
  (∃ pages, objGet "pages" config = some (.arr pages) ∧ Json.str p ∈ pages) ∨
  (∃ pkgs fields pages q rootText qText,
    objGet "subPackages" config = some (.arr pkgs) ∧ Json.obj fields ∈ pkgs ∧
    objGet "pages" fields = some (.arr pages) ∧ q ∈ pages ∧
    textOf (objGet "root" fields) = some rootText ∧ q.toText = some qText ∧
    p = rootText ++ "/" ++ qText)

/-- A sample app config without `pages`. -/
def demoWindowConfig : List (String × Json) :=
  [("window", .obj [("navigationBarTitleText", .str "demo")])]

/-- A sample build state: an entry script whose config has no `pages`. -/
def demoNoPages : BuildManager :=
  { heap := [{ fullPath := "/p/src/app.js", path := "src/app.js", dirname := "/p/src",
               isEntryScript := true, config := some demoWindowConfig }],
    files := [0] }

/-- A sample app config with one page and one sub-package page. -/
def demoAppConfig : List (String × Json) :=
  [("pages", .arr [.str "pages/index/index"]),
   ("subPackages", .arr [.obj [("root", .str "sub"), ("pages", .arr [.str "detail"])]])]

/-- A sample build state: an entry script with `demoAppConfig`, the component file of its
page, and an unrelated file; the sub-package page has no file. -/
def demoApp : BuildManager :=
  { heap := [{ fullPath := "/p/src/app.js", path := "src/app.js", dirname := "/p/src",
               isEntryScript := true, config := some demoAppConfig },
             { fullPath := "/p/src/pages/index/index.okm" },
             { fullPath := "/p/src/other.okm" }],
    files := [0, 1, 2] }

/-- The sample build state `demoApp` with the config `c` on the entry script. -/
def demoAppWith (c : List (String × Json)) : BuildManager :=
  { heap := [{ fullPath := "/p/src/app.js", path := "src/app.js", dirname := "/p/src",
               isEntryScript := true, config := some c },
             { fullPath := "/p/src/pages/index/index.okm" },
             { fullPath := "/p/src/other.okm" }],
    files := [0, 1, 2] }

/-- A sample app config whose `pages` is a string where the code expects an array. -/
def demoTextPages : List (String × Json) :=
  [("pages", .str "pages/index/index")]

/-- A sample app config with one page and one sub-package, whose `pages` is a string where
the code expects an array. -/
def demoTextPackage : List (String × Json) :=
  [("pages", .arr [.str "pages/index/index"]),
   ("subPackages", .arr [.obj [("root", .str "sub"), ("pages", .str "detail")]])]

/-- A sample build state of two registered files without features. -/
def demoQuick : BuildManager :=
  { heap := [{ fullPath := "/p/src/a.js" }, { fullPath := "/p/src/b.js" }], files := [0, 1] }

/-- Sample calls: `@service.fetch` from both files, `@system.router` from the second. -/
def demoCalls : List (String × Nat) :=
  [("@service.fetch", 0), ("@service.fetch", 1), ("@system.router", 1)]

/-- The prefix plugin, `require(BUILTIN_PLUGINS.vuePrefix)`. -/
def vuePrefixPlugin (env : ViewEnv) : Plugin :=
  env.require (env.pathJoin [PLUGIN_BASE_NAME env, "vue-prefix-plugin"])

/-- The syntax plugin of the current app type, `require(BUILTIN_PLUGINS.syntax(appType))`. -/
def syntaxPlugin (env : ViewEnv) : Plugin :=
  env.require (getTemplateSyntaxPlugin env env.appType)

/-- The tag-transform plugin, `require(BUILTIN_PLUGINS.tagTransform)`. -/
def tagTransformPlugin (env : ViewEnv) : Plugin :=
  env.require (env.pathJoin [PLUGIN_BASE_NAME env, "tag-transform-plugin"])

/-- A sample `path.join`, which never yields the empty path. -/
def demoJoin (ps : List String) : String :=
  String.mk ('/' :: ("/".intercalate ps).toList)

/-- A sample `require`: modules are told apart by the length of their path. -/
def demoRequire (path : String) : Plugin :=
  { id := path.length }

/-- A sample view environment: tag rewriting configured, prefix normalization enabled, ref
support off. -/
def demoViewEnv : ViewEnv :=
  { dirname := "lib/processor/helper", pathJoin := demoJoin, require := demoRequire,
    appType := "quick",
    componentConf := some (.obj [("template",
      .obj [("transformTags", .obj [("button", .str "o-button")]),
            ("useVuePrefix", .bool true)])]),
    isEnableRefSupport := false }

/-- A sample path lookup: one package of the install directory and one source file. -/
def demoLookup (requireModId : String) (_file : Nat) : Option String :=
  if requireModId = "lodash" then some "/p/node_modules/lodash/index.js"
  else if requireModId = "./util" then some "/p/src/util.js"
  else none

/-- A sample `getRequirePath`, which ignores the anchor. -/
def demoRequirePath (p : String) (_anchor : Option String) : String :=
  "./" ++ p

/-- A sample `path.relative` for the project root `/p`. -/
def demoRelative (_root p : String) : String :=
  String.mk (p.toList.drop 3)

/-- A sample build environment. -/
def demoEnv : Env :=
  { root := "/p", componentExtname := "okm", resolve := demoLookup,
    getRequirePath := demoRequirePath, pathRelative := demoRelative }

/-- A sample build state: the entry script `/p/src/app.js`, registered. -/
def demoBuild : BuildManager :=
  { heap := [{ fullPath := "/p/src/app.js", path := "src/app.js", dirname := "/p/src",
               isEntryScript := true }],
    files := [0] }

/-- A sample path lookup that also finds a package named `constructor`. -/
def demoInheritedLookup (requireModId : String) (file : Nat) : Option String :=
  if requireModId = "constructor" then some "/p/node_modules/constructor/index.js"
  else demoLookup requireModId file

/-- The sample build environment with the lookup `demoInheritedLookup`. -/
def demoInheritedEnv : Env :=
  { root := "/p", componentExtname := "okm", resolve := demoInheritedLookup,
    getRequirePath := demoRequirePath, pathRelative := demoRelative }

/-- A sample `getRequirePath` whose result shows both of its arguments. -/
def demoAnchorRequirePath (p : String) (anchor : Option String) : String :=
  p ++ " from " ++ anchor.getD "undefined"

/-- The sample build environment with `demoAnchorRequirePath`. -/
def demoAnchorEnv : Env :=
  { root := "/p", componentExtname := "okm", resolve := demoLookup,
    getRequirePath := demoAnchorRequirePath, pathRelative := demoRelative }

/-- A sample build state: two files of the install directory, both with a `resolvePath`
and the `isNpm` flag. -/
def demoNpmBuild : BuildManager :=
  { heap := [{ fullPath := "/p/node_modules/a/index.js", path := "node_modules/a/index.js",
               dirname := "/p/node_modules/a", resolvePath := some "src/npm/a/index.js",
               isNpm := true },
             { fullPath := "/p/node_modules/lodash/index.js",
               path := "node_modules/lodash/index.js",
               resolvePath := some "src/npm/lodash/index.js", isNpm := true }],
    files := [0, 1] }

/-- A sequence of `resolve(buildManager, file, requireModId)` calls, in order. -/
def runResolve (env : Env) (bm : BuildManager) (calls : List (Nat × String)) : BuildManager :=
  calls.foldl (fun b c => (resolve env b c.1 c.2).1) bm

/-- A dependency edge recorded by `resolve`: the path of `d` is in the dependency set of
`f`. -/
def HasDep (bm : BuildManager) (f d : Nat) : Prop :=
  (bm.file d).path ∈ (bm.file f).deps

instance (bm : BuildManager) (f d : Nat) : Decidable (HasDep bm f d) :=
  inferInstanceAs (Decidable ((bm.file d).path ∈ (bm.file f).deps))

/-- A sample path lookup: `./b` and `./c` are source files. -/
def demoChainLookup (requireModId : String) (_file : Nat) : Option String :=
  if requireModId = "./b" then some "/p/src/b.js"
  else if requireModId = "./c" then some "/p/src/c.js"
  else none

/-- A sample build environment with the lookup `demoChainLookup`. -/
def demoChainEnv : Env :=
  { root := "/p", componentExtname := "okm", resolve := demoChainLookup,
    getRequirePath := demoRequirePath, pathRelative := demoRelative }

/-- A sample build state of three registered files: `a.js`, reachable from a wx component
script, `b.js` and `c.js`. -/
def demoChain : BuildManager :=
  { heap := [{ fullPath := "/p/src/a.js", path := "src/a.js", isWxCompScript := true },
             { fullPath := "/p/src/b.js", path := "src/b.js" },
             { fullPath := "/p/src/c.js", path := "src/c.js" }],
    files := [0, 1, 2] }

/-- The resolved-module cache of a file, empty when the file has none. -/
def cacheOf (bm : BuildManager) (g : Nat) : ModIdCache :=
  ((bm.file g).resolvedModIds).getD {}

/-- The keys that lines 96-97 of `resolve` assign in the cache during one call, in order:
none when the call returns before them (an empty id, a cache hit, a failed lookup), else
the requested id and the resolved id. -/
def cacheWrites (env : Env) (bm : BuildManager) (file : Nat) (requireModId : String) :
    List String :=
  if requireModId = "" then []
  else
    match (cacheOf bm file).get requireModId with
    | .info _ => []
    | .noId => []
    | .miss =>
      match env.resolve requireModId file with
      | none => []
      | some depFileFullPath =>
        if depFileFullPath = "" then []
        else
          [requireModId,
           (resolveFound env (initResolvedModIds bm file) file requireModId (bm.file file).isNpm
              (requireModId.toList.head? == some '.') depFileFullPath).2]

/-- A sample path lookup: two ids for the main file of one package. -/
def demoAliasLookup (requireModId : String) (_file : Nat) : Option String :=
  if requireModId = "lodash" then some "/p/node_modules/lodash/index.js"
  else if requireModId = "lodash/index" then some "/p/node_modules/lodash/index.js"
  else none

/-- A sample build environment with the lookup `demoAliasLookup`. -/
def demoAliasEnv : Env :=
  { root := "/p", componentExtname := "okm", resolve := demoAliasLookup,
    getRequirePath := demoRequirePath, pathRelative := demoRelative }

/-- A sample handler of the component processor: the parts are the files 1, 2 and 3. -/
def demoComponentHandler (bm : BuildManager) (_file : Nat) : BuildManager × HandlerResult :=
  (bm, .component { tpl := some 1, script := some 2, styles := some [3] })

/-- A sample handler that returns an object with the given content. -/
def demoContentHandler (content : String) (bm : BuildManager) (_file : Nat) :
    BuildManager × HandlerResult :=
  (bm, .result (some content))

/-- A sample handler that returns nothing. -/
def demoFilterHandler (bm : BuildManager) (_file : Nat) : BuildManager × HandlerResult :=
  (bm, .falsy)

/-- A sample processor whose handler returns nothing, with an output extension. -/
def demoFilterProcessor : Processor :=
  { name := "postcss", handler := demoFilterHandler, rext := some "css" }

/-- A sample `findMatchProcessor`: the processors are chosen by the extname. -/
def demoFindMatchProcessor (bm : BuildManager) (file : Nat) : List Processor :=
  if (bm.file file).extname = "okm" then
    [{ name := "component", handler := demoComponentHandler }]
  else if (bm.file file).extname = "tpl" then
    [{ name := "view", handler := demoContentHandler "<view></view>", rext := some "swan" }]
  else if (bm.file file).extname = "js" then
    [{ name := "babel", handler := demoContentHandler "Page()" }]
  else if (bm.file file).extname = "less" then
    [{ name := "less", handler := demoContentHandler "a: b", rext := some "css" },
     demoFilterProcessor]
  else []

/-- A sample `getBuiltinProcessor`. -/
def demoBuiltinProcessor (name plugin : String) (_tags : Option (List String)) : Processor :=
  { name := name, handler := demoContentHandler "<view></view>",
    options := some (.obj [("plugin", .str plugin)]) }

/-- A sample environment of `processor/index.js`. -/
def demoCompileEnv : CompileEnv :=
  { env := demoEnv, view := demoViewEnv, findMatchProcessor := demoFindMatchProcessor,
    getBuiltinProcessor := demoBuiltinProcessor }

/-- A sample component: template 1, script 2, one style file 3. -/
def demoComponent : Component :=
  { tpl := some 1, script := some 2, styles := some [3] }

/-- A sample build state: the component file of a page, and its template, script and
style parts. -/
def demoComponentBuild : BuildManager :=
  { heap := [{ fullPath := "/p/src/pages/home.okm", path := "src/pages/home.okm",
               extname := "okm", isPageComponent := true },
             { fullPath := "/p/src/pages/home.tpl", path := "src/pages/home.tpl",
               extname := "tpl", tags := some ["button"] },
             { fullPath := "/p/src/pages/home.js", path := "src/pages/home.js",
               extname := "js", config := some [("usingComponents", .obj [])] },
             { fullPath := "/p/src/pages/home.less", path := "src/pages/home.less",
               extname := "less", isStyle := true }],
    files := [0, 1, 2, 3] }

/-- The nested calls of `later` return whatever those of `earlier` return. -/
def Funs.le (earlier later : Funs) : Prop :=
  (∀ bm file r, earlier.compile bm file = some r → later.compile bm file = some r) ∧
  (∀ bm file p r, earlier.processFile bm file p = some r → later.processFile bm file p = some r)

/-- The own keys of the tag-usage object of a file, none when the file has no such
object. -/
def tagsOf (bm : BuildManager) (g : Nat) : List String :=
  ((bm.file g).tags).getD []

/-- A processor whose handler reports whether it observes `allowRelease` set on the file
it is processing. -/
def allowReleaseProbe : Processor :=
  { name := "probe",
    handler := fun bm file =>
      (bm, .result (some (if (bm.file file).allowRelease then "allowRelease is set"
        else "allowRelease is not set"))) }

/-- A sample environment of `processor/index.js` in which the probe is the only
rule-matched processor of every file. -/
def demoProbeEnv : CompileEnv :=
  { env := demoEnv, view := demoViewEnv, findMatchProcessor := fun _ _ => [allowReleaseProbe] }

/-- A sample Quick-App build state: the entry style, registered and never compiled. -/
def demoStyleBuild : BuildManager :=
  { heap := [{ fullPath := "/p/src/app.css", path := "src/app.css", extname := "css",
               isStyle := true, isEntryStyle := true }],
    files := [0] }

/-- A sample component without a template: script 2 and one style file 3. -/
def demoScriptOnly : Component :=
  { script := some 2, styles := some [3] }

/-- The sample global components of the Quick-App config, with one more tag that the
sample template does not use. -/
def demoGlobalComponents : List (String × GlobalComponent) :=
  [("o-button", { isNpmMod := true, modPath := "okam/Button" }),
   ("my-list", { isNpmMod := false, modPath := "/p/src/components/List" })]

/-- The call `compile(file, buildManager)` returns, having left the state and done the
events `r`: the model returns `r` at some nesting depth, and then at every greater one. A
call that returns at no depth throws, by an exception or by nesting without end. -/
def compileReturns (cenv : CompileEnv) (bm : BuildManager) (file : Nat)
    (r : BuildManager × List Event) : Prop :=
  ∃ fuel, compile cenv fuel bm file = some r

/-- The call `processFile(file, processor, buildManager)` returns, as `compileReturns`. -/
def processFileReturns (cenv : CompileEnv) (bm : BuildManager) (file : Nat)
    (processor : Processor) (r : BuildManager × List Event) : Prop :=
  ∃ fuel, processFile cenv fuel bm file processor = some r

/-- The call `processComponentScript(buildManager, file, root)` returns, as
`compileReturns`. -/
def processComponentScriptReturns (cenv : CompileEnv) (bm : BuildManager) (file : Nat)
    (r : BuildManager × List Event) : Prop :=
  ∃ fuel, processComponentScript cenv fuel bm file = some r

/-- The loop of lines 139-141 of `compile` returns: `processFile` is called on the file
with each processor in order, each call from the state the call before it left, and each
call returns. -/
def handlersReturn (cenv : CompileEnv) (file : Nat) :
    List Processor → BuildManager → BuildManager × List Event → Prop
  | [], bm, r => r = (bm, [])
  | p :: ps, bm, r =>
    ∃ r1 r2, processFileReturns cenv bm file p r1 ∧ handlersReturn cenv file ps r1.1 r2 ∧
      r = (r2.1, r1.2 ++ r2.2)

/-- The default environment of `processor/index.js` over the sample build environment: no
file has a rule-matched processor. -/
def demoBareEnv : CompileEnv :=
  { env := demoEnv }

/-- A sample `toHyphen`: an upper-case letter becomes a hyphen and the lower-case
letter. -/
def demoHyphen (s : String) : String :=
  String.mk ((s.toList.map (fun c => if c.isUpper then ['-', c.toLower] else [c])).flatten)

/-- A sample handler that returns a promise. -/
def demoPromiseHandler (bm : BuildManager) (_file : Nat) : BuildManager × HandlerResult :=
  (bm, .promise)

/-- A sample `findMatchProcessor` whose template processor returns a promise. -/
def demoTagFindMatchProcessor (bm : BuildManager) (file : Nat) : List Processor :=
  if (bm.file file).extname = "tpl" then
    [{ name := "view", handler := demoPromiseHandler, rext := some "swan" }]
  else demoFindMatchProcessor bm file

/-- A sample `getBuiltinProcessor` whose handler writes the option `customComponentTags`
into its result. -/
def demoTagBuiltinProcessor (name plugin : String) (tags : Option (List String)) :
    Processor :=
  { name := name,
    handler := demoContentHandler
      ("<view tags=" ++ (tags.map (fun ts => ",".intercalate ts)).getD "undefined" ++ ">"),
    options := some (.obj [("plugin", .str plugin)]) }

/-- A sample environment of `processor/index.js` with `demoTagBuiltinProcessor` and
`demoHyphen`. -/
def demoTagEnv : CompileEnv :=
  { env := demoEnv, view := demoViewEnv, findMatchProcessor := demoTagFindMatchProcessor,
    getBuiltinProcessor := demoTagBuiltinProcessor, toHyphen := demoHyphen }

/-- A sample build state: the component file of a page, and its template, script and
style parts; the config of the script declares two custom components. -/
def demoTagBuild : BuildManager :=
  { heap := [{ fullPath := "/p/src/pages/home.okm", path := "src/pages/home.okm",
               extname := "okm", isPageComponent := true },
             { fullPath := "/p/src/pages/home.tpl", path := "src/pages/home.tpl",
               extname := "tpl", tags := some ["button"] },
             { fullPath := "/p/src/pages/home.js", path := "src/pages/home.js",
               extname := "js",
               config := some [("usingComponents",
                 .obj [("myList", .str "../components/List"),
                       ("oButton", .str "okam/Button")])] },
             { fullPath := "/p/src/pages/home.less", path := "src/pages/home.less",
               extname := "less", isStyle := true }],
    files := [0, 1, 2, 3] }

/-! ## Lemmas on the string primitives -/

theorem isPrefixOf_iff (p s : List Char) : p.isPrefixOf s = true ↔ p <+: s := by
  simp

theorem replaceAllAux_of_not_infix (pat rep : List Char) :
    ∀ s : List Char, ¬ pat <:+: s → replaceAllAux pat rep 0 s = s := by
  intro s
  induction s with
  | nil => intro _; rfl
  | cons c s ih =>
    intro h
    have h1 : pat.isPrefixOf (c :: s) = false := by
      rw [Bool.eq_false_iff]
      intro hp
      exact h ((isPrefixOf_iff _ _).1 hp).isInfix
    have h2 : ¬ pat <:+: s := fun hs => h (hs.trans (List.suffix_cons c s).isInfix)
    simp [replaceAllAux, h1, ih h2]

theorem replaceFirst_of_not_infix (pat rep : List Char) :
    ∀ s : List Char, ¬ pat <:+: s → replaceFirst pat rep s = s := by
  intro s
  induction s with
  | nil =>
    intro h
    have : pat ≠ [] := fun e => h (e ▸ List.nil_infix)
    cases pat with
    | nil => exact absurd rfl this
    | cons a l => simp [replaceFirst]
  | cons c s ih =>
    intro h
    have h1 : pat.isPrefixOf (c :: s) = false := by
      rw [Bool.eq_false_iff]
      intro hp
      exact h ((isPrefixOf_iff _ _).1 hp).isInfix
    have h2 : ¬ pat <:+: s := fun hs => h (hs.trans (List.suffix_cons c s).isInfix)
    simp [replaceFirst, h1, ih h2]

theorem replaceFirst_append (pat rep : List Char) (b : List Char) :
    ∀ a : List Char, (∀ a2, a2 ≠ [] → a2 <:+ a → ¬ pat <+: a2 ++ b) →
      replaceFirst pat rep (a ++ b) = a ++ replaceFirst pat rep b := by
  intro a
  induction a with
  | nil => intro _; rfl
  | cons c a ih =>
    intro h
    have h1 : pat.isPrefixOf (c :: (a ++ b)) = false := by
      rw [Bool.eq_false_iff]
      intro hp
      exact h (c :: a) (by simp) (List.suffix_refl _) ((isPrefixOf_iff _ _).1 hp)
    have h2 : ∀ a2, a2 ≠ [] → a2 <:+ a → ¬ pat <+: a2 ++ b :=
      fun a2 hne hs => h a2 hne (hs.trans (List.suffix_cons c a))
    simp [replaceFirst, h1, ih h2]

theorem no_early_match (pat d0 rest : List Char) (c x : Char)
    (hd : ¬ pat <:+: d0 ++ [c]) (hp : ¬ [c, x] <:+: pat.tail)
    (a2 : List Char) (hne : a2 ≠ []) (hs : a2 <:+ d0) :
    ¬ pat <+: a2 ++ c :: x :: rest := by
  intro hpre
  rcases Nat.lt_or_ge (a2.length + 1) pat.length with hlen | hlen
  · -- the pattern runs over `c` and `x`
    have h1 : a2 ++ [c, x] <+: pat := by
      have h2 : a2 ++ [c, x] <+: a2 ++ c :: x :: rest := by
        refine ⟨rest, by simp⟩
      exact List.prefix_of_prefix_length_le h2 hpre (by simp; omega)
    obtain ⟨t, ht⟩ := h1
    cases a2 with
    | nil => exact hne rfl
    | cons h a2 =>
      apply hp
      rw [← ht]
      exact ⟨a2, t, by simp⟩
  · -- the pattern ends inside `a2 ++ [c]`
    have h1 : pat <+: a2 ++ [c] := by
      have h2 : a2 ++ [c] <+: a2 ++ c :: x :: rest := by
        refine ⟨x :: rest, by simp⟩
      exact List.prefix_of_prefix_length_le hpre h2 (by simp; omega)
    apply hd
    obtain ⟨u, hu⟩ := hs
    rw [← hu, List.append_assoc]
    exact (h1.isInfix).trans (List.suffix_append u _).isInfix

theorem infix_split (pat a b : List Char) (c : Char) (hc : c ∉ pat)
    (h : pat <:+: a ++ c :: b) : pat <:+: a ∨ pat <:+: b := by
  obtain ⟨s, t, hst⟩ := h
  -- s ++ pat ++ t = a ++ c :: b
  rcases Nat.lt_or_ge a.length (s ++ pat).length with hl | hl
  · rcases Nat.lt_or_ge a.length s.length with hl2 | hl2
    · right
      -- a ++ [c] is a prefix of s
      have h1 : a ++ [c] <+: s := by
        have h2 : a ++ [c] <+: a ++ c :: b := ⟨b, by simp⟩
        have h3 : s <+: a ++ c :: b := ⟨pat ++ t, by rw [← hst]; simp⟩
        exact List.prefix_of_prefix_length_le h2 h3 (by simp; omega)
      obtain ⟨u, hu⟩ := h1
      refine ⟨u, t, ?_⟩
      rw [← hu] at hst
      simp only [List.append_assoc, List.singleton_append, List.cons_append] at hst
      have := List.append_cancel_left hst
      simpa using this
    · exfalso
      -- c lies inside pat
      have h3 : (s ++ pat ++ t)[a.length]? = some c := by
        rw [hst, List.getElem?_append_right (Nat.le_refl _)]; simp
      rw [List.append_assoc, List.getElem?_append_right hl2,
        List.getElem?_append_left (by simp at hl; omega)] at h3
      exact hc (List.getElem?_mem h3)
  · left
    have h1 : s ++ pat <+: a := by
      have h2 : a <+: a ++ c :: b := ⟨c :: b, rfl⟩
      have h3 : s ++ pat <+: a ++ c :: b := ⟨t, hst⟩
      exact List.prefix_of_prefix_length_le h3 h2 hl
    exact (List.suffix_append s pat).isInfix.trans h1.isInfix

theorem not_infix_of_not_mem (pat s : List Char) (c : Char) (hc : c ∈ pat) (hs : c ∉ s) :
    ¬ pat <:+: s := fun h => hs (h.subset hc)

theorem not_prefix_of_not_mem (pat s : List Char) (c : Char) (hc : c ∈ pat) (hs : c ∉ s) :
    ¬ pat <+: s := fun h => hs (h.subset hc)

theorem rewrite_okam_core (d0 t : List Char) (ht : '/' ∉ t)
    (hdn : ¬ "node_modules".toList <:+: d0 ++ ['/']) (htn : ¬ "node_modules".toList <:+: t)
    (h1 : ¬ "/src/".toList <:+: d0 ++ ['/']) (h2 : ¬ "/okam-core/".toList <:+: d0 ++ ['/'])
    (h3 : ¬ "/@babel/runtime/helpers/".toList <:+: d0 ++ ['/']) :
    replaceFirst "/@babel/runtime/helpers/".toList "/babel/".toList
      (replaceFirst "/okam-core/".toList "/okam/".toList
        (replaceFirst "/src/".toList "/".toList
          (replaceAll "node_modules".toList "npm".toList
            (d0 ++ '/' :: ("okam-core/src/".toList ++ t)))))
      = d0 ++ '/' :: ("okam/".toList ++ t) := by
  -- the rebased path holds no install-directory name
  have hnew : ¬ "node_modules".toList <:+:
      d0 ++ '/' :: ("okam-core".toList ++ '/' :: ("src".toList ++ '/' :: t)) := by
    intro h
    rcases infix_split _ _ _ '/' (by decide) h with h | h
    · exact hdn (h.trans (List.prefix_append d0 _).isInfix)
    · rcases infix_split _ _ _ '/' (by decide) h with h | h
      · exact absurd h (by decide)
      · rcases infix_split _ _ _ '/' (by decide) h with h | h
        · exact absurd h (by decide)
        · exact htn h
  have e0 : replaceAll "node_modules".toList "npm".toList
      (d0 ++ '/' :: ("okam-core/src/".toList ++ t))
      = d0 ++ '/' :: ("okam-core/src/".toList ++ t) :=
    replaceAllAux_of_not_infix _ _ _ hnew
  have hT : ¬ "/@babel/runtime/helpers/".toList <:+: t :=
    not_infix_of_not_mem _ _ '/' (by decide) ht
  have hT' : ¬ "@babel/runtime/helpers/".toList <+: t :=
    not_prefix_of_not_mem _ _ '/' (by decide) ht
  have e1 : replaceFirst "/src/".toList "/".toList (d0 ++ '/' :: ("okam-core/src/".toList ++ t))
      = d0 ++ '/' :: ("okam-core/".toList ++ t) := by
    rw [show d0 ++ '/' :: ("okam-core/src/".toList ++ t)
        = d0 ++ '/' :: 'o' :: ("kam-core/src/".toList ++ t) from rfl,
      replaceFirst_append _ _ _ _ (no_early_match _ d0 _ '/' 'o' h1 (by decide))]
    simp [replaceFirst]
  have e2 : replaceFirst "/okam-core/".toList "/okam/".toList
      (d0 ++ '/' :: ("okam-core/".toList ++ t)) = d0 ++ '/' :: ("okam/".toList ++ t) := by
    rw [show d0 ++ '/' :: ("okam-core/".toList ++ t)
        = d0 ++ '/' :: 'o' :: ("kam-core/".toList ++ t) from rfl,
      replaceFirst_append _ _ _ _ (no_early_match _ d0 _ '/' 'o' h2 (by decide))]
    simp [replaceFirst]
  have e3 : replaceFirst "/@babel/runtime/helpers/".toList "/babel/".toList
      (d0 ++ '/' :: ("okam/".toList ++ t)) = d0 ++ '/' :: ("okam/".toList ++ t) := by
    rw [show d0 ++ '/' :: ("okam/".toList ++ t)
        = d0 ++ '/' :: 'o' :: ("kam/".toList ++ t) from rfl,
      replaceFirst_append _ _ _ _ (no_early_match _ d0 _ '/' 'o' h3 (by decide))]
    have e4 := replaceFirst_of_not_infix _ "/babel/".toList t hT
    have e5 : ("@babel/runtime/helpers/".toList).isPrefixOf t = false := by
      rw [Bool.eq_false_iff]; intro h; exact hT' ((isPrefixOf_iff _ _).1 h)
    simp only [String.toList] at e4 e5
    simp [replaceFirst, e4, e5]
  rw [e0, e1, e2, e3]

/-- C2: for a rebase directory `d` that ends with `/` and a file name `t` without `/`,
where neither holds `node_modules` and `d` holds none of `/src/`, `/okam-core/`,
`/@babel/runtime/helpers/`, the path `node_modules/okam-core/src/` + `t` is rewritten to
`d` + `okam/` + `t`. -/
theorem resolveNpmModuleNewPath_okam_core (d t : String)
    (hd : endsWithStr d "/") (ht : '/' ∉ t.toList)
    (hdn : ¬ containsStr d "node_modules") (htn : ¬ containsStr t "node_modules")
    (h1 : ¬ containsStr d "/src/") (h2 : ¬ containsStr d "/okam-core/")
    (h3 : ¬ containsStr d "/@babel/runtime/helpers/") :
    resolveNpmModuleNewPath ("node_modules/okam-core/src/" ++ t) d = d ++ "okam/" ++ t := by
  obtain ⟨d0, hd0⟩ := hd
  rcases d with ⟨dl⟩
  rcases t with ⟨tl⟩
  have hdl : dl = d0 ++ ['/'] := hd0.symm
  subst hdl
  have key := rewrite_okam_core d0 tl ht hdn htn h1 h2 h3
  unfold resolveNpmModuleNewPath
  show String.mk _ = String.mk _
  congr 1
  rw [show (String.mk (d0 ++ ['/'])).toList ++ List.drop (DEP_DIR_NAME.length + 1)
        ("node_modules/okam-core/src/" ++ String.mk tl).toList
      = d0 ++ '/' :: ("okam-core/src/".toList ++ tl) by
        show (d0 ++ ['/']) ++ List.drop 13 ("node_modules/okam-core/src/".toList ++ tl) = _
        simp]
  rw [show DEP_DIR_NAME.toList = "node_modules".toList from rfl,
    show NEW_DEP_DIR_NAME.toList = "npm".toList from rfl, key]
  show _ = (d0 ++ ['/']) ++ "okam/".toList ++ tl
  simp

/-- The spec's example of the path rewrite: `node_modules/okam-core/src/index.js` rebased
to `dist/npm/` is `dist/npm/okam/index.js`. -/
theorem resolveNpmModuleNewPath_okam_core_witness :
    resolveNpmModuleNewPath "node_modules/okam-core/src/index.js" "dist/npm/"
      = "dist/npm/okam/index.js" :=
  resolveNpmModuleNewPath_okam_core "dist/npm/" "index.js" (by decide) (by decide)
    (by decide) (by decide) (by decide) (by decide) (by decide)
/-! ## Lemmas on the heap of file objects -/

@[simp] theorem modify_heap_length (bm : BuildManager) (r : Nat) (g : File → File) :
    (bm.modify r g).heap.length = bm.heap.length := by
  simp [BuildManager.modify]

@[simp] theorem modify_files (bm : BuildManager) (r : Nat) (g : File → File) :
    (bm.modify r g).files = bm.files := rfl

@[simp] theorem modify_needBuild (bm : BuildManager) (r : Nat) (g : File → File) :
    (bm.modify r g).needBuild = bm.needBuild := rfl

@[simp] theorem modify_log (bm : BuildManager) (r : Nat) (g : File → File) :
    (bm.modify r g).log = bm.log := rfl

theorem file_modify (bm : BuildManager) (r r' : Nat) (g : File → File) :
    (bm.modify r g).file r' =
      if r = r' ∧ r < bm.heap.length then g (bm.file r) else bm.file r' := by
  unfold BuildManager.modify BuildManager.file
  simp only [List.getD_eq_getElem?_getD, List.getElem?_set]
  by_cases h : r = r'
  · subst h
    by_cases h2 : r < bm.heap.length
    · simp [h2]
    · simp [h2, List.getElem?_eq_none (Nat.le_of_not_lt h2)]
  · simp [h]

theorem file_modify_same (bm : BuildManager) (r : Nat) (g : File → File)
    (h : r < bm.heap.length) : (bm.modify r g).file r = g (bm.file r) := by
  simp [file_modify, h]

theorem file_modify_ne (bm : BuildManager) (r r' : Nat) (g : File → File) (h : r ≠ r') :
    (bm.modify r g).file r' = bm.file r' := by
  simp [file_modify, h]

/-- A field that the update leaves alone reads the same on every file. -/
theorem file_modify_field {α : Type} (proj : File → α) (bm : BuildManager) (r r' : Nat)
    (g : File → File) (h : ∀ x, proj (g x) = proj x) :
    proj ((bm.modify r g).file r') = proj (bm.file r') := by
  rw [file_modify]; split <;> simp_all

theorem modify_id (bm : BuildManager) (r : Nat) (g : File → File)
    (h : g (bm.file r) = bm.file r) : bm.modify r g = bm := by
  unfold BuildManager.modify
  rw [h]
  have : bm.heap.set r (bm.file r) = bm.heap := by
    unfold BuildManager.file
    apply List.ext_getElem?
    intro n
    rw [List.getElem?_set]
    split
    · next h1 =>
      subst h1
      split
      · next h2 => simp [List.getD_eq_getElem?_getD, List.getElem?_eq_getElem h2]
      · next h2 => simp at h2; simp [List.getElem?_eq_none h2]
    · rfl
  rw [this]

@[simp] theorem logMsg_file (bm : BuildManager) (l : String) (a : List String) (g : Nat) :
    (bm.logMsg l a).file g = bm.file g := rfl

@[simp] theorem logMsg_heap (bm : BuildManager) (l : String) (a : List String) :
    (bm.logMsg l a).heap = bm.heap := rfl

@[simp] theorem addNeedBuildFile_file (bm : BuildManager) (r g : Nat) :
    (addNeedBuildFile bm r).file g = bm.file g := rfl

@[simp] theorem addNeedBuildFile_heap (bm : BuildManager) (r : Nat) :
    (addNeedBuildFile bm r).heap = bm.heap := rfl

@[simp] theorem push_file (bm : BuildManager) (r g : Nat) : (push bm r).file g = bm.file g := rfl

@[simp] theorem push_heap (bm : BuildManager) (r : Nat) : (push bm r).heap = bm.heap := rfl

theorem createFile_file_old (env : Env) (bm : BuildManager) (o : FileOpts) (g : Nat)
    (h : g < bm.heap.length) : (createFile env bm o).1.file g = bm.file g := by
  simp [createFile, BuildManager.file, List.getD_eq_getElem?_getD, List.getElem?_append_left h]

@[simp] theorem createFile_heap_length (env : Env) (bm : BuildManager) (o : FileOpts) :
    (createFile env bm o).1.heap.length = bm.heap.length + 1 := by
  simp [createFile]

@[simp] theorem createFile_ref (env : Env) (bm : BuildManager) (o : FileOpts) :
    (createFile env bm o).2 = bm.heap.length := rfl

theorem addFile_file_old (env : Env) (bm : BuildManager) (p : String) (g : Nat)
    (h : g < bm.heap.length) : (addFile env bm p).1.file g = bm.file g := by
  unfold addFile
  cases getByFullPath bm p with
  | some r => rfl
  | none => exact createFile_file_old env bm _ g h

theorem addFile_heap_le (env : Env) (bm : BuildManager) (p : String) :
    bm.heap.length ≤ (addFile env bm p).1.heap.length := by
  unfold addFile
  cases getByFullPath bm p with
  | some r => exact Nat.le_refl _
  | none => simp [createFile]

@[simp] theorem addDeps_heap_length (bm : BuildManager) (f : Nat) (p : String) :
    (addDeps bm f p).heap.length = bm.heap.length := by
  simp [addDeps]

/-- Adding a dependency changes no other field of any file. -/
theorem addDeps_field {α : Type} (proj : File → α) (bm : BuildManager) (f g : Nat) (p : String)
    (h : ∀ (x : File) (ds : List String), proj { x with deps := ds } = proj x) :
    proj ((addDeps bm f p).file g) = proj (bm.file g) := by
  unfold addDeps
  apply file_modify_field proj
  intro x; split
  · rfl
  · exact h x _

theorem addDeps_cache (bm : BuildManager) (f g : Nat) (p : String) :
    ((addDeps bm f p).file g).resolvedModIds = (bm.file g).resolvedModIds :=
  addDeps_field (fun x => x.resolvedModIds) bm f g p (fun _ _ => rfl)

@[simp] theorem propagateFlags_heap_length (bm : BuildManager) (f d : Nat) :
    (propagateFlags bm f d).heap.length = bm.heap.length := by
  unfold propagateFlags
  simp only []
  split <;> split <;> split <;> simp

/-- Setting the reachability flags changes no other field of any file. -/
theorem propagateFlags_field {α : Type} (proj : File → α) (bm : BuildManager) (f d g : Nat)
    (h1 : ∀ x : File, proj { x with isWxCompScript := true } = proj x)
    (h2 : ∀ x : File, proj { x with isSwanCompScript := true } = proj x)
    (h3 : ∀ x : File, proj { x with isAntCompScript := true } = proj x) :
    proj ((propagateFlags bm f d).file g) = proj (bm.file g) := by
  unfold propagateFlags
  simp only []
  split <;> split <;> split <;>
    simp only [file_modify_field proj _ _ _ _ h1, file_modify_field proj _ _ _ _ h2,
      file_modify_field proj _ _ _ _ h3]

theorem propagateFlags_cache (bm : BuildManager) (f d g : Nat) :
    ((propagateFlags bm f d).file g).resolvedModIds = (bm.file g).resolvedModIds :=
  propagateFlags_field (fun x => x.resolvedModIds) bm f d g (fun _ => rfl) (fun _ => rfl)
    (fun _ => rfl)

@[simp] theorem initResolvedModIds_heap_length (bm : BuildManager) (f : Nat) :
    (initResolvedModIds bm f).heap.length = bm.heap.length := by
  unfold initResolvedModIds
  split <;> simp

theorem initResolvedModIds_cache (bm : BuildManager) (f : Nat) (hf : f < bm.heap.length) :
    ((initResolvedModIds bm f).file f).resolvedModIds
      = some (((bm.file f).resolvedModIds).getD {}) := by
  unfold initResolvedModIds
  split
  · next c h => simp [h]
  · next h => simp [file_modify_same _ _ _ hf, h]

/-- The cache of the referencing file after the lookup has found a file: the record is
stored under the requested and under the resolved id. -/
theorem resolveFound_cache (env : Env) (bm : BuildManager) (f : Nat) (r p : String)
    (n l : Bool) (c : ModIdCache) (hf : f < bm.heap.length)
    (hc : (bm.file f).resolvedModIds = some c) :
    ((resolveFound env bm f r n l p).1.file f).resolvedModIds
        = some ((c.set r ⟨(resolveFound env bm f r n l p).2,
                  (addFile env (bm.logMsg "debug" ["resolve", (bm.file f).path, r]) p).2⟩).set
                (resolveFound env bm f r n l p).2
                ⟨(resolveFound env bm f r n l p).2,
                  (addFile env (bm.logMsg "debug" ["resolve", (bm.file f).path, r]) p).2⟩) ∧
      f < (resolveFound env bm f r n l p).1.heap.length := by
  have hlen : f < (addFile env (bm.logMsg "debug" ["resolve", (bm.file f).path, r]) p).1.heap.length :=
    Nat.lt_of_lt_of_le hf
      (addFile_heap_le env (bm.logMsg "debug" ["resolve", (bm.file f).path, r]) p)
  unfold resolveFound writeCache
  simp only []
  constructor
  · rw [file_modify_same _ _ _ (by simpa using hlen)]
    have e : ((addFile env (bm.logMsg "debug" ["resolve", (bm.file f).path, r]) p).1.file f)
        = bm.file f := addFile_file_old env _ p f hf
    simp only [propagateFlags_cache, addDeps_cache, addNeedBuildFile_file, e, hc, Option.map_some']
  · simpa using hlen

/-- The build state and result of `resolve` on the path that consults the lookup and
finds a file. -/
theorem resolve_fresh_cache (env : Env) (bm : BuildManager) (f : Nat) (r p : String)
    (hr : r ≠ "") (hf : f < bm.heap.length)
    (hm : (((bm.file f).resolvedModIds).getD {}).get r = .miss)
    (hl : env.resolve r f = some p) (hp : p ≠ "") :
    ∃ rid dep, (resolve env bm f r).2 = some rid ∧
      ((resolve env bm f r).1.file f).resolvedModIds
        = some (((((bm.file f).resolvedModIds).getD {}).set r ⟨rid, dep⟩).set rid ⟨rid, dep⟩) ∧
      f < (resolve env bm f r).1.heap.length := by
  unfold resolve
  simp only [hr, if_false, hm, hl, hp]
  have h0 := initResolvedModIds_cache bm f hf
  have h1 := resolveFound_cache env (initResolvedModIds bm f) f r p (bm.file f).isNpm
    (r.toList.head? == some '.') _ (by simpa using hf) h0
  exact ⟨_, _, rfl, h1.1, h1.2⟩

/-! ## Lemmas on the resolved-module cache -/

theorem objGet_objSet_same {α : Type} (k : String) (v : α) (l : List (String × α)) :
    objGet k (objSet k v l) = some v := by
  induction l with
  | nil => simp [objSet, objGet]
  | cons kv rest ih =>
    obtain ⟨k', v'⟩ := kv
    by_cases h : k' = k
    · simp [objSet, objGet, h]
    · simp [objSet, objGet, h, ih]

theorem objGet_objSet_ne {α : Type} (k k' : String) (v : α) (l : List (String × α))
    (hne : k ≠ k') : objGet k' (objSet k v l) = objGet k' l := by
  induction l with
  | nil => simp [objSet, objGet, hne]
  | cons kv rest ih =>
    obtain ⟨k0, v0⟩ := kv
    by_cases h : k0 = k
    · subst h; simp [objSet, objGet, hne]
    · by_cases h2 : k0 = k'
      · subst h2; simp [objSet, objGet, h]
      · simp [objSet, objGet, h, h2, ih]

theorem get_miss_ne_proto (c : ModIdCache) (r : String) (h : c.get r = .miss) :
    r ≠ "__proto__" := by
  intro e
  subst e
  unfold ModIdCache.get at h
  simp only [if_true] at h
  cases hp : c.proto <;> simp [hp] at h

/-- After the two cache writes of `resolve`, the requested id reads the record. -/
theorem get_set_set_fst (c : ModIdCache) (r r' : String) (i : CacheInfo)
    (h : r ≠ "__proto__") : ((c.set r i).set r' i).get r = .info i := by
  unfold ModIdCache.get ModIdCache.set
  simp only [h, if_false]
  by_cases h2 : r' = "__proto__"
  · simp [h2, objGet_objSet_same]
  · by_cases h3 : r' = r
    · subst h3; simp [h2, objGet_objSet_same]
    · simp [h2, objGet_objSet_ne _ _ _ _ h3, objGet_objSet_same]

/-- After the two cache writes of `resolve`, the resolved id reads the record. -/
theorem get_set_set_snd (c : ModIdCache) (r r' : String) (i : CacheInfo) :
    ((c.set r i).set r' i).get r' = .info i := by
  unfold ModIdCache.get
  by_cases h2 : r' = "__proto__"
  · subst h2; simp [ModIdCache.set]
  · simp [h2, ModIdCache.set, objGet_objSet_same]

theorem initResolvedModIds_of_some (bm : BuildManager) (f : Nat) (c : ModIdCache)
    (hc : (bm.file f).resolvedModIds = some c) : initResolvedModIds bm f = bm := by
  unfold initResolvedModIds
  simp [hc]

/-- A cache hit: `resolve` returns the cached id and changes nothing. -/
theorem resolve_hit (env : Env) (bm : BuildManager) (f : Nat) (r : String) (c : ModIdCache)
    (i : CacheInfo) (hr : r ≠ "") (hc : (bm.file f).resolvedModIds = some c)
    (hg : c.get r = .info i) : resolve env bm f r = (bm, some i.id) := by
  unfold resolve
  rw [initResolvedModIds_of_some bm f c hc]
  simp [hr, hc, hg]

/-- A truthy cache value without an `id`: `resolve` returns nothing and changes
nothing. -/
theorem resolve_noId (env : Env) (bm : BuildManager) (f : Nat) (r : String) (c : ModIdCache)
    (hr : r ≠ "") (hc : (bm.file f).resolvedModIds = some c)
    (hg : c.get r = .noId) : resolve env bm f r = (bm, none) := by
  unfold resolve
  rw [initResolvedModIds_of_some bm f c hc]
  simp [hr, hc, hg]

/-- A lookup that finds nothing: `resolve` returns nothing, having at most created the
empty cache object. -/
theorem resolve_lookup_fail (env : Env) (bm : BuildManager) (f : Nat) (r : String)
    (hr : r ≠ "") (hg : (((bm.file f).resolvedModIds).getD {}).get r = .miss)
    (hl : env.resolve r f = none ∨ env.resolve r f = some "") :
    resolve env bm f r = (initResolvedModIds bm f, none) := by
  unfold resolve
  rcases hl with hl | hl <;> simp [hr, hg, hl]

/-- C1: resolving the same id twice in succession from the same file returns the same id
both times, and the second call leaves the whole build state as the first call left it:
it creates no file, hands nothing to `addNeedBuildFile` and adds no dependency. -/
theorem resolve_twice (env : Env) (bm : BuildManager) (f : Nat) (r : String)
    (hf : f < bm.heap.length) :
    (resolve env (resolve env bm f r).1 f r).2 = (resolve env bm f r).2 ∧
      (resolve env (resolve env bm f r).1 f r).1 = (resolve env bm f r).1 := by
  by_cases hr : r = ""
  · subst hr; simp [resolve]
  · have h0 := initResolvedModIds_cache bm f hf
    cases hg : (((bm.file f).resolvedModIds).getD {}).get r with
    | info i =>
      have e : resolve env bm f r = (initResolvedModIds bm f, some i.id) := by
        unfold resolve; simp [hr, hg]
      rw [e]
      simp only [resolve_hit env _ f r _ i hr h0 hg, and_self]
    | noId =>
      have e : resolve env bm f r = (initResolvedModIds bm f, none) := by
        unfold resolve; simp [hr, hg]
      rw [e]
      simp only [resolve_noId env _ f r _ hr h0 hg, and_self]
    | miss =>
      have hg0 : ((((initResolvedModIds bm f).file f).resolvedModIds).getD {}).get r = .miss := by
        rw [h0]; exact hg
      have hi : initResolvedModIds (initResolvedModIds bm f) f = initResolvedModIds bm f :=
        initResolvedModIds_of_some _ f _ h0
      cases hl : env.resolve r f with
      | none =>
        rw [resolve_lookup_fail env bm f r hr hg (Or.inl hl),
          resolve_lookup_fail env _ f r hr hg0 (Or.inl hl), hi]
        simp
      | some p =>
        by_cases hp : p = ""
        · subst hp
          rw [resolve_lookup_fail env bm f r hr hg (Or.inr hl),
            resolve_lookup_fail env _ f r hr hg0 (Or.inr hl), hi]
          simp
        · obtain ⟨rid, dep, h1, h2, h3⟩ := resolve_fresh_cache env bm f r p hr hf hg hl hp
          have h4 := get_set_set_fst (((bm.file f).resolvedModIds).getD {}) r rid ⟨rid, dep⟩
            (get_miss_ne_proto _ _ hg)
          rw [resolve_hit env _ f r _ _ hr h2 h4, h1]
          simp

theorem resolve_empty (env : Env) (bm : BuildManager) (f : Nat) :
    resolve env bm f "" = (bm, some "") := by
  simp [resolve]

/-- C1 at a sample input: `lodash` resolved twice from the entry script. -/
theorem resolve_twice_witness :
    (resolve demoEnv (resolve demoEnv demoBuild 0 "lodash").1 0 "lodash").2
        = (resolve demoEnv demoBuild 0 "lodash").2 ∧
      (resolve demoEnv (resolve demoEnv demoBuild 0 "lodash").1 0 "lodash").1
        = (resolve demoEnv demoBuild 0 "lodash").1 :=
  resolve_twice demoEnv demoBuild 0 "lodash" (by decide)

theorem cacheClosed_empty : CacheClosed {} := by
  intro k i h
  unfold ModIdCache.get at h
  simp only [objGet] at h
  split at h
  · simp at h
  · split at h <;> simp at h

theorem get_info_iff_own (c : ModIdCache) (k : String) (j : CacheInfo) (hk : k ≠ "__proto__") :
    c.get k = .info j ↔ objGet k c.own = some j := by
  unfold ModIdCache.get
  simp only [hk, if_false]
  cases objGet k c.own with
  | some i => simp
  | none =>
    cases c.proto with
    | some p =>
      simp only []
      by_cases h1 : k = "id"
      · by_cases h2 : p.id = "" <;> simp [h1, h2]
      · by_cases h2 : k = "file"
        · simp [h1, h2]
        · simp only [h1, h2, if_false]
          split <;> simp
    | none =>
      simp only []
      split <;> simp

theorem get_proto_info_iff (c : ModIdCache) (j : CacheInfo) :
    c.get "__proto__" = .info j ↔ c.proto = some j := by
  unfold ModIdCache.get
  simp only [if_true]
  cases c.proto <;> simp

/-- A cache write under another key does not change which record a key reads. -/
theorem get_set_info_iff (c : ModIdCache) (k0 k : String) (v j : CacheInfo) (hne : k ≠ k0) :
    (c.set k0 v).get k = .info j ↔ c.get k = .info j := by
  by_cases h1 : k = "__proto__"
  · subst h1
    rw [get_proto_info_iff, get_proto_info_iff]
    simp [ModIdCache.set, Ne.symm hne]
  · rw [get_info_iff_own _ _ _ h1, get_info_iff_own _ _ _ h1]
    by_cases h0 : k0 = "__proto__"
    · simp [ModIdCache.set, h0]
    · simp [ModIdCache.set, h0, objGet_objSet_ne k0 k v c.own (Ne.symm hne)]

/-- The two cache writes of `resolve` keep the cache closed. -/
theorem cacheClosed_set_set (c : ModIdCache) (r rid : String) (d : Nat) (hcl : CacheClosed c)
    (hm : c.get r = .miss) : CacheClosed ((c.set r ⟨rid, d⟩).set rid ⟨rid, d⟩) := by
  have hr := get_miss_ne_proto c r hm
  intro k j hk
  by_cases h1 : k = rid
  · subst h1
    rw [get_set_set_snd] at hk
    have e : j = ⟨k, d⟩ := by injection hk with e; exact e.symm
    subst e
    exact ⟨_, get_set_set_snd c r k ⟨k, d⟩, rfl⟩
  · by_cases h2 : k = r
    · subst h2
      rw [get_set_set_fst c k rid ⟨rid, d⟩ hr] at hk
      have e : j = ⟨rid, d⟩ := by injection hk with e; exact e.symm
      subst e
      exact ⟨_, get_set_set_snd c k rid ⟨rid, d⟩, rfl⟩
    · have hk0 : c.get k = .info j :=
        (get_set_info_iff c r k _ j h2).1 ((get_set_info_iff _ rid k _ j h1).1 hk)
      obtain ⟨j', hj1, hj2⟩ := hcl k j hk0
      by_cases h3 : j.id = rid
      · exact ⟨⟨rid, d⟩, by rw [h3]; exact get_set_set_snd c r rid ⟨rid, d⟩, h3.symm⟩
      · have h4 : j.id ≠ r := by
          intro e; rw [e, hm] at hj1; cases hj1
        exact ⟨j', (get_set_info_iff _ rid j.id _ j' h3).2
          ((get_set_info_iff c r j.id _ j' h4).2 hj1), hj2⟩

/-- The cache of the referencing file stays closed under `resolve`. -/
theorem resolve_keeps_closed (env : Env) (bm : BuildManager) (f : Nat) (r : String)
    (hf : f < bm.heap.length) (hcl : CacheClosed (((bm.file f).resolvedModIds).getD {})) :
    CacheClosed ((((resolve env bm f r).1.file f).resolvedModIds).getD {}) := by
  by_cases hr : r = ""
  · subst hr; rw [resolve_empty]; exact hcl
  · have h0 := initResolvedModIds_cache bm f hf
    have hinit : CacheClosed ((((initResolvedModIds bm f).file f).resolvedModIds).getD {}) := by
      rw [h0]; exact hcl
    cases hg : (((bm.file f).resolvedModIds).getD {}).get r with
    | info i =>
      have e : resolve env bm f r = (initResolvedModIds bm f, some i.id) := by
        unfold resolve; simp [hr, hg]
      rw [e]; exact hinit
    | noId =>
      have e : resolve env bm f r = (initResolvedModIds bm f, none) := by
        unfold resolve; simp [hr, hg]
      rw [e]; exact hinit
    | miss =>
      cases hl : env.resolve r f with
      | none => rw [resolve_lookup_fail env bm f r hr hg (Or.inl hl)]; exact hinit
      | some p =>
        by_cases hp : p = ""
        · subst hp
          rw [resolve_lookup_fail env bm f r hr hg (Or.inr hl)]; exact hinit
        · obtain ⟨rid, dep, _, h2, _⟩ := resolve_fresh_cache env bm f r p hr hf hg hl hp
          rw [h2]
          exact cacheClosed_set_set _ r rid dep hcl hg

/-- C9: after a successful `resolve` of `r` from `f` that returned `r1`, both `resolve` of
`r1` and `resolve` of `r` return `r1` and leave the whole build state unchanged, whatever
the path lookup would answer (it is not consulted). The cache of `f` is assumed closed, as
it is when absent and as `resolve` keeps it. -/
theorem resolve_cached_after (env env1 : Env) (bm : BuildManager) (f : Nat) (r r1 : String)
    (hf : f < bm.heap.length) (hcl : CacheClosed (((bm.file f).resolvedModIds).getD {}))
    (h : (resolve env bm f r).2 = some r1) :
    resolve env1 (resolve env bm f r).1 f r1 = ((resolve env bm f r).1, some r1) ∧
      resolve env1 (resolve env bm f r).1 f r = ((resolve env bm f r).1, some r1) := by
  by_cases hr : r = ""
  · subst hr
    rw [resolve_empty] at h
    have e : r1 = "" := by simpa using h.symm
    subst e
    simp [resolve_empty]
  · have h0 := initResolvedModIds_cache bm f hf
    cases hg : (((bm.file f).resolvedModIds).getD {}).get r with
    | info i =>
      have e : resolve env bm f r = (initResolvedModIds bm f, some i.id) := by
        unfold resolve; simp [hr, hg]
      rw [e] at h ⊢
      have e1 : r1 = i.id := by simpa using h.symm
      subst e1
      refine ⟨?_, resolve_hit env1 _ f r _ i hr h0 hg⟩
      by_cases hi : i.id = ""
      · rw [hi]; exact resolve_empty env1 _ f
      · obtain ⟨i', hi1, hi2⟩ := hcl r i hg
        rw [resolve_hit env1 _ f i.id _ i' hi h0 hi1, hi2]
    | noId =>
      have e : resolve env bm f r = (initResolvedModIds bm f, none) := by
        unfold resolve; simp [hr, hg]
      rw [e] at h
      simp at h
    | miss =>
      cases hl : env.resolve r f with
      | none =>
        rw [resolve_lookup_fail env bm f r hr hg (Or.inl hl)] at h
        simp at h
      | some p =>
        by_cases hp : p = ""
        · subst hp
          rw [resolve_lookup_fail env bm f r hr hg (Or.inr hl)] at h
          simp at h
        · obtain ⟨rid, dep, h1, h2, h3⟩ := resolve_fresh_cache env bm f r p hr hf hg hl hp
          have e1 : r1 = rid := by rw [h1] at h; simpa using h.symm
          subst e1
          have h4 := get_set_set_fst (((bm.file f).resolvedModIds).getD {}) r r1 ⟨r1, dep⟩
            (get_miss_ne_proto _ _ hg)
          have h5 := get_set_set_snd (((bm.file f).resolvedModIds).getD {}) r r1 ⟨r1, dep⟩
          refine ⟨?_, resolve_hit env1 _ f r _ _ hr h2 h4⟩
          by_cases hi : r1 = ""
          · subst hi; exact resolve_empty env1 _ f
          · exact resolve_hit env1 _ f r1 _ _ hi h2 h5

/-! ## The returned id -/

theorem createFile_file (env : Env) (bm : BuildManager) (o : FileOpts) (g : Nat) :
    (createFile env bm o).1.file g =
      if g < bm.heap.length then bm.file g
      else if g = bm.heap.length then
        { fullPath := o.fullPath, path := env.pathRelative env.root o.fullPath,
          dirname := env.pathDirname o.fullPath, isVirtual := o.isVirtual, data := o.data }
      else default := by
  unfold createFile BuildManager.file
  simp only [List.getD_eq_getElem?_getD]
  by_cases h : g < bm.heap.length
  · simp [h, List.getElem?_append_left h]
  · by_cases h2 : g = bm.heap.length
    · subst h2; simp
    · have h3 : bm.heap.length + 1 ≤ g := by omega
      simp [h, h2, List.getElem?_eq_none, h3]

theorem getByFullPath_congr (bm bm' : BuildManager) (p : String) (hfiles : bm'.files = bm.files)
    (hfp : ∀ g, (bm'.file g).fullPath = (bm.file g).fullPath) :
    getByFullPath bm' p = getByFullPath bm p := by
  unfold getByFullPath
  rw [hfiles]
  congr 1
  funext r
  rw [hfp r]

/-- The file that `addFile` yields depends only on the registered files and their
paths. -/
theorem addFile_congr {α : Type} (proj : File → α) (env : Env) (bm bm' : BuildManager)
    (p : String) (hlen : bm'.heap.length = bm.heap.length) (hfiles : bm'.files = bm.files)
    (hfp : ∀ g, (bm'.file g).fullPath = (bm.file g).fullPath)
    (hproj : ∀ g, proj (bm'.file g) = proj (bm.file g)) :
    (addFile env bm' p).2 = (addFile env bm p).2 ∧
      ∀ g, proj ((addFile env bm' p).1.file g) = proj ((addFile env bm p).1.file g) := by
  unfold addFile
  rw [getByFullPath_congr bm bm' p hfiles hfp]
  cases getByFullPath bm p with
  | some r => exact ⟨rfl, hproj⟩
  | none =>
    refine ⟨by simp [hlen], fun g => ?_⟩
    simp only [push_file, createFile_file, hlen]
    split
    · exact hproj g
    · rfl

theorem initResolvedModIds_field {α : Type} (proj : File → α) (bm : BuildManager) (f g : Nat)
    (h : ∀ (x : File) (c : Option ModIdCache), proj { x with resolvedModIds := c } = proj x) :
    proj ((initResolvedModIds bm f).file g) = proj (bm.file g) := by
  unfold initResolvedModIds
  split
  · rfl
  · exact file_modify_field proj _ _ _ _ (fun x => h x _)

@[simp] theorem initResolvedModIds_files (bm : BuildManager) (f : Nat) :
    (initResolvedModIds bm f).files = bm.files := by
  unfold initResolvedModIds
  split <;> rfl

/-- The id returned on a cache miss, with the first argument of `getRequirePath` as the
definition `outputPathOf` gives it. -/
theorem resolve_returned_output (env : Env) (bm : BuildManager) (f : Nat) (r p : String)
    (hr : r ≠ "") (hf : f < bm.heap.length)
    (hm : (((bm.file f).resolvedModIds).getD {}).get r = .miss)
    (hl : env.resolve r f = some p) (hp : p ≠ "") :
    (resolve env bm f r).2 =
      some (if r.toList.head? = some '.' then r
        else env.getRequirePath
          (outputPathOf ((addFile env bm p).1.file (addFile env bm p).2))
          (if (bm.file f).isNpm then (bm.file f).resolvePath else some (bm.file f).path)) := by
  unfold resolve
  simp only [hr, if_false, hm, hl, hp]
  unfold resolveFound resolveModIdOf
  simp only []
  by_cases hrel : r.toList.head? = some '.'
  · have hrel' : (r.toList.head? == some '.') = true := by simpa using hrel
    rw [if_pos hrel', if_pos hrel]
  · have hrel' : (r.toList.head? == some '.') = false := by simpa using hrel
    rw [if_neg (by rw [hrel']; exact Bool.false_ne_true), if_neg hrel]
    -- the state on which `addFile` runs agrees with `bm` on every path
    have hA := addFile_congr (fun x => outputPathOf x) env bm
      ((initResolvedModIds bm f).logMsg "debug"
        ["resolve", ((initResolvedModIds bm f).file f).path, r]) p
      (by simp) (by simp [BuildManager.logMsg])
      (fun g => initResolvedModIds_field (fun x => x.fullPath) bm f g (fun _ _ => rfl))
      (fun g => initResolvedModIds_field (fun x => outputPathOf x) bm f g (fun _ _ => rfl))
    have hB := addFile_file_old env
      ((initResolvedModIds bm f).logMsg "debug"
        ["resolve", ((initResolvedModIds bm f).file f).path, r]) p f (by simpa using hf)
    have e1 : ∀ (X : BuildManager) (q : String) (d g : Nat),
        outputPathOf ((propagateFlags (addDeps (addNeedBuildFile X d) f q) f d).file g)
          = outputPathOf (X.file g) := by
      intro X q d g
      rw [propagateFlags_field (fun x => outputPathOf x) _ _ _ _ (fun _ => rfl) (fun _ => rfl)
        (fun _ => rfl)]
      exact addDeps_field (fun x => outputPathOf x) _ _ _ _ (fun _ _ => rfl)
    have e2 : ∀ (X : BuildManager) (q : String) (d g : Nat),
        ((propagateFlags (addDeps (addNeedBuildFile X d) f q) f d).file g).resolvePath
          = (X.file g).resolvePath := by
      intro X q d g
      rw [propagateFlags_field (fun x => x.resolvePath) _ _ _ _ (fun _ => rfl) (fun _ => rfl)
        (fun _ => rfl)]
      exact addDeps_field (fun x => x.resolvePath) _ _ _ _ (fun _ _ => rfl)
    have e3 : ∀ (X : BuildManager) (q : String) (d g : Nat),
        ((propagateFlags (addDeps (addNeedBuildFile X d) f q) f d).file g).path
          = (X.file g).path := by
      intro X q d g
      rw [propagateFlags_field (fun x => x.path) _ _ _ _ (fun _ => rfl) (fun _ => rfl)
        (fun _ => rfl)]
      exact addDeps_field (fun x => x.path) _ _ _ _ (fun _ _ => rfl)
    have hA2 : ∀ g, outputPathOf ((addFile env
        ((initResolvedModIds bm f).logMsg "debug"
          ["resolve", ((initResolvedModIds bm f).file f).path, r]) p).1.file g)
        = outputPathOf ((addFile env bm p).1.file g) := hA.2
    rw [e1, e2, e3, hB, hA2, hA.1]
    simp only [logMsg_file]
    rw [initResolvedModIds_field (fun x => x.resolvePath) bm f f (fun _ _ => rfl),
      initResolvedModIds_field (fun x => x.path) bm f f (fun _ _ => rfl)]

theorem outputPathOf_eq (d : File) :
    outputPathOf d = ((d.resolvePath).filter (fun q => q != "")).getD d.path := by
  unfold outputPathOf
  cases h : d.resolvePath with
  | none => rfl
  | some q =>
    by_cases hq : q = ""
    · subst hq; rfl
    · simp [Option.filter, hq]

/-- The id returned on a cache miss: for a non-empty id `r` for which reading the cache
object of `f` yields a falsy value and whose lookup finds the path `p`, with `d` the file
that `addFile` yields for `p`, `resolve` returns `r` unchanged when `r` starts with a dot,
and otherwise `getRequirePath(x, anchor)`, where `x` is `d.resolvePath` when that is a
non-empty string and `d.path` otherwise, and the anchor is `f.resolvePath` when `f.isNpm`
is set and `f.path` otherwise. -/
theorem resolve_returned_id (env : Env) (bm : BuildManager) (f : Nat) (r p : String)
    (d : File) (hr : r ≠ "") (hf : f < bm.heap.length)
    (hm : (((bm.file f).resolvedModIds).getD {}).get r = .miss)
    (hl : env.resolve r f = some p) (hp : p ≠ "")
    (hd : d = (addFile env bm p).1.file (addFile env bm p).2) :
    (resolve env bm f r).2 =
      some (if r.toList.head? = some '.' then r
        else env.getRequirePath
          (((d.resolvePath).filter (fun q => q != "")).getD d.path)
          (if (bm.file f).isNpm then (bm.file f).resolvePath else some (bm.file f).path)) := by
  rw [resolve_returned_output env bm f r p hr hf hm hl hp, outputPathOf_eq, hd]

@[simp] theorem initResolvedModIds_needBuild (bm : BuildManager) (f : Nat) :
    (initResolvedModIds bm f).needBuild = bm.needBuild := by
  unfold initResolvedModIds
  split <;> rfl

theorem initResolvedModIds_getD (bm : BuildManager) (f g : Nat) :
    (((initResolvedModIds bm f).file g).resolvedModIds).getD {}
      = ((bm.file g).resolvedModIds).getD {} := by
  unfold initResolvedModIds
  split
  · rfl
  · next h =>
    rw [file_modify]
    split
    · next h2 => rw [← h2.1, h]; rfl
    · rfl

/-- C10: for a non-empty id `r` that the cache of `f` does not hold and for which the path
lookup finds nothing, `resolve` returns nothing (`undefined`) and creates no file, hands
nothing to `addNeedBuildFile`, adds no dependency, sets no reachability flag and records
no cache entry for `r`. -/
theorem resolve_unresolved (env : Env) (bm : BuildManager) (f : Nat) (r : String)
    (hr : r ≠ "") (hm : (((bm.file f).resolvedModIds).getD {}).get r = .miss)
    (hl : env.resolve r f = none ∨ env.resolve r f = some "") :
    (resolve env bm f r).2 = none ∧
      (resolve env bm f r).1.heap.length = bm.heap.length ∧
      (resolve env bm f r).1.files = bm.files ∧
      (resolve env bm f r).1.needBuild = bm.needBuild ∧
      (∀ g, ((resolve env bm f r).1.file g).deps = (bm.file g).deps ∧
        ((resolve env bm f r).1.file g).isWxCompScript = (bm.file g).isWxCompScript ∧
        ((resolve env bm f r).1.file g).isSwanCompScript = (bm.file g).isSwanCompScript ∧
        ((resolve env bm f r).1.file g).isAntCompScript = (bm.file g).isAntCompScript) ∧
      ((((resolve env bm f r).1.file f).resolvedModIds).getD {}).get r = .miss := by
  rw [resolve_lookup_fail env bm f r hr hm hl]
  refine ⟨rfl, by simp, by simp, by simp, fun g => ⟨?_, ?_, ?_, ?_⟩, ?_⟩
  · exact initResolvedModIds_field (fun x => x.deps) bm f g (fun _ _ => rfl)
  · exact initResolvedModIds_field (fun x => x.isWxCompScript) bm f g (fun _ _ => rfl)
  · exact initResolvedModIds_field (fun x => x.isSwanCompScript) bm f g (fun _ _ => rfl)
  · exact initResolvedModIds_field (fun x => x.isAntCompScript) bm f g (fun _ _ => rfl)
  · show ((((initResolvedModIds bm f).file f).resolvedModIds).getD {}).get r = .miss
    rw [initResolvedModIds_getD]; exact hm
/-! ## The caches of all files stay closed -/

theorem addFile_file_cases (env : Env) (bm : BuildManager) (p : String) (g : Nat) :
    (addFile env bm p).1.file g = bm.file g ∨
      ((addFile env bm p).1.file g).resolvedModIds = none := by
  unfold addFile
  cases getByFullPath bm p with
  | some r => exact Or.inl rfl
  | none =>
    simp only [push_file, createFile_file]
    split
    · exact Or.inl rfl
    · right; split <;> rfl

/-- A call of `resolve` from `f` leaves the cache of every other file as it was; a file
it creates has no cache. -/
theorem resolve_cache_other (env : Env) (bm : BuildManager) (f g : Nat) (r : String)
    (hne : g ≠ f) :
    ((resolve env bm f r).1.file g).resolvedModIds = (bm.file g).resolvedModIds ∨
      ((resolve env bm f r).1.file g).resolvedModIds = none := by
  have hinit : ((initResolvedModIds bm f).file g).resolvedModIds = (bm.file g).resolvedModIds := by
    unfold initResolvedModIds
    split
    · rfl
    · rw [file_modify_ne _ _ _ _ (Ne.symm hne)]
  unfold resolve
  split
  · exact Or.inl rfl
  · simp only []
    split
    · exact Or.inl hinit
    · exact Or.inl hinit
    · split
      · exact Or.inl hinit
      · split
        · exact Or.inl hinit
        · next p _ _ =>
          simp only []
          unfold resolveFound writeCache
          simp only []
          rw [file_modify_ne _ _ _ _ (Ne.symm hne), propagateFlags_cache, addDeps_cache,
            addNeedBuildFile_file]
          rcases addFile_file_cases env ((initResolvedModIds bm f).logMsg "debug"
              ["resolve", ((initResolvedModIds bm f).file f).path, r]) p g with h | h
          · left; rw [h]; exact hinit
          · right; exact h

/-- Closed caches stay closed: `resolve` keeps the cache of every file closed. -/
theorem resolve_keeps_all_closed (env : Env) (bm : BuildManager) (f : Nat) (r : String)
    (hf : f < bm.heap.length)
    (hcl : ∀ g, CacheClosed (((bm.file g).resolvedModIds).getD {})) (g : Nat) :
    CacheClosed ((((resolve env bm f r).1.file g).resolvedModIds).getD {}) := by
  by_cases hg : g = f
  · subst hg; exact resolve_keeps_closed env bm g r hf (hcl g)
  · rcases resolve_cache_other env bm f g r hg with h | h
    · rw [h]; exact hcl g
    · rw [h]; exact cacheClosed_empty
/-! ## Quick-App API features -/

theorem collectFeatures_spec (fs result : List String) (hn : result.Nodup) :
    (collectFeatures result fs).Nodup ∧
      ∀ x, x ∈ collectFeatures result fs ↔ x ∈ result ∨ x ∈ fs := by
  unfold collectFeatures
  induction fs generalizing result with
  | nil => simp [hn]
  | cons a fs ih =>
    simp only [List.foldl_cons]
    by_cases h : result.contains a = true
    · simp only [h, if_true]
      obtain ⟨h1, h2⟩ := ih result hn
      refine ⟨h1, fun x => ?_⟩
      rw [h2 x]
      have ha : a ∈ result := by simpa using h
      constructor
      · rintro (h | h)
        · exact Or.inl h
        · exact Or.inr (List.mem_cons_of_mem _ h)
      · rintro (h | h)
        · exact Or.inl h
        · rcases List.mem_cons.1 h with h | h
          · exact Or.inl (h ▸ ha)
          · exact Or.inr h
    · simp only [h, if_false, Bool.false_eq_true]
      have ha : a ∉ result := by simpa using h
      have hn' : (result ++ [a]).Nodup := by
        rw [List.nodup_append]
        refine ⟨hn, List.nodup_singleton a, ?_⟩
        intro x hx hx'
        rw [List.mem_singleton] at hx'
        exact ha (hx' ▸ hx)
      obtain ⟨h1, h2⟩ := ih (result ++ [a]) hn'
      refine ⟨h1, fun x => ?_⟩
      rw [h2 x]
      simp only [List.mem_append, List.mem_singleton, List.mem_cons]
      tauto

theorem getAllUsedAPIFeatures_spec (bm : BuildManager) :
    (getAllUsedAPIFeatures bm).Nodup ∧
      ∀ x, x ∈ getAllUsedAPIFeatures bm ↔ ∃ g ∈ bm.files, x ∈ featuresOf bm g := by
  unfold getAllUsedAPIFeatures
  have key : ∀ (fl : List Nat) (acc : List String), acc.Nodup →
      (fl.foldl (addFileFeatures bm) acc).Nodup ∧
        ∀ x, x ∈ fl.foldl (addFileFeatures bm) acc
          ↔ x ∈ acc ∨ ∃ g ∈ fl, x ∈ featuresOf bm g := by
    intro fl
    induction fl with
    | nil => intro acc h; simp [h]
    | cons a fl ih =>
      intro acc hacc
      simp only [List.foldl_cons]
      have hstep : addFileFeatures bm acc a = collectFeatures acc (featuresOf bm a) := by
        unfold addFileFeatures featuresOf
        cases (bm.file a).features <;> rfl
      rw [hstep]
      obtain ⟨c1, c2⟩ := collectFeatures_spec (featuresOf bm a) acc hacc
      obtain ⟨h1, h2⟩ := ih _ c1
      refine ⟨h1, fun x => ?_⟩
      rw [h2 x, c2 x]
      simp [or_assoc]
  obtain ⟨h1, h2⟩ := key bm.files [] List.nodup_nil
  exact ⟨h1, fun x => (h2 x).trans (by simp)⟩

theorem initFeatures_heap_length (bm : BuildManager) (f : Nat) :
    (initFeatures bm f).heap.length = bm.heap.length := by
  unfold initFeatures
  split <;> simp

theorem initFeatures_files (bm : BuildManager) (f : Nat) :
    (initFeatures bm f).files = bm.files := by
  unfold initFeatures
  split <;> rfl

theorem initFeatures_featuresOf (bm : BuildManager) (f g : Nat) :
    featuresOf (initFeatures bm f) g = featuresOf bm g := by
  unfold initFeatures featuresOf
  split
  · rfl
  · next h =>
    rw [file_modify]
    split
    · next h2 => rw [← h2.1, h]; rfl
    · rfl

theorem initFeatures_features (bm : BuildManager) (f : Nat) (hf : f < bm.heap.length) :
    ((initFeatures bm f).file f).features = some (featuresOf bm f) := by
  unfold initFeatures featuresOf
  split
  · next c h => simp [h]
  · next h => simp [file_modify_same _ _ _ hf, h]

theorem onResolve_heap_length (bm : BuildManager) (id : String) (f : Nat) :
    (onResolve bm id f).heap.length = bm.heap.length := by
  unfold onResolve
  split
  · rfl
  · split
    · simp only []
      split <;> simp [initFeatures_heap_length]
    · rfl

theorem onResolve_files (bm : BuildManager) (id : String) (f : Nat) :
    (onResolve bm id f).files = bm.files := by
  unfold onResolve
  split
  · rfl
  · split
    · simp only []
      split <;> simp [initFeatures_files]
    · rfl

/-- What one `onResolve` call adds to the feature lists. -/
theorem onResolve_features (bm : BuildManager) (id : String) (f g : Nat) (x : String) :
    x ∈ featuresOf (onResolve bm id f) g ↔
      x ∈ featuresOf bm g ∨ (g = f ∧ f < bm.heap.length ∧ x = id ∧ needsDeclaration id = true) := by
  unfold onResolve needsDeclaration
  by_cases hw : notNeedDeclarationAPIFeatures.contains id = true
  · rw [if_pos hw]
    have hw' : id ∈ notNeedDeclarationAPIFeatures := by simpa using hw
    simp [hw']
  · rw [if_neg hw]
    by_cases hs : isSystemOrServiceId id = true
    · rw [if_pos hs]
      simp only [hw, hs, Bool.not_false, Bool.and_true, Bool.true_and, Bool.not_eq_true]
      by_cases hc : (((bm.file f).features).getD []).contains id = true
      · rw [if_pos hc, initFeatures_featuresOf]
        constructor
        · exact Or.inl
        · rintro (h | ⟨h1, _, h3, _⟩)
          · exact h
          · subst h1; subst h3
            simpa [featuresOf] using hc
      · rw [if_neg hc]
        by_cases hgf : f = g ∧ f < bm.heap.length
        · obtain ⟨h1, h2⟩ := hgf
          subst h1
          simp only [featuresOf]
          rw [file_modify_same _ _ _ (by rw [initFeatures_heap_length]; exact h2)]
          simp only [initFeatures_features bm f h2, Option.map_some', Option.getD_some,
            List.mem_append, List.mem_singleton]
          simp [featuresOf, h2]
        · have : featuresOf ((initFeatures bm f).modify f
                (fun y => { y with features := y.features.map (fun fs => fs ++ [id]) })) g
              = featuresOf bm g := by
            rw [← initFeatures_featuresOf bm f g]
            simp only [featuresOf]
            rw [file_modify, initFeatures_heap_length, if_neg hgf]
          rw [this]
          constructor
          · exact Or.inl
          · rintro (h | ⟨h1, h2, _, _⟩)
            · exact h
            · exact absurd ⟨h1.symm, h2⟩ hgf
    · rw [if_neg hs]; simp [hs]

/-- What a sequence of `onResolve` calls adds to the feature lists. -/
theorem runOnResolve_features (calls : List (String × Nat)) :
    ∀ (bm : BuildManager) (g : Nat) (x : String),
      (runOnResolve bm calls).files = bm.files ∧
      (runOnResolve bm calls).heap.length = bm.heap.length ∧
      (x ∈ featuresOf (runOnResolve bm calls) g ↔
        x ∈ featuresOf bm g ∨
          (g < bm.heap.length ∧ (x, g) ∈ calls ∧ needsDeclaration x = true)) := by
  induction calls with
  | nil => intro bm g x; simp [runOnResolve]
  | cons c cs ih =>
    intro bm g x
    obtain ⟨h1, h2, h3⟩ := ih (onResolve bm c.1 c.2) g x
    have e : runOnResolve bm (c :: cs) = runOnResolve (onResolve bm c.1 c.2) cs := rfl
    rw [e]
    refine ⟨by rw [h1, onResolve_files], by rw [h2, onResolve_heap_length], ?_⟩
    rw [h3, onResolve_features, onResolve_heap_length]
    obtain ⟨c1, c2⟩ := c
    simp only [List.mem_cons, Prod.mk.injEq]
    constructor
    · rintro ((h | ⟨h4, h5, h6, h7⟩) | ⟨h4, h5, h6⟩)
      · exact Or.inl h
      · exact Or.inr ⟨h4 ▸ h5, Or.inl ⟨h6, h4⟩, h6 ▸ h7⟩
      · exact Or.inr ⟨h4, Or.inr h5, h6⟩
    · rintro (h | ⟨h4, (⟨h5, h6⟩ | h5), h7⟩)
      · exact Or.inl (Or.inl h)
      · exact Or.inl (Or.inr ⟨h6, h6 ▸ h4, h5, h5 ▸ h7⟩)
      · exact Or.inr ⟨h4, h5, h7⟩

/-- C5: after any sequence of `onResolve(id, file)` calls on registered files, all files
having started with no feature list, `getAllUsedAPIFeatures()` is duplicate-free and holds
an id exactly when some call passed it, it starts with `@system.` or `@service.`, and it is
neither `@system.router` nor `@system.app`. -/
theorem getAllUsedAPIFeatures_after_onResolve (bm : BuildManager) (calls : List (String × Nat))
    (hnone : ∀ g, (bm.file g).features = none)
    (hreg : ∀ c ∈ calls, c.2 ∈ bm.files ∧ c.2 < bm.heap.length) :
    (getAllUsedAPIFeatures (runOnResolve bm calls)).Nodup ∧
      ∀ id, id ∈ getAllUsedAPIFeatures (runOnResolve bm calls) ↔
        (∃ file, (id, file) ∈ calls) ∧
          (startsWith id "@system." = true ∨ startsWith id "@service." = true) ∧
          id ≠ "@system.router" ∧ id ≠ "@system.app" := by
  obtain ⟨h1, h2⟩ := getAllUsedAPIFeatures_spec (runOnResolve bm calls)
  refine ⟨h1, fun id => ?_⟩
  rw [h2 id]
  have hnd : needsDeclaration id = true ↔
      (startsWith id "@system." = true ∨ startsWith id "@service." = true) ∧
        id ≠ "@system.router" ∧ id ≠ "@system.app" := by
    simp [needsDeclaration, isSystemOrServiceId, notNeedDeclarationAPIFeatures]
  have h0 : ∀ g, featuresOf bm g = [] := fun g => by simp [featuresOf, hnone g]
  constructor
  · rintro ⟨g, hg, hx⟩
    obtain ⟨_, _, h5⟩ := runOnResolve_features calls bm g id
    rw [h5, h0 g] at hx
    rcases hx with hx | ⟨_, hx2, hx3⟩
    · cases hx
    · exact ⟨⟨g, hx2⟩, hnd.1 hx3⟩
  · rintro ⟨⟨g, hg⟩, hq⟩
    obtain ⟨h3, _, h5⟩ := runOnResolve_features calls bm g id
    obtain ⟨r1, r2⟩ := hreg (id, g) hg
    exact ⟨g, by rw [h3]; exact r1, h5.2 (Or.inr ⟨r2, hg, hnd.2 hq⟩)⟩
/-! ## Sample inputs for the statements on `resolve` -/

/-- The returned id at a sample input: `lodash` is required from a file of the install
directory; the dependency file has a `resolvePath`, which is the first argument of
`getRequirePath`, and the anchor is the `resolvePath` of the requiring file. -/
theorem resolve_returned_id_witness :
    (resolve demoAnchorEnv demoNpmBuild 0 "lodash").2
      = some "src/npm/lodash/index.js from src/npm/a/index.js" :=
  resolve_returned_id demoAnchorEnv demoNpmBuild 0 "lodash" "/p/node_modules/lodash/index.js"
    (demoNpmBuild.file 1) (by decide) (by decide) rfl rfl (by decide) rfl

/-- An id named after a member of `Object.prototype`, asked of a file that has no cache
object yet: line 59 reads the inherited member from the fresh cache object, which is
truthy and has no `id`, and `resolve` returns `undefined` without calling the lookup. -/
theorem resolve_inherited (env : Env) (bm : BuildManager) (f : Nat) (r : String)
    (hk : r ∈ objectPrototypeKeys) (hc : (bm.file f).resolvedModIds = none) :
    resolve env bm f r = (initResolvedModIds bm f, none) := by
  have hr : r ≠ "" := by
    intro e; subst e; revert hk; decide
  have hg : (({} : ModIdCache)).get r = .noId := by
    unfold ModIdCache.get
    by_cases h : r = "__proto__"
    · simp [h]
    · simp [h, objGet, hk]
  unfold resolve
  simp only [hr, if_false, hc, Option.getD_none, hg]

/-- C8 fails in the code at an id named after a member of `Object.prototype`: the entry
script has no cache object, the lookup finds a file for the id `constructor`, and
`resolve` returns `undefined`, registers no file and hands none to `addNeedBuildFile`,
where the claim has it return the require path of the dependency file, as the same call
does for `lodash`. -/
theorem resolve_inherited_id_sample :
    (demoBuild.file 0).resolvedModIds = none ∧
    demoInheritedEnv.resolve "constructor" 0 = some "/p/node_modules/constructor/index.js" ∧
    (resolve demoInheritedEnv demoBuild 0 "constructor").2 = none ∧
    (resolve demoInheritedEnv demoBuild 0 "constructor").1.files = [0] ∧
    (resolve demoInheritedEnv demoBuild 0 "constructor").1.needBuild = [] ∧
    (resolve demoInheritedEnv demoBuild 0 "lodash").2 = some "./node_modules/lodash/index.js" :=
  ⟨rfl, rfl, rfl, rfl, rfl, rfl⟩

/-- C9 at a sample input: after `lodash` was resolved from the entry script, the resolved
id and the requested id are answered from the cache, also under a lookup that finds
nothing. -/
theorem resolve_cached_after_witness :
    resolve {} (resolve demoEnv demoBuild 0 "lodash").1 0 "./node_modules/lodash/index.js"
        = ((resolve demoEnv demoBuild 0 "lodash").1, some "./node_modules/lodash/index.js") ∧
      resolve {} (resolve demoEnv demoBuild 0 "lodash").1 0 "lodash"
        = ((resolve demoEnv demoBuild 0 "lodash").1, some "./node_modules/lodash/index.js") :=
  resolve_cached_after demoEnv {} demoBuild 0 "lodash" "./node_modules/lodash/index.js"
    (by decide) cacheClosed_empty (by decide)

/-- C10 at a sample input: `./missing` is not found from the entry script. -/
theorem resolve_unresolved_witness :
    (resolve demoEnv demoBuild 0 "./missing").2 = none ∧
      (resolve demoEnv demoBuild 0 "./missing").1.heap.length = 1 ∧
      (resolve demoEnv demoBuild 0 "./missing").1.files = [0] ∧
      (resolve demoEnv demoBuild 0 "./missing").1.needBuild = [] :=
  have h := resolve_unresolved demoEnv demoBuild 0 "./missing" (by decide) rfl (Or.inl rfl)
  ⟨h.1, h.2.1, h.2.2.1, h.2.2.2.1⟩
/-! ## Sample inputs for the statement on the API features -/

/-- C5 at a sample input: `@service.fetch` resolved from two files and `@system.router`
resolved from one. -/
theorem getAllUsedAPIFeatures_after_onResolve_witness :
    (getAllUsedAPIFeatures (runOnResolve demoQuick demoCalls)).Nodup ∧
      ∀ id, id ∈ getAllUsedAPIFeatures (runOnResolve demoQuick demoCalls) ↔
        (∃ file, (id, file) ∈ demoCalls) ∧
          (startsWith id "@system." = true ∨ startsWith id "@service." = true) ∧
          id ≠ "@system.router" ∧ id ≠ "@system.app" :=
  getAllUsedAPIFeatures_after_onResolve demoQuick demoCalls
    (fun g => match g with
      | 0 => rfl
      | 1 => rfl
      | _ + 2 => rfl)
    (by decide)

/-- The spec's example: `@system.router` is not listed and `@service.fetch`, resolved from
two files, is listed once. -/
theorem getAllUsedAPIFeatures_sample :
    getAllUsedAPIFeatures (runOnResolve demoQuick demoCalls) = ["@service.fetch"] := by
  decide
/-! ## The default plugin chain -/

theorem addRefPlugin_of_absent (env : ViewEnv) (ps : List PluginItem)
    (h : ∀ item ∈ ps, PluginRef.plugin (refPlugin env) ≠ item.head) :
    addRefPlugin env ps = ps ++ [.single (.plugin (refPlugin env))] := by
  unfold addRefPlugin
  have : ps.any (fun item => decide (PluginRef.plugin (refPlugin env) = item.head)) = false := by
    rw [List.any_eq_false]
    intro x hx
    simpa using h x hx
  simp [this]

theorem normalizeViewPlugin_builtin (env : ViewEnv) (s path : String)
    (hb : builtinPluginPath env s env.appType = some path) (hne : path ≠ "") :
    normalizeViewPlugin env env.appType (.single (.name s))
      = some (.single (.plugin (env.require path))) := by
  simp [normalizeViewPlugin, hb, hne]

/-- C6: with `processOpts.plugins` absent or empty, the plugin chain is the prefix plugin
(when `template.useVuePrefix` is set), the syntax plugin of the app type, the tag-transform
plugin (when `template.transformTags` is set) and the ref plugin (when ref support is
enabled), in that order. `path.join` yields no empty path, and the ref plugin is another
object than the three other plugins. -/
theorem initViewTransformOptions_default_chain (env : ViewEnv) (file : Nat)
    (plugins : Option (List PluginItem)) (hp : plugins = none ∨ plugins = some [])
    (hjoin : ∀ ps, env.pathJoin ps ≠ "")
    (hd : refPlugin env ≠ vuePrefixPlugin env ∧ refPlugin env ≠ syntaxPlugin env ∧
      refPlugin env ≠ tagTransformPlugin env) :
    (initViewTransformOptions env file plugins).map (fun o => o.plugins) =
      some ((if (templateConfOf env.componentConf).fieldTruthy "useVuePrefix"
              then [PluginItem.single (.plugin (vuePrefixPlugin env))] else [])
        ++ [PluginItem.single (.plugin (syntaxPlugin env))]
        ++ (if (templateConfOf env.componentConf).fieldTruthy "transformTags"
              then [PluginItem.single (.plugin (tagTransformPlugin env))] else [])
        ++ (if env.isEnableRefSupport
              then [PluginItem.single (.plugin (refPlugin env))] else [])) := by
  have n1 := normalizeViewPlugin_builtin env "syntax" _ rfl (hjoin _)
  have n2 := normalizeViewPlugin_builtin env "tagTransform" _ rfl (hjoin _)
  have n3 := normalizeViewPlugin_builtin env "vuePrefix" _ rfl (hjoin _)
  obtain ⟨d1, d2, d3⟩ := hd
  have hdef : defaultViewPlugins (templateConfOf env.componentConf)
      = (if (templateConfOf env.componentConf).fieldTruthy "useVuePrefix"
              then [PluginItem.single (.name "vuePrefix")] else [])
        ++ [PluginItem.single (.name "syntax")]
        ++ (if (templateConfOf env.componentConf).fieldTruthy "transformTags"
              then [PluginItem.single (.name "tagTransform")] else []) := by
    unfold defaultViewPlugins
    simp only []
    split <;> split <;> simp
  have hinit : initViewTransformOptions env file plugins
      = (normalizeViewPlugins env (defaultViewPlugins (templateConfOf env.componentConf))
          env.appType).map (fun plugins1 =>
            { plugins := if env.isEnableRefSupport then addRefPlugin env plugins1 else plugins1,
              template := templateConfOf env.componentConf, onTagFile := file }) := by
    rcases hp with h | h <;> subst h <;> rfl
  have hnorm : normalizeViewPlugins env (defaultViewPlugins (templateConfOf env.componentConf))
        env.appType
      = some ((if (templateConfOf env.componentConf).fieldTruthy "useVuePrefix"
              then [PluginItem.single (.plugin (vuePrefixPlugin env))] else [])
        ++ [PluginItem.single (.plugin (syntaxPlugin env))]
        ++ (if (templateConfOf env.componentConf).fieldTruthy "transformTags"
              then [PluginItem.single (.plugin (tagTransformPlugin env))] else [])) := by
    rw [hdef]
    unfold normalizeViewPlugins
    cases (templateConfOf env.componentConf).fieldTruthy "useVuePrefix" <;>
    cases (templateConfOf env.componentConf).fieldTruthy "transformTags" <;>
    simp [n1, n2, n3, vuePrefixPlugin, syntaxPlugin, tagTransformPlugin, mapOpt]
  have href : ∀ item ∈ ((if (templateConfOf env.componentConf).fieldTruthy "useVuePrefix"
              then [PluginItem.single (.plugin (vuePrefixPlugin env))] else [])
        ++ [PluginItem.single (.plugin (syntaxPlugin env))]
        ++ (if (templateConfOf env.componentConf).fieldTruthy "transformTags"
              then [PluginItem.single (.plugin (tagTransformPlugin env))] else [])),
      PluginRef.plugin (refPlugin env) ≠ item.head := by
    intro item hi
    have hm : item = .single (.plugin (vuePrefixPlugin env)) ∨
        item = .single (.plugin (syntaxPlugin env)) ∨
        item = .single (.plugin (tagTransformPlugin env)) := by
      cases (templateConfOf env.componentConf).fieldTruthy "useVuePrefix" <;>
      cases (templateConfOf env.componentConf).fieldTruthy "transformTags" <;>
      simp at hi <;> tauto
    rcases hm with h | h | h <;> subst h <;> simp [PluginItem.head, d1, d2, d3]
  rw [hinit, hnorm]
  cases env.isEnableRefSupport
  · simp
  · simp only [Option.map_some', if_true, addRefPlugin_of_absent env _ href]
/-- C6 at the spec's example: with `transformTags` configured, prefix normalization enabled
and ref support off, the chain is the prefix, the syntax and the tag-transform plugin. -/
theorem initViewTransformOptions_default_chain_witness :
    (initViewTransformOptions demoViewEnv 0 none).map (fun o => o.plugins) =
      some [PluginItem.single (.plugin (vuePrefixPlugin demoViewEnv)),
            PluginItem.single (.plugin (syntaxPlugin demoViewEnv)),
            PluginItem.single (.plugin (tagTransformPlugin demoViewEnv))] :=
  initViewTransformOptions_default_chain demoViewEnv 0 none (Or.inl rfl)
    (fun ps h => by
      have h1 := congrArg String.length h
      simp [demoViewEnv, demoJoin] at h1)
    (by decide)
/-! ## Entry-script expansion: marking the pages -/

theorem getByFullPath_mem (bm : BuildManager) (p : String) (g : Nat)
    (h : getByFullPath bm p = some g) : g ∈ bm.files ∧ (bm.file g).fullPath = p := by
  unfold getByFullPath at h
  have h1 := List.find?_some h
  have h2 := List.mem_of_find?_eq_some h
  exact ⟨h2, by simpa using h1⟩

theorem default_fullPath : (default : File).fullPath = "" := rfl

theorem file_of_not_lt (bm : BuildManager) (g : Nat) (h : ¬ g < bm.heap.length) :
    bm.file g = default := by
  unfold BuildManager.file
  simp [List.getD_eq_getElem?_getD, List.getElem?_eq_none (Nat.le_of_not_lt h)]

theorem append_dot_ne_empty (a b : String) : a ++ "." ++ b ≠ "" := by
  intro h
  have h1 := congrArg String.length h
  simp only [String.length_append] at h1
  have h2 : ".".length = 1 := rfl
  have h3 : "".length = 0 := rfl
  omega

/-- A file found under a page path is a file object of the heap. -/
theorem findPage_valid (env : Env) (bm : BuildManager) (f g : Nat) (p : String)
    (h : getByFullPath bm (pageFullPathOf env bm f p) = some g) : g < bm.heap.length := by
  by_contra hlt
  have h1 := (getByFullPath_mem bm _ g h).2
  rw [file_of_not_lt bm g hlt, default_fullPath] at h1
  exact append_dot_ne_empty _ _ h1.symm

/-- One step of the page loop changes no field but `isPageComponent`. -/
theorem markPage_field {α : Type} (proj : File → α) (env : Env) (f : Nat) (bm : BuildManager)
    (p : String) (g : Nat) (h : ∀ x : File, proj { x with isPageComponent := true } = proj x) :
    proj ((markPage env f bm p).file g) = proj (bm.file g) := by
  unfold markPage
  simp only []
  split
  · simp only [addNeedBuildFile_file]
    exact file_modify_field proj _ _ _ _ h
  · rfl

theorem markPage_heap_length (env : Env) (f : Nat) (bm : BuildManager) (p : String) :
    (markPage env f bm p).heap.length = bm.heap.length := by
  unfold markPage
  simp only []
  split <;> simp

theorem markPage_files (env : Env) (f : Nat) (bm : BuildManager) (p : String) :
    (markPage env f bm p).files = bm.files := by
  unfold markPage
  simp only []
  split <;> rfl

theorem markPage_log (env : Env) (f : Nat) (bm : BuildManager) (p : String) :
    (markPage env f bm p).log = bm.log := by
  unfold markPage
  simp only []
  split <;> rfl

/-- The page lookup reads only what the page loop leaves alone. -/
theorem findPage_congr (env : Env) (bm bm' : BuildManager) (f : Nat) (q : String)
    (hfiles : bm'.files = bm.files)
    (hfp : ∀ g, (bm'.file g).fullPath = (bm.file g).fullPath)
    (hdir : (bm'.file f).dirname = (bm.file f).dirname) :
    getByFullPath bm' (pageFullPathOf env bm' f q) = getByFullPath bm (pageFullPathOf env bm f q) := by
  have : pageFullPathOf env bm' f q = pageFullPathOf env bm f q := by
    unfold pageFullPathOf; rw [hdir]
  rw [this]
  exact getByFullPath_congr bm bm' _ hfiles hfp

theorem markPage_flag (env : Env) (f : Nat) (bm : BuildManager) (p : String) (g : Nat) :
    ((markPage env f bm p).file g).isPageComponent = true ↔
      (bm.file g).isPageComponent = true ∨
        getByFullPath bm (pageFullPathOf env bm f p) = some g := by
  unfold markPage
  simp only []
  cases h : getByFullPath bm (pageFullPathOf env bm f p) with
  | none => simp
  | some pf =>
    simp only [addNeedBuildFile_file]
    have hv := findPage_valid env bm f pf p h
    rw [file_modify]
    by_cases e : pf = g
    · subst e; simp [hv]
    · simp [e]

theorem markPage_needBuild (env : Env) (f : Nat) (bm : BuildManager) (p : String) :
    (markPage env f bm p).needBuild
      = bm.needBuild ++ (getByFullPath bm (pageFullPathOf env bm f p)).toList := by
  unfold markPage
  simp only []
  cases getByFullPath bm (pageFullPathOf env bm f p) <;> simp [addNeedBuildFile]

/-- What the page loop does: every file found under a declared page path is flagged and
handed to `addNeedBuildFile`, in order, and nothing else changes. -/
theorem markPages_spec (env : Env) (f : Nat) (ps : List String) :
    ∀ bm : BuildManager,
      (ps.foldl (markPage env f) bm).heap.length = bm.heap.length ∧
      (ps.foldl (markPage env f) bm).files = bm.files ∧
      (ps.foldl (markPage env f) bm).log = bm.log ∧
      (ps.foldl (markPage env f) bm).needBuild
        = bm.needBuild ++ ps.filterMap (fun p => getByFullPath bm (pageFullPathOf env bm f p)) ∧
      (∀ g, ((ps.foldl (markPage env f) bm).file g).isPageComponent = true ↔
        (bm.file g).isPageComponent = true ∨
          ∃ p ∈ ps, getByFullPath bm (pageFullPathOf env bm f p) = some g) := by
  induction ps with
  | nil => intro bm; simp
  | cons p ps ih =>
    intro bm
    obtain ⟨h1, h2, h3, h4, h5⟩ := ih (markPage env f bm p)
    have hc : ∀ q, getByFullPath (markPage env f bm p) (pageFullPathOf env (markPage env f bm p) f q)
        = getByFullPath bm (pageFullPathOf env bm f q) := fun q =>
      findPage_congr env bm _ f q (markPage_files env f bm p)
        (fun g => markPage_field (fun x => x.fullPath) env f bm p g (fun _ => rfl))
        (markPage_field (fun x => x.dirname) env f bm p f (fun _ => rfl))
    simp only [List.foldl_cons]
    refine ⟨by rw [h1, markPage_heap_length], by rw [h2, markPage_files],
      by rw [h3, markPage_log], ?_, fun g => ?_⟩
    · rw [h4, markPage_needBuild]
      simp only [hc, List.filterMap_cons]
      cases getByFullPath bm (pageFullPathOf env bm f p) <;> simp
    · rw [h5 g, markPage_flag]
      simp only [hc, List.mem_cons]
      constructor
      · rintro ((h | h) | ⟨q, hq, h⟩)
        · exact Or.inl h
        · exact Or.inr ⟨p, Or.inl rfl, h⟩
        · exact Or.inr ⟨q, Or.inr hq, h⟩
      · rintro (h | ⟨q, (hq | hq), h⟩)
        · exact Or.inl (Or.inl h)
        · subst hq; exact Or.inl (Or.inr h)
        · exact Or.inr ⟨q, hq, h⟩

/-- The page loop changes no field but `isPageComponent`. -/
theorem markPages_field {α : Type} (proj : File → α) (env : Env) (f : Nat)
    (h : ∀ x : File, proj { x with isPageComponent := true } = proj x) (ps : List String) :
    ∀ (bm : BuildManager) (g : Nat),
      proj ((ps.foldl (markPage env f) bm).file g) = proj (bm.file g) := by
  induction ps with
  | nil => intro bm g; rfl
  | cons p ps ih =>
    intro bm g
    simp only [List.foldl_cons]
    rw [ih, markPage_field proj env f bm p g h]

/-! ## Entry-script expansion: the config defaults and the app config file -/

theorem initAppConfig_heap_length (bm : BuildManager) (f : Nat) :
    (initAppConfig bm f).heap.length = bm.heap.length := by
  simp [initAppConfig]

theorem initAppConfig_field {α : Type} (proj : File → α) (bm : BuildManager) (f g : Nat)
    (h : ∀ (x : File) (c : Option (List (String × Json))), proj { x with config := c } = proj x) :
    proj ((initAppConfig bm f).file g) = proj (bm.file g) := by
  unfold initAppConfig
  simp only []
  rw [file_modify_field proj _ _ _ _ (fun x => h x _),
    file_modify_field proj _ _ _ _ (fun x => h x _)]

theorem initAppConfig_config (bm : BuildManager) (f : Nat) (hf : f < bm.heap.length) :
    ((initAppConfig bm f).file f).config
      = some (objSet "pages" (pagesOrEmpty (((bm.file f).config).getD []))
          (((bm.file f).config).getD [])) := by
  unfold initAppConfig
  simp only []
  rw [file_modify_same _ _ _ (by simpa using hf), file_modify_same _ _ _ hf]
  rfl

/-- The file object that `finishEntryScript` synthesizes. -/
theorem finishEntryScript_spec (env : Env) (bm : BuildManager) (f : Nat)
    (cfg : List (String × Json)) (hf : f < bm.heap.length)
    (hc : (bm.file f).config = some cfg) :
    (finishEntryScript env bm f).heap.length = bm.heap.length + 1 ∧
    (finishEntryScript env bm f).files = bm.files ++ [bm.heap.length] ∧
    (finishEntryScript env bm f).needBuild = bm.needBuild ++ [bm.heap.length] ∧
    (finishEntryScript env bm f).log = bm.log ∧
    (finishEntryScript env bm f).file bm.heap.length =
      { fullPath := (bm.file f).fullPath ++ ".json",
        path := env.pathRelative env.root ((bm.file f).fullPath ++ ".json"),
        dirname := env.pathDirname ((bm.file f).fullPath ++ ".json"),
        isVirtual := true, data := some (Json.stringify (.obj cfg)),
        isConfig := true, isAppConfig := true, owner := some f } ∧
    bm.heap.length ∈ ((finishEntryScript env bm f).file f).subFiles ∧
    (∀ g, g < bm.heap.length →
      ((finishEntryScript env bm f).file g).isPageComponent = (bm.file g).isPageComponent ∧
      ((finishEntryScript env bm f).file g).config = (bm.file g).config) := by
  have hne : bm.heap.length ≠ f := Nat.ne_of_gt hf
  have hne' : f ≠ bm.heap.length := Nat.ne_of_lt hf
  unfold finishEntryScript processConfigInfo
  simp only [hc, Option.getD_some]
  refine ⟨?_, ?_, ?_, ?_, ?_, ?_, ?_⟩
  · simp [addSubFile, createFile]
  · simp [addSubFile, createFile, push, addNeedBuildFile, BuildManager.modify]
  · simp [addSubFile, createFile, push, addNeedBuildFile, BuildManager.modify]
  · simp [addSubFile, createFile, push, addNeedBuildFile, BuildManager.modify]
  · simp [addSubFile, file_modify, createFile_file, hne, hne']
  · simp only [addNeedBuildFile_file, push_file, addSubFile, createFile_ref]
    rw [file_modify_ne _ _ _ _ hne, file_modify_same _ _ _ (by simpa using Nat.lt_succ_of_lt hf)]
    split
    · next h => simpa using h
    · simp
  · intro g hg
    have hgne : bm.heap.length ≠ g := Nat.ne_of_gt hg
    simp only [addNeedBuildFile_file, push_file, addSubFile, createFile_ref]
    rw [file_modify_ne _ _ _ _ hgne]
    constructor
    · rw [file_modify_field (fun x => x.isPageComponent) _ _ _ _ (by intro x; split <;> rfl),
        file_modify_ne _ _ _ _ hgne, file_modify_ne _ _ _ _ hgne,
        createFile_file_old _ _ _ _ hg]
    · rw [file_modify_field (fun x => x.config) _ _ _ _ (by intro x; split <;> rfl),
        file_modify_ne _ _ _ _ hgne, file_modify_ne _ _ _ _ hgne,
        createFile_file_old _ _ _ _ hg]
/-! ## The declared pages of an app config -/

theorem mapOpt_mem_of_some {α β : Type} (f : α → Option β) :
    ∀ (xs : List α) (ys : List β), mapOpt f xs = some ys →
      (∀ x ∈ xs, ∃ y, f x = some y ∧ y ∈ ys) ∧ (∀ y ∈ ys, ∃ x ∈ xs, f x = some y) := by
  intro xs
  induction xs with
  | nil =>
    intro ys h
    simp only [mapOpt, Option.some.injEq] at h
    subst h
    simp
  | cons x xs ih =>
    intro ys h
    simp only [mapOpt] at h
    cases hx : f x with
    | none => simp [hx] at h
    | some y =>
      simp only [hx] at h
      cases hxs : mapOpt f xs with
      | none => simp [hxs] at h
      | some ys' =>
        simp only [hxs, Option.map_some', Option.some.injEq] at h
        subst h
        obtain ⟨h1, h2⟩ := ih ys' hxs
        constructor
        · intro a ha
          rcases List.mem_cons.1 ha with ha | ha
          · subst ha; exact ⟨y, hx, List.mem_cons_self _ _⟩
          · obtain ⟨b, hb1, hb2⟩ := h1 a ha
            exact ⟨b, hb1, List.mem_cons_of_mem _ hb2⟩
        · intro b hb
          rcases List.mem_cons.1 hb with hb | hb
          · subst hb; exact ⟨x, List.mem_cons_self _ _, hx⟩
          · obtain ⟨a, ha1, ha2⟩ := h2 b hb
            exact ⟨a, List.mem_cons_of_mem _ ha1, ha2⟩

theorem asStrings_mem (v : Json) (pl : List String) (h : v.asStrings = some pl) :
    ∃ xs, v = .arr xs ∧ ∀ p, p ∈ pl ↔ Json.str p ∈ xs := by
  cases v with
  | arr xs =>
    refine ⟨xs, rfl, fun p => ?_⟩
    simp only [Json.asStrings] at h
    obtain ⟨h1, h2⟩ := mapOpt_mem_of_some _ xs pl h
    constructor
    · intro hp
      obtain ⟨x, hx1, hx2⟩ := h2 p hp
      cases x <;> simp at hx2
      subst hx2; exact hx1
    · intro hp
      obtain ⟨y, hy1, hy2⟩ := h1 _ hp
      simp at hy1
      subst hy1; exact hy2
  | null => simp [Json.asStrings] at h
  | bool b => simp [Json.asStrings] at h
  | num n => simp [Json.asStrings] at h
  | str s => simp [Json.asStrings] at h
  | obj fs => simp [Json.asStrings] at h

theorem pagesOrEmpty_mem (c : List (String × Json)) (pl : List String)
    (h : (pagesOrEmpty c).asStrings = some pl) (p : String) :
    p ∈ pl ↔ ∃ pages, objGet "pages" c = some (.arr pages) ∧ Json.str p ∈ pages := by
  obtain ⟨xs, hx1, hx2⟩ := asStrings_mem _ pl h
  rw [hx2 p]
  unfold pagesOrEmpty at hx1
  cases hg : objGet "pages" c with
  | none =>
    simp only [hg] at hx1
    injection hx1 with e
    subst e
    simp
  | some v =>
    simp only [hg] at hx1
    by_cases ht : v.truthy = true
    · simp only [ht, if_true] at hx1
      subst hx1
      simp
    · simp only [ht, if_false, Bool.false_eq_true] at hx1
      injection hx1 with e
      subst e
      constructor
      · intro h'; cases h'
      · rintro ⟨pages, h1, _⟩
        injection h1 with h1
        subst h1
        simp [Json.truthy] at ht

theorem joinPage_eq_some (root : Option Json) (q : Json) (p : String) :
    joinPage root q = some p ↔
      ∃ rootText qText, textOf root = some rootText ∧ q.toText = some qText ∧
        p = rootText ++ "/" ++ qText := by
  unfold joinPage
  cases h1 : textOf root with
  | none => simp
  | some r =>
    cases h2 : q.toText with
    | none => simp
    | some t =>
      simp only [Option.some.injEq]
      constructor
      · intro h; exact ⟨r, t, rfl, rfl, h.symm⟩
      · rintro ⟨r2, t2, e1, e2, e3⟩; rw [e3, e1, e2]

theorem lengthGtZero_arr (env : Env) (items : List Json) :
    Json.lengthGtZero env (.arr items) = some (!items.isEmpty) := rfl

theorem packagePages_mem (env : Env) (root pages : Option Json) (l : List String)
    (h : packagePages env root pages = some l) (p : String) :
    p ∈ l ↔ ∃ items q rootText qText, pages = some (.arr items) ∧ q ∈ items ∧
      textOf root = some rootText ∧ q.toText = some qText ∧ p = rootText ++ "/" ++ qText := by
  have hempty : l = [] → (∀ items q, pages = some (.arr items) → q ∈ items → False) →
      (p ∈ l ↔ ∃ items q rootText qText, pages = some (.arr items) ∧ q ∈ items ∧
        textOf root = some rootText ∧ q.toText = some qText ∧ p = rootText ++ "/" ++ qText) := by
    intro e hno
    subst e
    constructor
    · intro h'; cases h'
    · rintro ⟨items, q, _, _, e1, e2, _⟩
      exact (hno items q e1 e2).elim
  unfold packagePages at h
  cases pages with
  | none =>
    simp only [Option.some.injEq] at h
    exact hempty h.symm (fun _ _ e _ => by cases e)
  | some ps =>
    simp only [] at h
    by_cases ht : ps.truthy = true
    · rw [if_pos ht] at h
      cases ps with
      | arr items =>
        rw [lengthGtZero_arr] at h
        cases items with
        | nil =>
          simp only [List.isEmpty_nil, Bool.not_true, Option.some.injEq] at h
          refine hempty h.symm (fun items q e hq => ?_)
          injection e with e
          injection e with e
          subst e
          cases hq
        | cons x xs =>
          simp only [List.isEmpty_cons, Bool.not_false, mapPages] at h
          obtain ⟨h1, h2⟩ := mapOpt_mem_of_some _ _ l h
          constructor
          · intro hp
            obtain ⟨q, hq, hj⟩ := h2 p hp
            obtain ⟨r, t, e1, e2, e3⟩ := (joinPage_eq_some root q p).1 hj
            exact ⟨x :: xs, q, r, t, rfl, hq, e1, e2, e3⟩
          · rintro ⟨items, q, r, t, e0, hq, e1, e2, e3⟩
            injection e0 with e0
            injection e0 with e0
            subst e0
            obtain ⟨y, hy1, hy2⟩ := h1 q hq
            have : joinPage root q = some p := (joinPage_eq_some root q p).2 ⟨r, t, e1, e2, e3⟩
            rw [this] at hy1
            injection hy1 with hy1
            rw [hy1]; exact hy2
      | null => simp [Json.truthy] at ht
      | bool b =>
        simp only [Json.lengthGtZero, Option.some.injEq] at h
        exact hempty h.symm (fun _ _ e _ => by cases e)
      | num n =>
        simp only [Json.lengthGtZero, Option.some.injEq] at h
        exact hempty h.symm (fun _ _ e _ => by cases e)
      | str s =>
        simp only [Json.lengthGtZero] at h
        by_cases hs : (s != "") = true
        · simp only [hs, mapPages] at h
          cases h
        · simp only [hs, Option.some.injEq] at h
          exact hempty h.symm (fun _ _ e _ => by cases e)
      | obj o =>
        cases hl : Json.lengthGtZero env (.obj o) with
        | none => simp [hl] at h
        | some b =>
          cases b with
          | true => simp only [hl, mapPages] at h; cases h
          | false =>
            simp only [hl, Option.some.injEq] at h
            exact hempty h.symm (fun _ _ e _ => by cases e)
    · rw [if_neg ht] at h
      simp only [Option.some.injEq] at h
      refine hempty h.symm (fun items q e _ => ?_)
      injection e with e
      subst e
      exact ht rfl

theorem subPackagePages_mem (env : Env) (pkg : Json) (l : List String)
    (h : subPackagePages env pkg = some l) (p : String) :
    p ∈ l ↔ ∃ fields pages q rootText qText, pkg = .obj fields ∧
      objGet "pages" fields = some (.arr pages) ∧ q ∈ pages ∧
      textOf (objGet "root" fields) = some rootText ∧ q.toText = some qText ∧
      p = rootText ++ "/" ++ qText := by
  have hempty : l = [] → (∀ fields, pkg ≠ .obj fields) →
      (p ∈ l ↔ ∃ fields pages q rootText qText, pkg = .obj fields ∧
        objGet "pages" fields = some (.arr pages) ∧ q ∈ pages ∧
        textOf (objGet "root" fields) = some rootText ∧ q.toText = some qText ∧
        p = rootText ++ "/" ++ qText) := by
    intro e hno
    subst e
    constructor
    · intro h'; cases h'
    · rintro ⟨fields, _, _, _, _, e1, _⟩
      exact (hno fields e1).elim
  cases pkg with
  | obj fields =>
    simp only [subPackagePages] at h
    rw [packagePages_mem env _ _ l h p]
    constructor
    · rintro ⟨items, q, r, t, e0, hq, e1, e2, e3⟩
      exact ⟨fields, items, q, r, t, rfl, e0, hq, e1, e2, e3⟩
    · rintro ⟨fields2, items, q, r, t, e, e0, hq, e1, e2, e3⟩
      injection e with e
      subst e
      exact ⟨items, q, r, t, e0, hq, e1, e2, e3⟩
  | null => simp [subPackagePages] at h
  | bool b =>
    simp only [subPackagePages, Option.some.injEq] at h
    exact hempty h.symm (fun _ e => by cases e)
  | num n =>
    simp only [subPackagePages, Option.some.injEq] at h
    exact hempty h.symm (fun _ e => by cases e)
  | str s =>
    simp only [subPackagePages, Option.some.injEq] at h
    exact hempty h.symm (fun _ e => by cases e)
  | arr a =>
    simp only [subPackagePages, Option.some.injEq] at h
    exact hempty h.symm (fun _ e => by cases e)

theorem subPackagesPages_mem (env : Env) (sub : Option Json) (sp : List String)
    (h : subPackagesPages env sub = some sp) (p : String) :
    p ∈ sp ↔ ∃ pkgs fields pages q rootText qText,
      sub = some (.arr pkgs) ∧ Json.obj fields ∈ pkgs ∧
      objGet "pages" fields = some (.arr pages) ∧ q ∈ pages ∧
      textOf (objGet "root" fields) = some rootText ∧ q.toText = some qText ∧
      p = rootText ++ "/" ++ qText := by
  have hempty : sp = [] → (∀ pkgs fields, sub = some (.arr pkgs) →
        Json.obj fields ∈ pkgs → False) →
      (p ∈ sp ↔ ∃ pkgs fields pages q rootText qText,
        sub = some (.arr pkgs) ∧ Json.obj fields ∈ pkgs ∧
        objGet "pages" fields = some (.arr pages) ∧ q ∈ pages ∧
        textOf (objGet "root" fields) = some rootText ∧ q.toText = some qText ∧
        p = rootText ++ "/" ++ qText) := by
    intro e hno
    subst e
    constructor
    · intro h'; cases h'
    · rintro ⟨pkgs, fields, _, _, _, _, e1, e2, _⟩
      exact (hno pkgs fields e1 e2).elim
  unfold subPackagesPages at h
  cases sub with
  | none =>
    simp only [Option.some.injEq] at h
    exact hempty h.symm (fun _ _ e _ => by cases e)
  | some v =>
    simp only [] at h
    by_cases ht : v.truthy = true
    · rw [if_pos ht] at h
      cases v with
      | arr pkgs =>
        rw [lengthGtZero_arr] at h
        cases pkgs with
        | nil =>
          simp only [List.isEmpty_nil, Bool.not_true, Option.some.injEq] at h
          refine hempty h.symm (fun pkgs fields e hm => ?_)
          injection e with e
          injection e with e
          subst e
          cases hm
        | cons x xs =>
          simp only [List.isEmpty_cons, Bool.not_false, mapPackages] at h
          cases hm : mapOpt (subPackagePages env) (x :: xs) with
          | none => simp [hm] at h
          | some ls =>
            simp only [hm, Option.map_some', Option.some.injEq] at h
            subst h
            obtain ⟨h1, h2⟩ := mapOpt_mem_of_some _ _ ls hm
            simp only [List.mem_flatten]
            constructor
            · rintro ⟨l, hl, hp⟩
              obtain ⟨pkg, hpkg, hpl⟩ := h2 l hl
              obtain ⟨fields, pages, q, r, t, e1, e2, e3, e4, e5, e6⟩ :=
                (subPackagePages_mem env pkg l hpl p).1 hp
              subst e1
              exact ⟨x :: xs, fields, pages, q, r, t, rfl, hpkg, e2, e3, e4, e5, e6⟩
            · rintro ⟨pkgs2, fields, pages, q, r, t, e0, e1, e2, e3, e4, e5, e6⟩
              injection e0 with e0
              injection e0 with e0
              subst e0
              obtain ⟨l, hl1, hl2⟩ := h1 _ e1
              exact ⟨l, hl2, (subPackagePages_mem env _ l hl1 p).2
                ⟨fields, pages, q, r, t, rfl, e2, e3, e4, e5, e6⟩⟩
      | null => simp [Json.truthy] at ht
      | bool b =>
        simp only [Json.lengthGtZero, Option.some.injEq] at h
        exact hempty h.symm (fun _ _ e _ => by cases e)
      | num n =>
        simp only [Json.lengthGtZero, Option.some.injEq] at h
        exact hempty h.symm (fun _ _ e _ => by cases e)
      | str s =>
        simp only [Json.lengthGtZero] at h
        by_cases hs : (s != "") = true
        · simp only [hs, mapPackages] at h
          cases h
        · simp only [hs, Option.some.injEq] at h
          exact hempty h.symm (fun _ _ e _ => by cases e)
      | obj o =>
        cases hl : Json.lengthGtZero env (.obj o) with
        | none => simp [hl] at h
        | some b =>
          cases b with
          | true => simp only [hl, mapPackages] at h; cases h
          | false =>
            simp only [hl, Option.some.injEq] at h
            exact hempty h.symm (fun _ _ e _ => by cases e)
    · rw [if_neg ht] at h
      simp only [Option.some.injEq] at h
      refine hempty h.symm (fun pkgs fields e _ => ?_)
      injection e with e
      subst e
      exact ht rfl

/-- The pages that `processEntryScript` walks are the declared pages of the config. -/
theorem mem_pages_iff_declared (env : Env) (c : List (String × Json)) (pl sp : List String)
    (hp : (pagesOrEmpty c).asStrings = some pl)
    (hs : subPackagesPages env (objGet "subPackages" c) = some sp) (p : String) :
    p ∈ pl ++ sp ↔ IsDeclaredPageText c p := by
  unfold IsDeclaredPageText
  rw [List.mem_append, pagesOrEmpty_mem c pl hp p, subPackagesPages_mem env _ sp hs p]

/-- A declared page in the words of the spec, with a string root and a string page, is a
declared page under the conversions of JavaScript. -/
theorem declared_text_of_declared (c : List (String × Json)) (p : String)
    (h : IsDeclaredPage c p) : IsDeclaredPageText c p := by
  rcases h with h | ⟨pkgs, fields, root, pages, q, e1, e2, e3, e4, e5, e6⟩
  · exact Or.inl h
  · exact Or.inr ⟨pkgs, fields, pages, .str q, root, q, e1, e2, e4, e5, by rw [e3]; rfl, rfl, e6⟩

/-! ## Entry-script expansion: the claims -/

theorem entry_subPackages (bm : BuildManager) (f : Nat) (hf : f < bm.heap.length) :
    (((initAppConfig bm f).file f).config).bind (objGet "subPackages")
      = objGet "subPackages" (((bm.file f).config).getD []) := by
  rw [initAppConfig_config bm f hf]
  show objGet "subPackages" (objSet "pages" _ _) = _
  rw [objGet_objSet_ne "pages" "subPackages" _ _ (by decide)]

theorem processEntryScript_eq (env : Env) (bm : BuildManager) (f : Nat)
    (pl sp : List String) (hf : f < bm.heap.length)
    (hp : (pagesOrEmpty (((bm.file f).config).getD [])).asStrings = some pl)
    (hs : subPackagesPages env (objGet "subPackages" (((bm.file f).config).getD [])) = some sp) :
    processEntryScript env bm f
      = some (finishEntryScript env ((pl ++ sp).foldl (markPage env f) (initAppConfig bm f)) f) := by
  unfold processEntryScript
  simp only []
  rw [hp]
  simp only []
  rw [entry_subPackages bm f hf, hs]

/-- The call returns exactly when neither the sub-package block nor the page loop throws,
which the config alone decides. -/
theorem processEntryScript_returns (env : Env) (bm : BuildManager) (f : Nat)
    (hf : f < bm.heap.length) (st : BuildManager) (h : processEntryScript env bm f = some st) :
    ∃ pl sp, (pagesOrEmpty (((bm.file f).config).getD [])).asStrings = some pl ∧
      subPackagesPages env (objGet "subPackages" (((bm.file f).config).getD [])) = some sp := by
  unfold processEntryScript at h
  simp only [] at h
  cases hp : (pagesOrEmpty (((bm.file f).config).getD [])).asStrings with
  | none => rw [hp] at h; cases h
  | some pl =>
    rw [hp] at h
    simp only [] at h
    rw [entry_subPackages bm f hf] at h
    cases hs : subPackagesPages env (objGet "subPackages" (((bm.file f).config).getD [])) with
    | none => rw [hs] at h; cases h
    | some sp => exact ⟨pl, sp, rfl, rfl⟩

theorem processEntryScript_returns_iff (env : Env) (bm : BuildManager) (f : Nat)
    (hf : f < bm.heap.length) :
    (∃ st, processEntryScript env bm f = some st) ↔
      (∃ pl, (pagesOrEmpty (((bm.file f).config).getD [])).asStrings = some pl) ∧
        ∃ sp, subPackagesPages env
          (objGet "subPackages" (((bm.file f).config).getD [])) = some sp := by
  constructor
  · rintro ⟨st, h⟩
    obtain ⟨pl, sp, hp, hs⟩ := processEntryScript_returns env bm f hf st h
    exact ⟨⟨pl, hp⟩, ⟨sp, hs⟩⟩
  · rintro ⟨⟨pl, hp⟩, ⟨sp, hs⟩⟩
    exact ⟨_, processEntryScript_eq env bm f pl sp hf hp hs⟩

/-- After the config defaults and the page loop, the entry file holds the config with its
`pages` defaulted. -/
theorem entry_config_before_finish (env : Env) (bm : BuildManager) (f : Nat)
    (ps : List String) (hf : f < bm.heap.length) :
    ((ps.foldl (markPage env f) (initAppConfig bm f)).file f).config
      = some (objSet "pages" (pagesOrEmpty (((bm.file f).config).getD []))
          (((bm.file f).config).getD [])) := by
  rw [markPages_field (fun x => x.config) env f (fun _ => rfl) ps]
  exact initAppConfig_config bm f hf

theorem pagesOrEmpty_of_truthy (c : List (String × Json)) (v : Json)
    (h : objGet "pages" c = some v) (ht : v.truthy = true) :
    objSet "pages" (pagesOrEmpty c) c = c := by
  have e : pagesOrEmpty c = v := by simp [pagesOrEmpty, h, ht]
  rw [e]
  clear e
  induction c with
  | nil => simp [objGet] at h
  | cons kv rest ih =>
    obtain ⟨k, w⟩ := kv
    by_cases hk : k = "pages"
    · subst hk
      simp only [objGet, if_true, Option.some.injEq] at h
      subst h
      simp [objSet]
    · simp only [objGet, hk, if_false] at h
      simp [objSet, hk, ih h]

/-- C3, as the code has it: for an entry script whose config object is `c`, the call of
`processEntryScript` returns exactly when `c.pages` is absent, falsy or an array of strings
and the sub-package block of lines 45-58 does not throw, whatever the file set holds. Every
call that returns synthesizes one virtual file at `entry.fullPath + '.json'`, flagged
`isConfig` and `isAppConfig`, owned by the entry file and among its sub-files, pushed to the
file set and handed last to `addNeedBuildFile`; its data is the 4-space serialization of the
config object as the expansion leaves it on the entry file, which is `c` with `pages`
defaulted to `[]`, and `c` itself when `c.pages` is truthy. -/
theorem processEntryScript_appConfig (env : Env) (bm : BuildManager) (f : Nat)
    (c : List (String × Json)) (hf : f < bm.heap.length)
    (hc : (bm.file f).config = some c) :
    ((∃ st, processEntryScript env bm f = some st) ↔
      (∃ pl, (pagesOrEmpty c).asStrings = some pl) ∧
        ∃ sp, subPackagesPages env (objGet "subPackages" c) = some sp) ∧
    ∀ st, processEntryScript env bm f = some st →
      st.heap.length = bm.heap.length + 1 ∧
      st.file bm.heap.length =
        { fullPath := (bm.file f).fullPath ++ ".json",
          path := env.pathRelative env.root ((bm.file f).fullPath ++ ".json"),
          dirname := env.pathDirname ((bm.file f).fullPath ++ ".json"),
          isVirtual := true,
          data := some (Json.stringify (.obj (objSet "pages" (pagesOrEmpty c) c))),
          isConfig := true, isAppConfig := true, owner := some f } ∧
      bm.heap.length ∈ (st.file f).subFiles ∧
      st.files = bm.files ++ [bm.heap.length] ∧
      (∃ pages, st.needBuild = bm.needBuild ++ pages ++ [bm.heap.length]) ∧
      (st.file f).config = some (objSet "pages" (pagesOrEmpty c) c) ∧
      (∀ v, objGet "pages" c = some v → v.truthy = true →
        (st.file bm.heap.length).data = some (Json.stringify (.obj c))) := by
  have hc' : ((bm.file f).config).getD [] = c := by rw [hc]; rfl
  refine ⟨by rw [← hc']; exact processEntryScript_returns_iff env bm f hf, ?_⟩
  intro st hst
  obtain ⟨pl, sp, hp, hs⟩ := processEntryScript_returns env bm f hf st hst
  have e := processEntryScript_eq env bm f pl sp hf hp hs
  rw [hst] at e
  injection e with e
  subst e
  obtain ⟨m1, m2, m3, m4, m5⟩ := markPages_spec env f (pl ++ sp) (initAppConfig bm f)
  have hlen : ((pl ++ sp).foldl (markPage env f) (initAppConfig bm f)).heap.length
      = bm.heap.length := by rw [m1, initAppConfig_heap_length]
  have hcfg := entry_config_before_finish env bm f (pl ++ sp) hf
  rw [hc'] at hcfg
  obtain ⟨s1, s2, s3, s4, s5, s6, s7⟩ :=
    finishEntryScript_spec env _ f _ (by rw [hlen]; exact hf) hcfg
  rw [hlen] at s1 s2 s3 s5 s6 s7
  have hfp : (((pl ++ sp).foldl (markPage env f) (initAppConfig bm f)).file f).fullPath
      = (bm.file f).fullPath := by
    rw [markPages_field (fun x => x.fullPath) env f (fun _ => rfl)]
    exact initAppConfig_field (fun x => x.fullPath) bm f f (fun _ _ => rfl)
  rw [hfp] at s5
  refine ⟨s1, s5, s6, ?_, ?_, ?_, ?_⟩
  · rw [s2, m2]; rfl
  · exact ⟨_, by rw [s3, m4]; rfl⟩
  · rw [(s7 f hf).2, hcfg]
  · intro v hv ht
    rw [s5, pagesOrEmpty_of_truthy c v hv ht]

/-- C4, as the code has it: the call of `processEntryScript` on an entry script returns
exactly when `config.pages` is absent, falsy or an array of strings and the sub-package
block of lines 45-58 does not throw, whatever the file set holds. On every call that
returns, for every declared page path `p`, where `root + '/' + q` is the JavaScript
expression, a file that the file set holds at `resolve(entry.dirname, p) + '.' +
componentExtname` is flagged `isPageComponent` and handed to `addNeedBuildFile`; a declared
page without such a file is skipped, and `isPageComponent` is set on no other file. A
declared page with a string root and a string page is a declared page in this sense. -/
theorem processEntryScript_pages (env : Env) (bm : BuildManager) (f : Nat)
    (hf : f < bm.heap.length) :
    ((∃ st, processEntryScript env bm f = some st) ↔
      (∃ pl, (pagesOrEmpty (((bm.file f).config).getD [])).asStrings = some pl) ∧
        ∃ sp, subPackagesPages env
          (objGet "subPackages" (((bm.file f).config).getD [])) = some sp) ∧
    (∀ st, processEntryScript env bm f = some st →
      (∀ p g, IsDeclaredPageText (((bm.file f).config).getD []) p →
        getByFullPath bm (pageFullPathOf env bm f p) = some g →
          (st.file g).isPageComponent = true ∧ g ∈ st.needBuild) ∧
      (∀ g, (st.file g).isPageComponent = true →
        (bm.file g).isPageComponent = true ∨
          ∃ p, IsDeclaredPageText (((bm.file f).config).getD []) p ∧
            getByFullPath bm (pageFullPathOf env bm f p) = some g)) ∧
    (∀ p, IsDeclaredPage (((bm.file f).config).getD []) p →
      IsDeclaredPageText (((bm.file f).config).getD []) p) := by
  refine ⟨processEntryScript_returns_iff env bm f hf, ?_, declared_text_of_declared _⟩
  intro st hst
  obtain ⟨pl, sp, hp, hs⟩ := processEntryScript_returns env bm f hf st hst
  have e := processEntryScript_eq env bm f pl sp hf hp hs
  rw [hst] at e
  injection e with e
  subst e
  obtain ⟨m1, m2, m3, m4, m5⟩ := markPages_spec env f (pl ++ sp) (initAppConfig bm f)
  have hlen : ((pl ++ sp).foldl (markPage env f) (initAppConfig bm f)).heap.length
      = bm.heap.length := by rw [m1, initAppConfig_heap_length]
  have hcfg := entry_config_before_finish env bm f (pl ++ sp) hf
  obtain ⟨s1, s2, s3, s4, s5, s6, s7⟩ :=
    finishEntryScript_spec env _ f _ (by rw [hlen]; exact hf) hcfg
  rw [hlen] at s1 s5 s7
  have hfind : ∀ q, getByFullPath (initAppConfig bm f) (pageFullPathOf env (initAppConfig bm f) f q)
      = getByFullPath bm (pageFullPathOf env bm f q) := fun q =>
    findPage_congr env bm _ f q rfl
      (fun g => initAppConfig_field (fun x => x.fullPath) bm f g (fun _ _ => rfl))
      (initAppConfig_field (fun x => x.dirname) bm f f (fun _ _ => rfl))
  have hflag : ∀ g, ((initAppConfig bm f).file g).isPageComponent = (bm.file g).isPageComponent :=
    fun g => initAppConfig_field (fun x => x.isPageComponent) bm f g (fun _ _ => rfl)
  simp only [hfind, hflag] at m4 m5
  refine ⟨?_, ?_⟩
  · intro p g hd hg
    have hmem := (mem_pages_iff_declared env _ pl sp hp hs p).2 hd
    have hv := findPage_valid env bm f g p hg
    constructor
    · rw [(s7 g hv).1, m5 g]
      exact Or.inr ⟨p, hmem, hg⟩
    · rw [s3, m4]
      apply List.mem_append_left
      apply List.mem_append_right
      rw [List.mem_filterMap]
      exact ⟨p, hmem, hg⟩
  · intro g hg
    rcases Nat.lt_trichotomy g bm.heap.length with hlt | heq | hgt
    · rw [(s7 g hlt).1, m5 g] at hg
      rcases hg with hg | ⟨p, hp1, hp2⟩
      · exact Or.inl hg
      · exact Or.inr ⟨p, (mem_pages_iff_declared env _ pl sp hp hs p).1 hp1, hp2⟩
    · subst heq
      rw [s5] at hg
      cases hg
    · rw [file_of_not_lt _ g (by rw [s1]; omega)] at hg
      cases hg

/-- What `processEntryScript` does for an entry script without a config object: the config
defaults to an empty object with empty `pages`, so the app config file is synthesized all
the same and nothing is logged. -/
theorem processEntryScript_absent_config (env : Env) (bm : BuildManager) (f : Nat)
    (hf : f < bm.heap.length) (hn : (bm.file f).config = none) :
    ∃ st, processEntryScript env bm f = some st ∧
      st.log = bm.log ∧
      st.heap.length = bm.heap.length + 1 ∧
      (st.file bm.heap.length).isAppConfig = true ∧
      (st.file bm.heap.length).data = some (Json.stringify (.obj [("pages", .arr [])])) ∧
      bm.heap.length ∈ (st.file f).subFiles ∧
      st.files = bm.files ++ [bm.heap.length] ∧
      st.needBuild = bm.needBuild ++ [bm.heap.length] := by
  have hc' : ((bm.file f).config).getD [] = [] := by rw [hn]; rfl
  have e := processEntryScript_eq env bm f [] [] hf (by rw [hc']; rfl) (by rw [hc']; rfl)
  have hcfg := entry_config_before_finish env bm f [] hf
  rw [hc'] at hcfg
  obtain ⟨s1, s2, s3, s4, s5, s6, _⟩ := finishEntryScript_spec env _ f _
    (by simpa [initAppConfig_heap_length] using hf) hcfg
  simp only [List.append_nil, List.foldl_nil, initAppConfig_heap_length] at s1 s2 s3 s4 s5 s6 e
  refine ⟨_, e, s4, s1, ?_, ?_, s6, s2, s3⟩
  · rw [s5]
  · rw [s5]; rfl

/-- C7 at a sample input: the entry script `/p/src/app.js` has no config object, and
`processEntryScript` logs nothing and synthesizes the app config file `/p/src/app.js.json`
with the data of an empty config, registered and handed to `addNeedBuildFile`. -/
theorem processEntryScript_missing_config_sample :
    (processEntryScript demoEnv demoBuild 0).map (fun st =>
        (st.log.length, st.heap.length, (st.file 1).fullPath, (st.file 1).isAppConfig,
          (st.file 1).data, (st.file 0).subFiles, st.files, st.needBuild))
      = some (0, 2, "/p/src/app.js.json", true,
          some (Json.stringify (.obj [("pages", .arr [])])), [1], [0, 1], [1]) := by
  rfl

/-- C3 as stated fails. For the entry script with the config `demoWindowConfig`, which has
no `pages`, the data of the synthesized app config file is the serialization of the config
with `pages: []` added, which is not the serialization of the config. For the entry script
whose config has the string `'pages/index/index'` as its `pages`, `pages.forEach` is no
function and the call throws, so that no file is synthesized. -/
theorem processEntryScript_data_counterexample :
    ((processEntryScript demoEnv demoNoPages 0).map (fun st =>
        ((st.file 1).isAppConfig, (st.file 1).data))
      = some (true, some (Json.stringify (.obj (demoWindowConfig ++ [("pages", .arr [])])))) ∧
    Json.stringify (.obj (demoWindowConfig ++ [("pages", .arr [])]))
      ≠ Json.stringify (.obj demoWindowConfig)) ∧
    processEntryScript demoEnv (demoAppWith demoTextPages) 0 = none :=
  ⟨by decide, rfl⟩

/-- C4 as stated fails: the config of the entry script declares the page
`pages/index/index`, whose component file is in the file set and not flagged, and has a
sub-package whose `pages` is the string `'detail'`; `pkg.pages.map` is no function and the
call throws at line 50, before the page loop, so that the call flags no file. -/
theorem processEntryScript_pages_counterexample :
    IsDeclaredPage demoTextPackage "pages/index/index" ∧
    getByFullPath (demoAppWith demoTextPackage)
      (pageFullPathOf demoEnv (demoAppWith demoTextPackage) 0 "pages/index/index") = some 1 ∧
    ((demoAppWith demoTextPackage).file 1).isPageComponent = false ∧
    processEntryScript demoEnv (demoAppWith demoTextPackage) 0 = none :=
  ⟨Or.inl ⟨_, rfl, List.mem_cons_self _ _⟩, by decide, rfl, rfl⟩

/-- C3 at a sample input: the entry script with `demoAppConfig`. -/
theorem processEntryScript_appConfig_witness :
    ∃ st, processEntryScript demoEnv demoApp 0 = some st ∧
      st.heap.length = 4 ∧
      (st.file 3).fullPath = "/p/src/app.js.json" ∧
      (st.file 3).data = some (Json.stringify (.obj demoAppConfig)) ∧
      st.files = [0, 1, 2, 3] :=
  have h := processEntryScript_appConfig demoEnv demoApp 0 demoAppConfig (by decide) rfl
  (h.1.2 ⟨⟨_, rfl⟩, ⟨_, rfl⟩⟩).elim (fun st hst =>
    have k := h.2 st hst
    ⟨st, hst, k.1, congrArg File.fullPath k.2.1, k.2.2.2.2.2.2 _ rfl rfl, k.2.2.2.1⟩)

/-- C4 at a sample input: of the two declared pages of `demoAppConfig`, the one with a
component file is flagged and handed to `addNeedBuildFile`. -/
theorem processEntryScript_pages_witness :
    ∃ st, processEntryScript demoEnv demoApp 0 = some st ∧
      (st.file 1).isPageComponent = true ∧ 1 ∈ st.needBuild :=
  have h := processEntryScript_pages demoEnv demoApp 0 (by decide)
  (h.1.2 ⟨⟨_, rfl⟩, ⟨_, rfl⟩⟩).elim (fun st hst =>
    ⟨st, hst,
      (h.2.1 st hst).1 "pages/index/index" 1 (Or.inl ⟨_, rfl, List.mem_cons_self _ _⟩)
        (by decide)⟩)

/-- The sample of C4 evaluated: only the page's component file is flagged, and it is
handed to `addNeedBuildFile` before the app config file. -/
theorem processEntryScript_pages_sample :
    (processEntryScript demoEnv demoApp 0).map (fun st =>
        (st.heap.map (fun x => x.isPageComponent), st.needBuild))
      = some ([false, true, false, false], [1, 3]) := by
  rfl

/-- Configs on which line 46 or the callback of lines 48-54 skips: sub-packages that are
an empty object or `true`, a package that is a string, a package whose `pages` is an empty
object. The call returns, flags the component file of the declared page and synthesizes the
app config file. -/
theorem processEntryScript_skip_sample :
    [Json.obj [], .bool true, .arr [.str "abc"], .arr [.obj [("pages", .obj [])]]].map
      (fun sub => (processEntryScript demoEnv
        (demoAppWith [("pages", .arr [.str "pages/index/index"]), ("subPackages", sub)]) 0).map
          (fun st => (st.heap.map (fun x => x.isPageComponent), st.needBuild,
            (st.file 3).isAppConfig)))
      = [some ([false, true, false, false], [1, 3], true),
         some ([false, true, false, false], [1, 3], true),
         some ([false, true, false, false], [1, 3], true),
         some ([false, true, false, false], [1, 3], true)] := by
  decide

/-- Sub-package pages under the conversions of `+`: a package without `root` and a page
that is a number; roots that are `null`, a boolean, an array and an object. -/
theorem processEntryScript_text_sample :
    subPackagesPages demoEnv (some (.arr [.obj [("pages", .arr [.str "a", .num 5])],
      .obj [("root", .str "sub"), ("pages", .arr [.str "detail"])]]))
      = some ["undefined/a", "undefined/5", "sub/detail"] ∧
    subPackagesPages demoEnv (some (.arr [.obj [("root", .null), ("pages", .arr [.str "a"])],
      .obj [("root", .bool true), ("pages", .arr [.str "b"])],
      .obj [("root", .arr [.num 1, .null, .str "x"]), ("pages", .arr [.str "c"])],
      .obj [("root", .obj []), ("pages", .arr [.arr []])]]))
      = some ["null/a", "true/b", "1,,x/c", "[object Object]/"] := by
  decide

/-- Configs on which the sub-package block of lines 45-58 throws: sub-packages that are a
non-empty string or an object with a positive `length`, which have no `map`; a null
package; a package whose `pages` is a non-empty string; a root with an own `toString`
that is no function. Sub-packages that are an object with the `length` zero are
skipped. -/
theorem subPackagesPages_throw_sample :
    [Json.str "abc", .obj [("length", .num 1)], .arr [.null],
      .arr [.obj [("root", .str "sub"), ("pages", .str "detail")]],
      .arr [.obj [("root", .obj [("toString", .num 1)]), ("pages", .arr [.str "a"])]],
      .obj [("length", .num 0)]].map
      (fun sub => subPackagesPages demoEnv (some sub))
      = [none, none, none, none, none, some []] := by
  decide

/-! ## The rewritten path holds no install-directory name -/

theorem replaceAllAux_skip (pat rep : List Char) :
    ∀ (k : Nat) (s : List Char), replaceAllAux pat rep k s = replaceAllAux pat rep 0 (s.drop k) := by
  intro k
  induction k with
  | zero => intro s; rfl
  | succ k ih =>
    intro s
    cases s with
    | nil => rfl
    | cons c s => simp only [replaceAllAux, List.drop_succ_cons]; exact ih s

theorem infix_iff_suffix_start (p s : List Char) :
    p <:+: s ↔ ∃ t, t <:+ s ∧ p <+: t := by
  constructor
  · rintro ⟨a, b, h⟩
    exact ⟨p ++ b, ⟨a, by rw [← h]; simp⟩, ⟨b, rfl⟩⟩
  · rintro ⟨t, ht, hp⟩
    exact hp.isInfix.trans ht.isInfix

/-- A prefix of the rewritten text that holds no `n` was copied from the input. -/
theorem replaceAll_prefix_copied :
    ∀ (s w : List Char), w <+: replaceAllAux "node_modules".toList "npm".toList 0 s →
      'n' ∉ w → w <+: s := by
  intro s
  induction s with
  | nil => intro w h _; simpa [replaceAllAux] using h
  | cons c s ih =>
    intro w h hn
    cases w with
    | nil => exact List.nil_prefix
    | cons x w =>
      by_cases hp : "node_modules".toList.isPrefixOf (c :: s) = true
      · exfalso
        simp only [replaceAllAux, hp, if_true] at h
        have hx : x = 'n' := by
          obtain ⟨t, ht⟩ := h
          have := congrArg List.head? ht
          simpa using this
        exact hn (by simp [hx])
      · simp only [replaceAllAux, hp] at h
        simp only [Bool.false_eq_true, if_false] at h
        rw [List.cons_prefix_cons] at h ⊢
        exact ⟨h.1, ih w h.2 (fun hm => hn (List.mem_cons_of_mem _ hm))⟩

theorem replaceAll_no_dep_dir_aux :
    ∀ (n : Nat) (s : List Char), s.length ≤ n →
      ∀ t, t <:+ replaceAllAux "node_modules".toList "npm".toList 0 s →
        ¬ "node_modules".toList <+: t := by
  intro n
  induction n with
  | zero =>
    intro s hs t ht hp
    have : s = [] := List.length_eq_zero.1 (Nat.le_zero.1 hs)
    subst this
    simp [replaceAllAux] at ht
    subst ht
    simp at hp
  | succ n ih =>
    intro s hs t ht
    cases s with
    | nil =>
      intro hp
      simp [replaceAllAux] at ht
      subst ht
      simp at hp
    | cons c s =>
      have hs' : s.length ≤ n := by simpa using hs
      by_cases hp : "node_modules".toList.isPrefixOf (c :: s) = true
      · simp only [replaceAllAux, hp, if_true] at ht
        rw [replaceAllAux_skip] at ht
        have hd : (s.drop ("node_modules".toList.length - 1)).length ≤ n := by
          rw [List.length_drop]; omega
        have key := ih _ hd
        -- the suffixes of "npm" ++ X
        change t <:+ 'n' :: 'p' :: 'm' :: _ at ht
        rcases List.suffix_cons_iff.1 ht with e | ht
        · subst e; intro h; simp at h
        rcases List.suffix_cons_iff.1 ht with e | ht
        · subst e; intro h; simp at h
        rcases List.suffix_cons_iff.1 ht with e | ht
        · subst e; intro h; simp at h
        exact key t ht
      · simp only [replaceAllAux, hp] at ht
        simp only [Bool.false_eq_true, if_false] at ht
        rcases List.suffix_cons_iff.1 ht with e | ht
        · subst e
          intro h
          apply hp
          rw [isPrefixOf_iff]
          change 'n' :: "ode_modules".toList <+: _ at h
          rw [List.cons_prefix_cons] at h
          change 'n' :: "ode_modules".toList <+: _
          rw [List.cons_prefix_cons]
          exact ⟨h.1, replaceAll_prefix_copied s _ h.2 (by decide)⟩
        · exact ih s hs' t ht


theorem replaceAll_no_dep_dir (s : List Char) :
    ¬ "node_modules".toList <:+: replaceAll "node_modules".toList "npm".toList s := by
  intro h
  obtain ⟨t, ht, hp⟩ := (infix_iff_suffix_start _ _).1 h
  exact replaceAll_no_dep_dir_aux s.length s (Nat.le_refl _) t ht hp

theorem replaceFirst_cases (pat rep : List Char) :
    ∀ s : List Char, replaceFirst pat rep s = s ∨
      ∃ a b, s = a ++ (pat ++ b) ∧ replaceFirst pat rep s = a ++ (rep ++ b) := by
  intro s
  induction s with
  | nil =>
    cases pat with
    | nil => exact Or.inr ⟨[], [], by simp [replaceFirst]⟩
    | cons a l => exact Or.inl (by simp [replaceFirst])
  | cons c s ih =>
    by_cases hp : pat.isPrefixOf (c :: s) = true
    · right
      obtain ⟨b, hb⟩ := (isPrefixOf_iff _ _).1 hp
      refine ⟨[], b, by simpa using hb.symm, ?_⟩
      simp only [replaceFirst, hp, if_true, List.nil_append]
      rw [← hb]; simp
    · rcases ih with e | ⟨a, b, e1, e2⟩
      · left; simp [replaceFirst, hp, e]
      · right
        refine ⟨c :: a, b, by simp [e1], ?_⟩
        simp only [replaceFirst, hp, Bool.false_eq_true, if_false, e2, List.cons_append]

/-- A text written between two slashes joins two texts without creating an occurrence
of `node_modules`. -/
theorem no_dep_dir_join (mid a b : List Char)
    (hm : ¬ "node_modules".toList <:+: mid)
    (ha : ¬ "node_modules".toList <:+: a) (hb : ¬ "node_modules".toList <:+: b) :
    ¬ "node_modules".toList <:+: a ++ ('/' :: (mid ++ '/' :: b)) := by
  intro h
  rcases infix_split "node_modules".toList a _ '/' (by decide) h with x | x
  · exact ha x
  · rcases infix_split "node_modules".toList mid b '/' (by decide) x with y | y
    · exact hm y
    · exact hb y

/-- Replacing the first occurrence of a pattern creates no occurrence of `node_modules`
when the replacement joins any two texts without creating one. -/
theorem replaceFirst_no_dep_dir (pat rep s : List Char)
    (hrep : ∀ a b : List Char, ¬ "node_modules".toList <:+: a →
      ¬ "node_modules".toList <:+: b → ¬ "node_modules".toList <:+: a ++ (rep ++ b))
    (hs : ¬ "node_modules".toList <:+: s) :
    ¬ "node_modules".toList <:+: replaceFirst pat rep s := by
  rcases replaceFirst_cases pat rep s with e | ⟨a, b, e1, e2⟩
  · rw [e]; exact hs
  · rw [e2]
    have ha : ¬ "node_modules".toList <:+: a := fun x =>
      hs (e1 ▸ x.trans (List.prefix_append a _).isInfix)
    have hb : ¬ "node_modules".toList <:+: b := fun x =>
      hs (e1 ▸ x.trans ((List.suffix_append pat b).isInfix.trans (List.suffix_append a _).isInfix))
    exact hrep a b ha hb

/-- C13: for every old path and every rebase directory, the path that
`resolveNpmModuleNewPath` returns contains no occurrence of `node_modules`. -/
theorem resolveNpmModuleNewPath_no_dep_dir (oldPath rebaseDepDir : String) :
    ¬ containsStr (resolveNpmModuleNewPath oldPath rebaseDepDir) DEP_DIR_NAME := by
  have h0 := replaceAll_no_dep_dir
    (rebaseDepDir.toList ++ oldPath.toList.drop (DEP_DIR_NAME.length + 1))
  have h1 := replaceFirst_no_dep_dir "/src/".toList "/".toList _
    (fun a b ha hb h => (infix_split "node_modules".toList a b '/' (by decide) h).elim ha hb) h0
  have h2 := replaceFirst_no_dep_dir "/okam-core/".toList "/okam/".toList _
    (fun a b ha hb => no_dep_dir_join "okam".toList a b (by decide) ha hb) h1
  have h3 := replaceFirst_no_dep_dir "/@babel/runtime/helpers/".toList "/babel/".toList _
    (fun a b ha hb => no_dep_dir_join "babel".toList a b (by decide) ha hb) h2
  exact h3

/-! ## Quick-App output filter, page data access type, ref plugin -/

/-- C14: `output.file(p, f)` of the Quick-App config returns `false` exactly when `f` is a
style whose extname is not `css` and that is not compiled, or `f.allowRelease` is not set,
or `f.isComponentConfig` is set; in every other case it returns `p`. -/
theorem outputFile_spec (p : String) (f : File) :
    (outputFile p f = none ↔
      ((f.isStyle = true ∧ f.extname ≠ "css" ∧ f.compiled = false) ∨ f.allowRelease = false ∨
        f.isComponentConfig = true)) ∧
    (outputFile p f = none ∨ outputFile p f = some p) := by
  unfold outputFile
  cases f.isStyle <;> cases f.compiled <;> cases f.allowRelease <;>
    cases f.isComponentConfig <;> by_cases h : f.extname = "css" <;> simp [h]



/-- C15: for a page (`opts.isPage` set) and a config whose platform section has a truthy
data value `v`, `getAppBaseClassInitOptions` returns the object with `dataAccessType` equal
to `v` as it is, and logs the warning exactly when `v` is none of `public`, `protected`,
`private`; when `opts.isPage` is not set, the config is absent or the data value is absent,
it returns nothing and logs nothing. -/
theorem getAppBaseClassInitOptions_spec (envConfigKey : String) (bm : BuildManager)
    (config : Option Json) (isPage : Bool) :
    (∀ c e v : Json, isPage = true → config = some c → c.truthy = true →
      c.field envConfigKey = some e → e.truthy = true → e.field "data" = some v →
      v.truthy = true →
        (getAppBaseClassInitOptions envConfigKey bm config isPage).2
            = some (.obj [("dataAccessType", v)]) ∧
        ((∃ s, s ∈ VALIDATED_DATA_TYPES ∧ v = .str s) →
          (getAppBaseClassInitOptions envConfigKey bm config isPage).1 = bm) ∧
        ((¬ ∃ s, s ∈ VALIDATED_DATA_TYPES ∧ v = .str s) →
          (getAppBaseClassInitOptions envConfigKey bm config isPage).1
            = bm.logMsg "warn" ["illegal quick app page data type:", v.logText])) ∧
    ((isPage = false ∨ config = none ∨
        (∀ c e : Json, config = some c → c.field envConfigKey = some e → e.truthy = true →
          e.field "data" = none)) →
      getAppBaseClassInitOptions envConfigKey bm config isPage = (bm, none)) := by
  constructor
  · intro c e v hp hc hct he het hv hvt
    subst hp hc
    have hd : dataAccessTypeOf c envConfigKey = some v := by
      simp [dataAccessTypeOf, he, het, hv]
    have hvalid : isValidatedDataType v = true ↔ ∃ s, s ∈ VALIDATED_DATA_TYPES ∧ v = .str s := by
      cases v <;> simp [isValidatedDataType]
    simp only [getAppBaseClassInitOptions, hct, hd, initOptionsOf, hvt]
    refine ⟨by simp, ?_, ?_⟩
    · intro h
      simp [hvalid.2 h]
    · intro h
      have : isValidatedDataType v = false := by
        rw [Bool.eq_false_iff]; exact fun x => h (hvalid.1 x)
      simp [this]
  · intro h
    cases config with
    | none => rfl
    | some c =>
      cases isPage with
      | false => simp [getAppBaseClassInitOptions]
      | true =>
        cases hct : c.truthy with
        | false => simp [getAppBaseClassInitOptions, hct]
        | true =>
          rcases h with h | h | h
          · cases h
          · cases h
          · simp only [getAppBaseClassInitOptions, hct]
            cases he : c.field envConfigKey with
            | none => simp [dataAccessTypeOf, he]
            | some e =>
              cases het : e.truthy with
              | false => simp [dataAccessTypeOf, he, het, initOptionsOf]
              | true => simp [dataAccessTypeOf, he, het, h c e rfl he het]

/-- C18: `addRefPlugin(ps)` is `ps` when `ps` holds the ref plugin by identity, bare or as
the first element of a pair, and otherwise `ps` with the bare ref plugin appended last;
applying it twice is the same as applying it once. -/
theorem addRefPlugin_spec (env : ViewEnv) (ps : List PluginItem) :
    ((∃ item, item ∈ ps ∧ item.head = .plugin (refPlugin env)) → addRefPlugin env ps = ps) ∧
    ((¬ ∃ item, item ∈ ps ∧ item.head = .plugin (refPlugin env)) →
      addRefPlugin env ps = ps ++ [.single (.plugin (refPlugin env))]) ∧
    addRefPlugin env (addRefPlugin env ps) = addRefPlugin env ps := by
  have hany : ∀ l : List PluginItem,
      l.any (fun item => decide (PluginRef.plugin (refPlugin env) = item.head)) = true ↔
        ∃ item, item ∈ l ∧ item.head = .plugin (refPlugin env) := by
    intro l
    simp only [List.any_eq_true, decide_eq_true_eq]
    constructor
    · rintro ⟨x, hx, e⟩; exact ⟨x, hx, e.symm⟩
    · rintro ⟨x, hx, e⟩; exact ⟨x, hx, e.symm⟩
  have hpos : ∀ l : List PluginItem,
      (∃ item, item ∈ l ∧ item.head = .plugin (refPlugin env)) → addRefPlugin env l = l := by
    intro l h
    simp [addRefPlugin, (hany l).2 h]
  have hneg : ∀ l : List PluginItem,
      (¬ ∃ item, item ∈ l ∧ item.head = .plugin (refPlugin env)) →
        addRefPlugin env l = l ++ [.single (.plugin (refPlugin env))] := by
    intro l h
    have : l.any (fun item => decide (PluginRef.plugin (refPlugin env) = item.head)) = false := by
      rw [Bool.eq_false_iff]; exact fun x => h ((hany l).1 x)
    simp [addRefPlugin, this]
  refine ⟨hpos ps, hneg ps, ?_⟩
  by_cases h : ∃ item, item ∈ ps ∧ item.head = .plugin (refPlugin env)
  · rw [hpos ps h, hpos ps h]
  · rw [hneg ps h]
    exact hpos _ ⟨.single (.plugin (refPlugin env)), by simp, rfl⟩

/-- C15 at a sample input: a page whose platform section asks for the data access type
`shared`, which is none of the three known ones. -/
theorem getAppBaseClassInitOptions_spec_witness :
    (getAppBaseClassInitOptions "_quickEnv" {}
        (some (.obj [("_quickEnv", .obj [("data", .str "shared")])])) true).2
      = some (.obj [("dataAccessType", .str "shared")]) ∧
    (getAppBaseClassInitOptions "_quickEnv" {}
        (some (.obj [("_quickEnv", .obj [("data", .str "shared")])])) true).1
      = BuildManager.logMsg {} "warn" ["illegal quick app page data type:", "shared"] :=
  have h := (getAppBaseClassInitOptions_spec "_quickEnv" {}
    (some (.obj [("_quickEnv", .obj [("data", .str "shared")])])) true).1
    (.obj [("_quickEnv", .obj [("data", .str "shared")])]) (.obj [("data", .str "shared")])
    (.str "shared") rfl rfl rfl rfl rfl rfl rfl
  ⟨h.1, h.2.2 (by simp [VALIDATED_DATA_TYPES])⟩

/-- C18 at a sample input: a chain without the ref plugin gets it appended, once. -/
theorem addRefPlugin_spec_witness :
    addRefPlugin demoViewEnv [.single (.name "syntax")]
      = [.single (.name "syntax"), .single (.plugin (refPlugin demoViewEnv))] ∧
    addRefPlugin demoViewEnv (addRefPlugin demoViewEnv [.single (.name "syntax")])
      = addRefPlugin demoViewEnv [.single (.name "syntax")] :=
  ⟨(addRefPlugin_spec demoViewEnv [.single (.name "syntax")]).2.1 (by simp [PluginItem.head]),
   (addRefPlugin_spec demoViewEnv [.single (.name "syntax")]).2.2⟩

/-! ## The two forms of `registerProcessor` -/

theorem objGet_eq_none {α : Type} (k : String) :
    ∀ l : List (String × α), objGet k l = none ↔ ∀ kv ∈ l, kv.1 ≠ k := by
  intro l
  induction l with
  | nil => simp [objGet]
  | cons x l ih =>
    obtain ⟨k', v⟩ := x
    by_cases h : k' = k
    · simp [objGet, h]
    · simp [objGet, h, ih]

theorem objSet_of_new {α : Type} (k : String) (v : α) :
    ∀ l : List (String × α), (∀ kv ∈ l, kv.1 ≠ k) → objSet k v l = l ++ [(k, v)] := by
  intro l
  induction l with
  | nil => intro _; rfl
  | cons x l ih =>
    intro h
    obtain ⟨k', v'⟩ := x
    have h1 : k' ≠ k := h (k', v') (by simp)
    have h2 : ∀ kv ∈ l, kv.1 ≠ k := fun kv hkv => h kv (by simp [hkv])
    simp [objSet, h1, ih h2]

theorem objAssign_of_new :
    ∀ (source target : List (String × Json)), (source.map Prod.fst).Nodup →
      (∀ kv ∈ source, ∀ kv' ∈ target, kv'.1 ≠ kv.1) → objAssign target source = target ++ source := by
  intro source
  induction source with
  | nil => intro target _ _; simp [objAssign]
  | cons x source ih =>
    intro target hnd hdis
    obtain ⟨k, v⟩ := x
    have hnd' : k ∉ source.map Prod.fst ∧ (source.map Prod.fst).Nodup := by
      simpa using hnd
    have h1 : objSet k v target = target ++ [(k, v)] :=
      objSet_of_new k v target (fun kv' hkv' => hdis (k, v) (by simp) kv' hkv')
    have h2 : objAssign target ((k, v) :: source) = objAssign (objSet k v target) source := rfl
    rw [h2, h1, ih (target ++ [(k, v)]) hnd'.2 ?_]
    · simp
    · intro kv hkv kv' hkv'
      rcases List.mem_append.1 hkv' with h | h
      · exact hdis kv (by simp [hkv]) kv' h
      · have : kv' = (k, v) := by simpa using h
        subst this
        intro e
        exact hnd'.1 (List.mem_map.2 ⟨kv, hkv, e.symm⟩)

theorem foldl_push_eq_map {α β : Type} (f : α → β) :
    ∀ (l : List α) (acc : List β), l.foldl (fun result x => result ++ [f x]) acc = acc ++ l.map f := by
  intro l
  induction l with
  | nil => intro acc; simp
  | cons x l ih => intro acc; simp [ih]

theorem processorsOfMapping_eq (fields : List (String × ProcessorDef)) :
    processorsOfMapping fields
      = fields.map (fun kv => objAssign [("name", .str kv.1)] kv.2) := by
  unfold processorsOfMapping
  rw [foldl_push_eq_map (fun kv : String × ProcessorDef => objAssign [("name", Json.str kv.1)] kv.2)]
  simp

/-- C16 as stated fails: a definition with a name property of its own is registered
under that name by the mapping form, and under its key by the list of the statement. -/
theorem registerProcessor_own_name_counterexample :
    registerProcessor [] (some (.mapping [("foo", [("name", .str "bar")])]))
      = [[("name", .str "bar")]] ∧
    registerProcessor [] (some (.list (namedDefinitions [("foo", [("name", .str "bar")])])))
      = [[("name", .str "foo")]] ∧
    registerProcessor [] (some (.mapping [("foo", [("name", .str "bar")])]))
      ≠ registerProcessor [] (some (.list (namedDefinitions [("foo", [("name", .str "bar")])]))) := by
  refine ⟨rfl, rfl, ?_⟩
  intro h
  have h1 : registerProcessor [] (some (.mapping [("foo", [("name", .str "bar")])]))
      = [[("name", .str "bar")]] := rfl
  have h2 : registerProcessor [] (some (.list (namedDefinitions [("foo", [("name", .str "bar")])])))
      = [[("name", .str "foo")]] := rfl
  rw [h1, h2] at h
  simp at h

/-- C16, amended: when no definition of the mapping has a name property of its own,
the mapping form registers the same definitions in the same order as the list form. -/
theorem registerProcessor_mapping_eq_list (registry : List ProcessorDef)
    (fields : List (String × ProcessorDef))
    (hvalid : ∀ kv ∈ fields, (kv.2.map Prod.fst).Nodup)
    (hname : ∀ kv ∈ fields, objGet "name" kv.2 = none) :
    registerProcessor registry (some (.mapping fields))
      = registerProcessor registry (some (.list (namedDefinitions fields))) := by
  have h : processorsOfMapping fields = namedDefinitions fields := by
    rw [processorsOfMapping_eq]
    unfold namedDefinitions
    apply List.map_congr_left
    intro kv hkv
    have hn : ∀ f ∈ kv.2, f.1 ≠ "name" := (objGet_eq_none "name" kv.2).1 (hname kv hkv)
    rw [objAssign_of_new kv.2 _ (hvalid kv hkv) ?_]
    · have : kv.2.filter (fun f => f.1 != "name") = kv.2 := by
        rw [List.filter_eq_self]
        intro f hf
        simpa using hn f hf
      rw [this]; rfl
    · intro f hf f' hf'
      have : f' = ("name", Json.str kv.1) := by simpa using hf'
      subst this
      exact fun e => hn f hf e.symm
  simp only [registerProcessor, h]

/-- C16, amended, at a sample input: a mapping of two definitions without a name. -/
theorem registerProcessor_mapping_eq_list_witness :
    registerProcessor [] (some (.mapping
        [("less", [("extnames", .arr [.str "less"])]), ("babel", [("rext", .str "js")])]))
      = [[("name", .str "less"), ("extnames", .arr [.str "less"])],
         [("name", .str "babel"), ("rext", .str "js")]] ∧
    registerProcessor [] (some (.mapping
        [("less", [("extnames", .arr [.str "less"])]), ("babel", [("rext", .str "js")])]))
      = registerProcessor [] (some (.list (namedDefinitions
        [("less", [("extnames", .arr [.str "less"])]), ("babel", [("rext", .str "js")])]))) :=
  ⟨rfl, registerProcessor_mapping_eq_list [] _ (by simp) (by simp [objGet])⟩

/-! ## The reachability flags along dependency edges -/

/-- C11 as stated fails: `b.js` requires `./c` before the wx component script `a.js`
requires `./b`. In the resulting state `b.js` is reached from `a.js` and `c.js` from
`b.js` along recorded edges, `a.js` and `b.js` have the flag, and `c.js` does not. -/
theorem resolve_flags_not_transitive_counterexample :
    HasDep (runResolve demoChainEnv demoChain [(1, "./c"), (0, "./b")]) 0 1 ∧
    HasDep (runResolve demoChainEnv demoChain [(1, "./c"), (0, "./b")]) 1 2 ∧
    ((runResolve demoChainEnv demoChain [(1, "./c"), (0, "./b")]).file 0).isWxCompScript = true ∧
    ((runResolve demoChainEnv demoChain [(1, "./c"), (0, "./b")]).file 1).isWxCompScript = true ∧
    ((runResolve demoChainEnv demoChain [(1, "./c"), (0, "./b")]).file 2).isWxCompScript = false := by
  refine ⟨?_, ?_, ?_, ?_, ?_⟩ <;> decide

theorem addFile_ref (env : Env) (bm : BuildManager) (p : String) (hp : p ≠ "") :
    (addFile env bm p).2 < (addFile env bm p).1.heap.length ∧
      ((addFile env bm p).1.file (addFile env bm p).2).fullPath = p := by
  unfold addFile
  cases h : getByFullPath bm p with
  | some r =>
    have h1 := (getByFullPath_mem bm p r h).2
    refine ⟨?_, h1⟩
    by_contra hlt
    rw [file_of_not_lt bm r hlt] at h1
    exact hp h1.symm
  | none =>
    refine ⟨by simp, ?_⟩
    simp [createFile_file]

theorem addDeps_mem (bm : BuildManager) (f : Nat) (p : String) (hf : f < bm.heap.length) :
    p ∈ ((addDeps bm f p).file f).deps := by
  unfold addDeps
  rw [file_modify_same _ _ _ hf]
  split
  · next h => simpa using h
  · simp

theorem writeCache_field {α : Type} (proj : File → α) (bm : BuildManager) (f g : Nat)
    (r r' : String) (i : CacheInfo)
    (h : ∀ (x : File) (c : Option ModIdCache), proj { x with resolvedModIds := c } = proj x) :
    proj ((writeCache bm f r r' i).file g) = proj (bm.file g) := by
  unfold writeCache
  exact file_modify_field proj _ _ _ _ (fun x => h x _)


/-- A flag that is set stays set through the propagation of flags. -/
theorem propagateFlags_mono (proj : File → Bool) (bm : BuildManager) (f d g : Nat)
    (h1 : ∀ x : File, proj x = true → proj { x with isWxCompScript := true } = true)
    (h2 : ∀ x : File, proj x = true → proj { x with isSwanCompScript := true } = true)
    (h3 : ∀ x : File, proj x = true → proj { x with isAntCompScript := true } = true)
    (h : proj (bm.file g) = true) : proj ((propagateFlags bm f d).file g) = true := by
  have step : ∀ (b : BuildManager) (u : File → File),
      (∀ x : File, proj x = true → proj (u x) = true) → proj (b.file g) = true →
        proj ((b.modify d u).file g) = true := by
    intro b u hu hb
    rw [file_modify]
    split
    · next c => rw [c.1]; exact hu _ hb
    · exact hb
  unfold propagateFlags
  simp only []
  split <;> split <;> split <;>
    first
      | exact h
      | exact step _ _ h1 h
      | exact step _ _ h2 h
      | exact step _ _ h3 h
      | exact step _ _ h2 (step _ _ h1 h)
      | exact step _ _ h3 (step _ _ h1 h)
      | exact step _ _ h3 (step _ _ h2 h)
      | exact step _ _ h3 (step _ _ h2 (step _ _ h1 h))

/-- The propagation sets on the dependency file each flag of the referencing file. -/
theorem propagateFlags_sets (bm : BuildManager) (f d : Nat) (hd : d < bm.heap.length) :
    ((bm.file f).isWxCompScript = true →
      ((propagateFlags bm f d).file d).isWxCompScript = true) ∧
    ((bm.file f).isSwanCompScript = true →
      ((propagateFlags bm f d).file d).isSwanCompScript = true) ∧
    ((bm.file f).isAntCompScript = true →
      ((propagateFlags bm f d).file d).isAntCompScript = true) := by
  unfold propagateFlags
  simp only []
  refine ⟨?_, ?_, ?_⟩
  · intro h
    rw [if_pos h]
    split <;> split <;> simp [file_modify, hd]
  · intro h
    by_cases hw : (bm.file f).isWxCompScript = true
    · rw [if_pos hw]
      have e : ((bm.modify d (fun x => { x with isWxCompScript := true })).file f).isSwanCompScript
          = true :=
        (file_modify_field (fun x => x.isSwanCompScript) bm d f
          (fun x => { x with isWxCompScript := true }) (fun _ => rfl)).trans h
      rw [if_pos e]
      split <;> simp [file_modify, hd]
    · rw [if_neg hw, if_pos h]
      split <;> simp [file_modify, hd]
  · intro h
    have key : ∀ b : BuildManager, b.heap.length = bm.heap.length →
        (b.file f).isAntCompScript = true →
        ((if (b.file f).isAntCompScript = true then
            b.modify d (fun x => { x with isAntCompScript := true }) else b).file d).isAntCompScript
          = true := by
      intro b hb hbf
      rw [if_pos hbf, file_modify_same _ _ _ (by omega)]
    have hpres : ∀ (b : BuildManager) (u : File → File),
        (∀ x, (u x).isAntCompScript = x.isAntCompScript) → (b.file f).isAntCompScript = true →
          ((b.modify d u).file f).isAntCompScript = true :=
      fun b u hu hb => (file_modify_field (fun x => x.isAntCompScript) b d f u hu).trans hb
    apply key
    · split <;> split <;> simp
    · split <;> split <;>
        first
          | exact h
          | exact hpres _ _ (fun _ => rfl) h
          | exact hpres _ _ (fun _ => rfl) (hpres _ _ (fun _ => rfl) h)

theorem resolve_fresh_eq (env : Env) (bm : BuildManager) (f : Nat) (r p : String)
    (hr : r ≠ "") (hm : (((bm.file f).resolvedModIds).getD {}).get r = .miss)
    (hl : env.resolve r f = some p) (hp : p ≠ "") :
    resolve env bm f r =
      ((resolveFound env (initResolvedModIds bm f) f r (bm.file f).isNpm
          (r.toList.head? == some '.') p).1,
       some (resolveFound env (initResolvedModIds bm f) f r (bm.file f).isNpm
          (r.toList.head? == some '.') p).2) := by
  unfold resolve
  simp only [hr, if_false, hm, hl, hp]

/-- What `resolve` does for the dependency file once the lookup has found it. -/
theorem resolveFound_dep (env : Env) (bm : BuildManager) (f : Nat) (r p : String)
    (n l : Bool) (hf : f < bm.heap.length) (hp : p ≠ "") :
    ∃ dep, dep < (resolveFound env bm f r n l p).1.heap.length ∧
      ((resolveFound env bm f r n l p).1.file dep).fullPath = p ∧
      HasDep (resolveFound env bm f r n l p).1 f dep ∧
      ((bm.file f).isWxCompScript = true →
        ((resolveFound env bm f r n l p).1.file dep).isWxCompScript = true) ∧
      ((bm.file f).isSwanCompScript = true →
        ((resolveFound env bm f r n l p).1.file dep).isSwanCompScript = true) ∧
      ((bm.file f).isAntCompScript = true →
        ((resolveFound env bm f r n l p).1.file dep).isAntCompScript = true) := by
  have ha := addFile_ref env (bm.logMsg "debug" ["resolve", (bm.file f).path, r]) p hp
  have hold : ((addFile env (bm.logMsg "debug" ["resolve", (bm.file f).path, r]) p).1.file f)
      = bm.file f := addFile_file_old env _ p f hf
  have hlen : f < (addFile env (bm.logMsg "debug" ["resolve", (bm.file f).path, r]) p).1.heap.length :=
    Nat.lt_of_lt_of_le hf
      (addFile_heap_le env (bm.logMsg "debug" ["resolve", (bm.file f).path, r]) p)
  refine ⟨(addFile env (bm.logMsg "debug" ["resolve", (bm.file f).path, r]) p).2, ?_, ?_, ?_, ?_⟩
  · unfold resolveFound writeCache
    simpa using ha.1
  · unfold resolveFound
    simp only []
    rw [writeCache_field (fun x => x.fullPath) _ _ _ _ _ _ (fun _ _ => rfl),
      propagateFlags_field (fun x => x.fullPath) _ _ _ _ (fun _ => rfl) (fun _ => rfl)
        (fun _ => rfl),
      addDeps_field (fun x => x.fullPath) _ _ _ _ (fun _ _ => rfl)]
    exact ha.2
  · unfold HasDep resolveFound
    simp only []
    rw [writeCache_field (fun x => x.path) _ _ _ _ _ _ (fun _ _ => rfl),
      propagateFlags_field (fun x => x.path) _ _ _ _ (fun _ => rfl) (fun _ => rfl)
        (fun _ => rfl),
      addDeps_field (fun x => x.path) _ _ _ _ (fun _ _ => rfl),
      writeCache_field (fun x => x.deps) _ _ _ _ _ _ (fun _ _ => rfl),
      propagateFlags_field (fun x => x.deps) _ _ _ _ (fun _ => rfl) (fun _ => rfl)
        (fun _ => rfl)]
    exact addDeps_mem _ _ _ (by simpa using hlen)
  · have hs := propagateFlags_sets
      (addDeps (addNeedBuildFile (addFile env (bm.logMsg "debug" ["resolve", (bm.file f).path, r]) p).1
          (addFile env (bm.logMsg "debug" ["resolve", (bm.file f).path, r]) p).2) f
        ((addNeedBuildFile (addFile env (bm.logMsg "debug" ["resolve", (bm.file f).path, r]) p).1
          (addFile env (bm.logMsg "debug" ["resolve", (bm.file f).path, r]) p).2).file
            (addFile env (bm.logMsg "debug" ["resolve", (bm.file f).path, r]) p).2).path)
      f (addFile env (bm.logMsg "debug" ["resolve", (bm.file f).path, r]) p).2
      (by simpa using ha.1)
    have hw : ∀ (proj : File → Bool),
        (∀ (x : File) (ds : List String), proj { x with deps := ds } = proj x) →
        proj ((addDeps (addNeedBuildFile (addFile env (bm.logMsg "debug" ["resolve", (bm.file f).path, r]) p).1
          (addFile env (bm.logMsg "debug" ["resolve", (bm.file f).path, r]) p).2) f
        ((addNeedBuildFile (addFile env (bm.logMsg "debug" ["resolve", (bm.file f).path, r]) p).1
          (addFile env (bm.logMsg "debug" ["resolve", (bm.file f).path, r]) p).2).file
            (addFile env (bm.logMsg "debug" ["resolve", (bm.file f).path, r]) p).2).path).file f)
          = proj (bm.file f) := by
      intro proj h
      rw [addDeps_field proj _ _ _ _ h, addNeedBuildFile_file, hold]
    rw [hw (fun x => x.isWxCompScript) (fun _ _ => rfl),
      hw (fun x => x.isSwanCompScript) (fun _ _ => rfl),
      hw (fun x => x.isAntCompScript) (fun _ _ => rfl)] at hs
    unfold resolveFound
    simp only []
    rw [writeCache_field (fun x => x.isWxCompScript) _ _ _ _ _ _ (fun _ _ => rfl),
      writeCache_field (fun x => x.isSwanCompScript) _ _ _ _ _ _ (fun _ _ => rfl),
      writeCache_field (fun x => x.isAntCompScript) _ _ _ _ _ _ (fun _ _ => rfl)]
    exact hs


/-- A flag that is set on a file stays set through a call of `resolve`. -/
theorem resolve_flag_mono (proj : File → Bool) (env : Env) (bm : BuildManager) (f g : Nat)
    (r : String) (hdef : proj default = false)
    (h1 : ∀ x : File, proj x = true → proj { x with isWxCompScript := true } = true)
    (h2 : ∀ x : File, proj x = true → proj { x with isSwanCompScript := true } = true)
    (h3 : ∀ x : File, proj x = true → proj { x with isAntCompScript := true } = true)
    (hdeps : ∀ (x : File) (ds : List String), proj { x with deps := ds } = proj x)
    (hcache : ∀ (x : File) (c : Option ModIdCache), proj { x with resolvedModIds := c } = proj x)
    (h : proj (bm.file g) = true) : proj ((resolve env bm f r).1.file g) = true := by
  have hg : g < bm.heap.length := by
    by_contra hlt
    rw [file_of_not_lt bm g hlt, hdef] at h
    exact Bool.noConfusion h
  have hinit : proj ((initResolvedModIds bm f).file g) = true :=
    (initResolvedModIds_field proj bm f g hcache).trans h
  unfold resolve
  split
  · exact h
  · simp only []
    split
    · exact hinit
    · exact hinit
    · split
      · exact hinit
      · split
        · exact hinit
        · next p _ _ =>
          simp only []
          unfold resolveFound
          simp only []
          refine (writeCache_field proj _ _ _ _ _ _ hcache).trans ?_
          apply propagateFlags_mono proj _ _ _ _ h1 h2 h3
          refine (addDeps_field proj _ _ _ _ hdeps).trans ?_
          rw [addNeedBuildFile_file, addFile_file_old env _ p g (by simpa using hg)]
          exact hinit

/-- A flag that is set on a file stays set through a sequence of `resolve` calls. -/
theorem runResolve_flag_mono (proj : File → Bool) (env : Env) (hdef : proj default = false)
    (h1 : ∀ x : File, proj x = true → proj { x with isWxCompScript := true } = true)
    (h2 : ∀ x : File, proj x = true → proj { x with isSwanCompScript := true } = true)
    (h3 : ∀ x : File, proj x = true → proj { x with isAntCompScript := true } = true)
    (hdeps : ∀ (x : File) (ds : List String), proj { x with deps := ds } = proj x)
    (hcache : ∀ (x : File) (c : Option ModIdCache), proj { x with resolvedModIds := c } = proj x)
    (g : Nat) :
    ∀ (calls : List (Nat × String)) (bm : BuildManager), proj (bm.file g) = true →
      proj ((runResolve env bm calls).file g) = true := by
  intro calls
  induction calls with
  | nil => intro bm h; exact h
  | cons c calls ih =>
    intro bm h
    exact ih _ (resolve_flag_mono proj env bm c.1 g c.2 hdef h1 h2 h3 hdeps hcache h)

theorem runResolve_append (env : Env) (bm : BuildManager) (xs ys : List (Nat × String)) :
    runResolve env bm (xs ++ ys) = runResolve env (runResolve env bm xs) ys := by
  simp [runResolve, List.foldl_append]

/-- C11, amended: a `resolve` call of a sequence that looks up a dependency records
the edge from the referencing file to the dependency file and sets on the dependency file
every reachability flag the referencing file has at that moment; no later call of the
sequence clears a flag. -/
theorem resolve_flags_propagate (env : Env) (bm : BuildManager)
    (before after : List (Nat × String)) (f : Nat) (r p : String)
    (hr : r ≠ "") (hf : f < (runResolve env bm before).heap.length)
    (hm : ((((runResolve env bm before).file f).resolvedModIds).getD {}).get r = .miss)
    (hl : env.resolve r f = some p) (hp : p ≠ "") :
    ∃ dep, ((runResolve env bm (before ++ [(f, r)])).file dep).fullPath = p ∧
      HasDep (runResolve env bm (before ++ [(f, r)])) f dep ∧
      (((runResolve env bm before).file f).isWxCompScript = true →
        ((runResolve env bm (before ++ (f, r) :: after)).file dep).isWxCompScript = true) ∧
      (((runResolve env bm before).file f).isSwanCompScript = true →
        ((runResolve env bm (before ++ (f, r) :: after)).file dep).isSwanCompScript = true) ∧
      (((runResolve env bm before).file f).isAntCompScript = true →
        ((runResolve env bm (before ++ (f, r) :: after)).file dep).isAntCompScript = true) := by
  have e1 : runResolve env bm (before ++ [(f, r)])
      = (resolve env (runResolve env bm before) f r).1 := by
    rw [runResolve_append]; rfl
  have e2 : runResolve env bm (before ++ (f, r) :: after)
      = runResolve env (resolve env (runResolve env bm before) f r).1 after := by
    rw [runResolve_append]; rfl
  rw [e1, e2, resolve_fresh_eq env _ f r p hr hm hl hp]
  obtain ⟨dep, _, hfp, hdep, hw, hs, ha⟩ :=
    resolveFound_dep env (initResolvedModIds (runResolve env bm before) f) f r p
      ((runResolve env bm before).file f).isNpm (r.toList.head? == some '.')
      (by simpa using hf) hp
  have hw0 := initResolvedModIds_field (fun x => x.isWxCompScript) (runResolve env bm before) f f
    (fun _ _ => rfl)
  have hs0 := initResolvedModIds_field (fun x => x.isSwanCompScript) (runResolve env bm before) f f
    (fun _ _ => rfl)
  have ha0 := initResolvedModIds_field (fun x => x.isAntCompScript) (runResolve env bm before) f f
    (fun _ _ => rfl)
  simp only [] at hw0 hs0 ha0
  rw [hw0] at hw
  rw [hs0] at hs
  rw [ha0] at ha
  refine ⟨dep, hfp, hdep, ?_, ?_, ?_⟩
  · intro h
    exact runResolve_flag_mono (fun x => x.isWxCompScript) env rfl (fun _ _ => rfl)
      (fun _ hx => hx) (fun _ hx => hx) (fun _ _ => rfl) (fun _ _ => rfl) dep after _ (hw h)
  · intro h
    exact runResolve_flag_mono (fun x => x.isSwanCompScript) env rfl (fun _ hx => hx)
      (fun _ _ => rfl) (fun _ hx => hx) (fun _ _ => rfl) (fun _ _ => rfl) dep after _ (hs h)
  · intro h
    exact runResolve_flag_mono (fun x => x.isAntCompScript) env rfl (fun _ hx => hx)
      (fun _ hx => hx) (fun _ _ => rfl) (fun _ _ => rfl) (fun _ _ => rfl) dep after _ (ha h)

/-- C11, amended, at a sample input: `a.js` requires `./b`, then `b.js` requires `./c`. -/
theorem resolve_flags_propagate_witness :
    ∃ dep, ((runResolve demoChainEnv demoChain ([] ++ [(0, "./b")])).file dep).fullPath
        = "/p/src/b.js" ∧
      HasDep (runResolve demoChainEnv demoChain ([] ++ [(0, "./b")])) 0 dep ∧
      (((runResolve demoChainEnv demoChain []).file 0).isWxCompScript = true →
        ((runResolve demoChainEnv demoChain ([] ++ (0, "./b") :: [(1, "./c")])).file
          dep).isWxCompScript = true) ∧
      (((runResolve demoChainEnv demoChain []).file 0).isSwanCompScript = true →
        ((runResolve demoChainEnv demoChain ([] ++ (0, "./b") :: [(1, "./c")])).file
          dep).isSwanCompScript = true) ∧
      (((runResolve demoChainEnv demoChain []).file 0).isAntCompScript = true →
        ((runResolve demoChainEnv demoChain ([] ++ (0, "./b") :: [(1, "./c")])).file
          dep).isAntCompScript = true) :=
  resolve_flags_propagate demoChainEnv demoChain [] [(1, "./c")] 0 "./b" "/p/src/b.js"
    (by decide) (by decide) rfl rfl (by decide)

/-! ## Cache keys assigned more than once -/

/-- C12 as stated fails: after `lodash` was resolved from the entry script, the cache
holds a record under the resolved id; resolving `lodash/index`, which reaches the same
file, assigns that key again (with a record for the same id and file). -/
theorem resolve_cache_rewrite_counterexample :
    (cacheOf (resolve demoAliasEnv demoBuild 0 "lodash").1 0).get
        "./node_modules/lodash/index.js"
      = .info ⟨"./node_modules/lodash/index.js", 1⟩ ∧
    cacheWrites demoAliasEnv (resolve demoAliasEnv demoBuild 0 "lodash").1 0 "lodash/index"
      = ["lodash/index", "./node_modules/lodash/index.js"] ∧
    (cacheOf (resolve demoAliasEnv (resolve demoAliasEnv demoBuild 0 "lodash").1 0
        "lodash/index").1 0).get "./node_modules/lodash/index.js"
      = .info ⟨"./node_modules/lodash/index.js", 1⟩ := by
  refine ⟨rfl, rfl, rfl⟩

theorem cacheOf_of_some (bm : BuildManager) (g : Nat) (c : ModIdCache)
    (h : (bm.file g).resolvedModIds = some c) : cacheOf bm g = c := by
  simp [cacheOf, h]

/-- C12, amended: a record that the cache of a file holds under a key stays as it is
through a later `resolve` call on the file unless the call assigns that key; the call does
so only for a key that is the id it returns, never for the id it was asked for, and the
record it then stores has the key as its id. What the cache holds after the call is the
cache before it with the keys of `cacheWrites` assigned in order. -/
theorem resolve_cache_rewrite (env : Env) (bm : BuildManager) (f : Nat) (r k : String)
    (i : CacheInfo) (hf : f < bm.heap.length) (hk : (cacheOf bm f).get k = .info i) :
    (k ∉ cacheWrites env bm f r → (cacheOf (resolve env bm f r).1 f).get k = .info i) ∧
    (k ∈ cacheWrites env bm f r →
      k ≠ r ∧ (resolve env bm f r).2 = some k ∧
        ∃ d, (cacheOf (resolve env bm f r).1 f).get k = .info ⟨k, d⟩) ∧
    (∃ record, cacheOf (resolve env bm f r).1 f
      = (cacheWrites env bm f r).foldl (fun c key => c.set key record) (cacheOf bm f)) := by
  have hinit : cacheOf (initResolvedModIds bm f) f = cacheOf bm f :=
    initResolvedModIds_getD bm f f
  by_cases hr : r = ""
  · subst hr
    refine ⟨?_, ?_, ⟨i, ?_⟩⟩ <;> simp [cacheWrites, resolve_empty, hk]
  cases hg : (cacheOf bm f).get r with
  | info j =>
    have e : resolve env bm f r = (initResolvedModIds bm f, some j.id) := by
      unfold resolve; unfold cacheOf at hg; simp [hr, hg]
    refine ⟨?_, ?_, ⟨i, ?_⟩⟩ <;> simp [cacheWrites, hr, hg, e, hinit, hk]
  | noId =>
    have e : resolve env bm f r = (initResolvedModIds bm f, none) := by
      unfold resolve; unfold cacheOf at hg; simp [hr, hg]
    refine ⟨?_, ?_, ⟨i, ?_⟩⟩ <;> simp [cacheWrites, hr, hg, e, hinit, hk]
  | miss =>
    have hg' : (((bm.file f).resolvedModIds).getD {}).get r = .miss := hg
    have hkr : k ≠ r := by
      intro e; subst e; rw [hk] at hg; exact CacheGet.noConfusion hg
    by_cases hl : env.resolve r f = none ∨ env.resolve r f = some ""
    · have e := resolve_lookup_fail env bm f r hr hg' hl
      have hw : cacheWrites env bm f r = [] := by
        rcases hl with hl | hl <;> simp [cacheWrites, hr, hg, hl]
      refine ⟨?_, ?_, ⟨i, ?_⟩⟩ <;> simp [hw, e, hinit, hk]
    · obtain ⟨p, hl1, hp⟩ : ∃ p, env.resolve r f = some p ∧ p ≠ "" := by
        cases h : env.resolve r f with
        | none => exact absurd (Or.inl h) hl
        | some p => exact ⟨p, rfl, fun e => hl (Or.inr (by rw [h, e]))⟩
      obtain ⟨rid, dep, h2, hc, _⟩ := resolve_fresh_cache env bm f r p hr hf hg' hl1 hp
      have hrid : (resolveFound env (initResolvedModIds bm f) f r (bm.file f).isNpm
          (r.toList.head? == some '.') p).2 = rid := by
        have e := resolve_fresh_eq env bm f r p hr hg' hl1 hp
        rw [e] at h2
        simpa using h2
      have hw : cacheWrites env bm f r = [r, rid] := by
        simp only [cacheWrites, hr, hg, hl1, hp, if_false, hrid]
      have hc' : cacheOf (resolve env bm f r).1 f
          = ((cacheOf bm f).set r ⟨rid, dep⟩).set rid ⟨rid, dep⟩ := cacheOf_of_some _ _ _ hc
      rw [hw, hc']
      refine ⟨?_, ?_, ⟨⟨rid, dep⟩, rfl⟩⟩
      · intro hn
        have h1 : k ≠ rid := fun e => hn (by simp [e])
        rw [get_set_info_iff _ _ _ _ _ h1, get_set_info_iff _ _ _ _ _ hkr]
        exact hk
      · intro hmem
        have h1 : k = rid := by
          rcases List.mem_cons.1 hmem with e | e
          · exact absurd e hkr
          · simpa using e
        subst h1
        exact ⟨hkr, h2, dep, get_set_set_snd _ _ _ _⟩

/-- C12, amended, at a sample input: `lodash` resolved twice from the entry script; the
second call is a cache hit and assigns no key. -/
theorem resolve_cache_rewrite_witness :
    ("./node_modules/lodash/index.js" ∉
        cacheWrites demoAliasEnv (resolve demoAliasEnv demoBuild 0 "lodash").1 0 "lodash" →
      (cacheOf (resolve demoAliasEnv (resolve demoAliasEnv demoBuild 0 "lodash").1 0
        "lodash").1 0).get "./node_modules/lodash/index.js"
        = .info ⟨"./node_modules/lodash/index.js", 1⟩) ∧
    ("./node_modules/lodash/index.js" ∈
        cacheWrites demoAliasEnv (resolve demoAliasEnv demoBuild 0 "lodash").1 0 "lodash" →
      "./node_modules/lodash/index.js" ≠ "lodash" ∧
        (resolve demoAliasEnv (resolve demoAliasEnv demoBuild 0 "lodash").1 0 "lodash").2
          = some "./node_modules/lodash/index.js" ∧
        ∃ d, (cacheOf (resolve demoAliasEnv (resolve demoAliasEnv demoBuild 0 "lodash").1 0
            "lodash").1 0).get "./node_modules/lodash/index.js"
          = .info ⟨"./node_modules/lodash/index.js", d⟩) ∧
    (∃ record, cacheOf (resolve demoAliasEnv (resolve demoAliasEnv demoBuild 0 "lodash").1 0
        "lodash").1 0
      = (cacheWrites demoAliasEnv (resolve demoAliasEnv demoBuild 0 "lodash").1 0
          "lodash").foldl (fun c key => c.set key record)
          (cacheOf (resolve demoAliasEnv demoBuild 0 "lodash").1 0)) :=
  resolve_cache_rewrite demoAliasEnv (resolve demoAliasEnv demoBuild 0 "lodash").1 0 "lodash"
    "./node_modules/lodash/index.js" ⟨"./node_modules/lodash/index.js", 1⟩ (by decide) rfl

/-! ## The order of the steps of `processFile`, `compile` and `compileComponent` -/

/-- C17: for a processor whose handler returns an absent or false result, `processFile`
does nothing beyond the logger's debug line and the handler call: the build state is the
one the handler left, so `file.rext` is not rewritten, and no async task, no component
expansion and no update of the compile result takes place. -/
theorem processFile_filtered (cenv : CompileEnv) (fuel : Nat) (bm : BuildManager) (file : Nat)
    (processor : Processor)
    (h : (processor.handler (processFileLog bm file processor) file).2 = .falsy) :
    processFile cenv (fuel + 1) bm file processor
      = some ((processor.handler (processFileLog bm file processor) file).1,
              [.handler file processor.name]) := by
  show processFileWith (run cenv fuel) cenv bm file processor = _
  unfold processFileWith
  simp only [h]

theorem processFileWith_events (prev : Funs) (cenv : CompileEnv) (bm : BuildManager)
    (file : Nat) (p : Processor) (r : BuildManager × List Event)
    (h : processFileWith prev cenv bm file p = some r) :
    r.2.filterMap Event.handlerOf = [(file, p.name)] ∧ r.2.filterMap Event.emitOf = [] := by
  unfold processFileWith at h
  simp only [] at h
  split at h
  · cases h; exact ⟨rfl, rfl⟩
  · cases h; exact ⟨rfl, rfl⟩
  · split at h
    · cases h
    · cases h; exact ⟨rfl, rfl⟩
  · cases h; exact ⟨rfl, rfl⟩

theorem forEachStep_events {α β : Type} (proj : Event → Option β) (label : α → List β)
    (step : BuildManager → α → Option (BuildManager × List Event))
    (hstep : ∀ b x r, step b x = some r → r.2.filterMap proj = label x) :
    ∀ (xs : List α) (bm : BuildManager) (r : BuildManager × List Event),
      forEachStep step xs bm = some r → r.2.filterMap proj = (xs.map label).flatten := by
  intro xs
  induction xs with
  | nil => intro bm r h; simp only [forEachStep] at h; cases h; rfl
  | cons x xs ih =>
    intro bm r h
    simp only [forEachStep] at h
    split at h
    · cases h
    · next r1 h1 =>
      split at h
      · cases h
      · next r2 h2 =>
        cases h
        simp only [List.filterMap_append, hstep bm x r1 h1, ih r1.1 r2 h2, List.map_cons,
          List.flatten_cons]

theorem compileStep_events (prev : Funs) (bm : BuildManager) (item : Nat)
    (r : BuildManager × List Event) (h : compileStep prev bm item = some r) :
    ∃ inner, r.2 = [.compile item inner] := by
  unfold compileStep at h
  cases hc : prev.compile bm item with
  | none => simp [hc] at h
  | some r0 =>
    simp only [hc, Option.map_some', Option.some.injEq] at h
    exact ⟨r0.2, by rw [← h]⟩

theorem expandRole_events (prev : Funs) (cenv : CompileEnv) (bm : BuildManager) (file : Nat)
    (r : BuildManager × List Event) (h : expandRole prev cenv bm file = some r) :
    r.2.filterMap Event.handlerOf = [] ∧ r.2.filterMap Event.emitOf = [] := by
  unfold expandRole at h
  split at h
  · cases hp : processEntryScript cenv.env bm file with
    | none => simp [hp] at h
    | some st => simp only [hp, Option.map_some', Option.some.injEq] at h; rw [← h]; exact ⟨rfl, rfl⟩
  · split at h
    · unfold processComponentScriptWith at h
      simp only [] at h
      split at h
      · cases h; exact ⟨rfl, rfl⟩
      · obtain ⟨inner, e⟩ := compileStep_events _ _ _ _ h
        rw [e]; exact ⟨rfl, rfl⟩
    · cases h; exact ⟨rfl, rfl⟩


theorem flatten_map_singleton {α β : Type} (f : α → β) :
    ∀ xs : List α, (xs.map (fun x => [f x])).flatten = xs.map f := by
  intro xs
  induction xs with
  | nil => rfl
  | cons x xs ih => simp only [List.map_cons, List.flatten_cons, ih, List.singleton_append]

theorem flatten_map_nil {α β : Type} :
    ∀ xs : List α, (xs.map (fun _ => ([] : List β))).flatten = [] := by
  intro xs
  induction xs with
  | nil => rfl
  | cons x xs ih => simp only [List.map_cons, List.flatten_cons, ih, List.nil_append]

theorem forEachStep_total {α : Type}
    (step : BuildManager → α → Option (BuildManager × List Event)) :
    ∀ (xs : List α), (∀ x ∈ xs, ∀ b, ∃ r, step b x = some r) →
      ∀ bm : BuildManager, ∃ r, forEachStep step xs bm = some r := by
  intro xs
  induction xs with
  | nil => intro _ bm; exact ⟨_, rfl⟩
  | cons x xs ih =>
    intro h bm
    obtain ⟨r1, h1⟩ := h x (by simp) bm
    obtain ⟨r2, h2⟩ := ih (fun y hy b => h y (by simp [hy]) b) r1.1
    exact ⟨(r2.1, r1.2 ++ r2.2), by simp only [forEachStep, h1, h2]⟩

theorem processFileWith_total (prev : Funs) (cenv : CompileEnv) (bm : BuildManager)
    (file : Nat) (p : Processor)
    (h : ∀ b c, (p.handler b file).2 ≠ .component c) :
    ∃ r, processFileWith prev cenv bm file p = some r := by
  unfold processFileWith
  simp only []
  split
  · exact ⟨_, rfl⟩
  · exact ⟨_, rfl⟩
  · next c hc => exact absurd hc (h _ c)
  · exact ⟨_, rfl⟩

theorem processFileWith_head (prev : Funs) (cenv : CompileEnv) (bm : BuildManager)
    (file : Nat) (p : Processor) (r : BuildManager × List Event)
    (h : processFileWith prev cenv bm file p = some r) :
    r.2.head? = some (.handler file p.name) := by
  unfold processFileWith at h
  simp only [] at h
  split at h
  · cases h; rfl
  · cases h; rfl
  · split at h
    · cases h
    · cases h; rfl
  · cases h; rfl

theorem processFile_head (cenv : CompileEnv) (fuel : Nat) (bm : BuildManager)
    (file : Nat) (p : Processor) (r : BuildManager × List Event)
    (h : processFile cenv fuel bm file p = some r) :
    r.2.head? = some (.handler file p.name) := by
  cases fuel with
  | zero => cases h
  | succ n => exact processFileWith_head (run cenv n) cenv bm file p r h

theorem forEachStep_compileStep (prev : Funs) :
    ∀ (xs : List Nat) (bm : BuildManager) (r : BuildManager × List Event),
      forEachStep (compileStep prev) xs bm = some r → r.2.map Event.compileOf = xs.map some := by
  intro xs
  induction xs with
  | nil => intro bm r h; simp only [forEachStep] at h; cases h; rfl
  | cons x xs ih =>
    intro bm r h
    simp only [forEachStep] at h
    split at h
    · cases h
    · next r1 h1 =>
      split at h
      · cases h
      · next r2 h2 =>
        cases h
        obtain ⟨inner, e⟩ := compileStep_events prev bm x r1 h1
        simp only [e, List.singleton_append, List.map_cons, ih r1.1 r2 h2]
        rfl

theorem compile_last (cenv : CompileEnv) (fuel : Nat) (bm : BuildManager) (file : Nat)
    (r : BuildManager × List Event) (h : compile cenv fuel bm file = some r) :
    r.2.getLast? = some (.emit "buildFileDone" file) := by
  cases fuel with
  | zero => cases h
  | succ n =>
    change compileWith (run cenv n) cenv bm file = some r at h
    unfold compileWith at h
    simp only [] at h
    split at h
    · cases h
    · split at h
      · cases h
      · cases h; simp

theorem getCustomComponentTags_eq (cenv : CompileEnv) (config : Option (List (String × Json))) :
    getCustomComponentTags cenv config
      = (objGet "usingComponents" (config.getD [])).bind (fun u =>
          if u.truthy then some (u.keys.map cenv.toHyphen) else none) := by
  unfold getCustomComponentTags
  cases h : objGet "usingComponents" (config.getD []) with
  | none => rfl
  | some u => cases hu : u.truthy <;> simp [hu]

theorem getCustomComponentTags_obj (cenv : CompileEnv) (config : Option (List (String × Json)))
    (fields : List (String × Json))
    (h : objGet "usingComponents" (config.getD []) = some (.obj fields)) :
    getCustomComponentTags cenv config = some (fields.map (fun kv => cenv.toHyphen kv.1)) := by
  unfold getCustomComponentTags
  simp [h, Json.truthy, Json.keys]

/-- C20: `compileComponent` on a component with a template file, a script file and style
files returns exactly when its nested calls return, which it makes in this order. First
the compile of the template, whose last step emits `buildFileDone` for the template. Then,
from the state that compile left and with the script file prepared, the compile of the
script, whose last step emits `buildFileDone` for the script. Then, from the state that
compile left, the second template pass: `processFile` on the template with the view
processor that `getBuiltinProcessor` yields for the event-syntax plugin of the app type,
`template/plugins/event/<appType>-event-plugin`, and the custom-component tags, which are
the hyphenated keys of the `usingComponents` of the script's config as that state has it
(`undefined` when it is absent or falsy). Then the compile of each style file, in order.
What it did is the list of these calls in this order. A call has finished when it has
returned; a task that a handler of the template handed to `addAsyncTask` may still be
pending. -/
theorem compileComponent_order (cenv : CompileEnv) (fuel : Nat) (bm : BuildManager)
    (component : Component) (file tpl script : Nat) (styles : List Nat)
    (ht : component.tpl = some tpl) (hs : component.script = some script)
    (hst : component.styles = some styles) (st : BuildManager) (evs : List Event) :
    compileComponent cenv fuel bm component file = some (st, evs) ↔
      ∃ r1 bm4 r2 r3 r4 tags,
        compile cenv fuel bm tpl = some r1 ∧
        prepareScript cenv r1.1 tpl script file = some bm4 ∧
        compile cenv fuel bm4 script = some r2 ∧
        tags = (objGet "usingComponents" (((r2.1.file script).config).getD [])).bind
          (fun u => if u.truthy then some (u.keys.map cenv.toHyphen) else none) ∧
        (∀ fields,
          objGet "usingComponents" (((r2.1.file script).config).getD []) = some (.obj fields) →
            tags = some (fields.map (fun kv => cenv.toHyphen kv.1))) ∧
        processFile cenv fuel r2.1 tpl
          (cenv.getBuiltinProcessor "view"
            (cenv.view.pathJoin
              [cenv.view.pathJoin [cenv.view.dirname, "..", "template/plugins"], "event",
               cenv.view.appType ++ "-event-plugin"]) tags) = some r3 ∧
        forEachStep (fun b item =>
            (compile cenv fuel b item).map (fun r => (r.1, [Event.compile item r.2])))
          styles r3.1 = some r4 ∧
        st = r4.1 ∧
        evs = .compile tpl r1.2 :: .compile script r2.2 :: (r3.2 ++ r4.2) ∧
        r1.2.getLast? = some (.emit "buildFileDone" tpl) ∧
        r2.2.getLast? = some (.emit "buildFileDone" script) ∧
        r3.2.head? = some (.handler tpl (cenv.getBuiltinProcessor "view"
            (cenv.view.pathJoin
              [cenv.view.pathJoin [cenv.view.dirname, "..", "template/plugins"], "event",
               cenv.view.appType ++ "-event-plugin"]) tags).name) ∧
        r4.2.map Event.compileOf = styles.map some := by
  have hsp : ∀ b : BuildManager, secondPass cenv b script
      = cenv.getBuiltinProcessor "view"
          (cenv.view.pathJoin
            [cenv.view.pathJoin [cenv.view.dirname, "..", "template/plugins"], "event",
             cenv.view.appType ++ "-event-plugin"])
          ((objGet "usingComponents" (((b.file script).config).getD [])).bind
            (fun u => if u.truthy then some (u.keys.map cenv.toHyphen) else none)) := by
    intro b
    unfold secondPass
    rw [getCustomComponentTags_eq]
    rfl
  change compileComponentWith (run cenv fuel) cenv bm component file = some (st, evs) ↔ _
  unfold compileComponentWith compileScriptPart compileStep
  simp only [ht, hs, hst, Option.getD_some]
  constructor
  · intro h
    cases h1 : (run cenv fuel).compile bm tpl with
    | none => simp [h1] at h
    | some r1 =>
      simp only [h1, Option.map_some'] at h
      cases h2 : prepareScript cenv r1.1 tpl script file with
      | none => simp [h2] at h
      | some bm4 =>
        simp only [h2] at h
        cases h3 : (run cenv fuel).compile bm4 script with
        | none => simp [h3] at h
        | some r2 =>
          simp only [h3, Option.map_some'] at h
          cases h4 : (run cenv fuel).processFile r2.1 tpl (secondPass cenv r2.1 script) with
          | none => simp [h4] at h
          | some r3 =>
            simp only [h4] at h
            cases h5 : forEachStep (compileStep (run cenv fuel)) styles r3.1 with
            | none =>
              have h5' := h5
              unfold compileStep at h5'
              simp [h5'] at h
            | some r4 =>
              have h5' := h5
              unfold compileStep at h5'
              simp only [h5', Option.some.injEq, Prod.mk.injEq] at h
              have hh := processFile_head cenv fuel r2.1 tpl _ r3 h4
              rw [hsp] at h4 hh
              refine ⟨r1, bm4, r2, r3, r4, _, h1, h2, h3, rfl, ?_, h4, h5', h.1.symm, ?_,
                compile_last cenv fuel bm tpl r1 h1, compile_last cenv fuel bm4 script r2 h3,
                hh, forEachStep_compileStep _ styles r3.1 r4 h5⟩
              · intro fields hf
                rw [← getCustomComponentTags_eq]
                exact getCustomComponentTags_obj cenv _ fields hf
              · rw [← h.2]; simp
  · rintro ⟨r1, bm4, r2, r3, r4, tags, h1, h2, h3, htags, _, h4, h5, e1, e2, _, _, _, _⟩
    have h1' : (run cenv fuel).compile bm tpl = some r1 := h1
    have h3' : (run cenv fuel).compile bm4 script = some r2 := h3
    have h4' : (run cenv fuel).processFile r2.1 tpl (secondPass cenv r2.1 script) = some r3 := by
      rw [hsp, ← htags]; exact h4
    have h5' : forEachStep (fun b item =>
        ((run cenv fuel).compile b item).map (fun r => (r.1, [Event.compile item r.2])))
        styles r3.1 = some r4 := h5
    simp only [h1', h2, h3', h4', h5', Option.map_some', e1, e2]
    simp

/-- C17 at a sample input: the second processor of the style file returns nothing, and its
output extension is not applied. -/
theorem processFile_filtered_witness :
    processFile demoCompileEnv 1 demoComponentBuild 3 demoFilterProcessor
      = some (processFileLog demoComponentBuild 3 demoFilterProcessor,
              [.handler 3 "postcss"]) :=
  processFile_filtered demoCompileEnv 0 demoComponentBuild 3 demoFilterProcessor rfl

/-- The sample component evaluated: what the compile of the component file did. -/
theorem compile_sample :
    (compile demoCompileEnv 3 demoComponentBuild 0).map (fun r => r.2)
      = some [.handler 0 "component",
              .component 0
                [.compile 1 [.handler 1 "view", .updateResult 1 (some "<view></view>"),
                             .emit "buildFileDone" 1],
                 .compile 2 [.handler 2 "babel", .updateResult 2 (some "Page()"),
                             .compile 4 [.emit "buildFileDone" 4],
                             .emit "buildFileDone" 2],
                 .handler 1 "view", .updateResult 1 (some "<view></view>"),
                 .compile 3 [.handler 3 "less", .updateResult 3 (some "a: b"),
                             .handler 3 "postcss", .emit "buildFileDone" 3]],
              .updateResult 0 none,
              .emit "buildFileDone" 0] := by
  rfl

/-- C20 at a sample input: the parts of the sample component are compiled in the order
template, script, second template pass, style; the config of the script declares the
custom components `myList` and `oButton`, and the processor of the second pass is the one
for the tags `my-list` and `o-button`. -/
theorem compileComponent_order_witness :
    ∃ (st : BuildManager) (evs : List Event) (r1 r2 r3 r4 : BuildManager × List Event),
      compileComponent demoTagEnv 2 demoTagBuild demoComponent 0 = some (st, evs) ∧
      evs = .compile 1 r1.2 :: .compile 2 r2.2 :: (r3.2 ++ r4.2) ∧
      processFile demoTagEnv 2 r2.1 1
        (demoTagBuiltinProcessor "view" "//lib/processor/helper/../template/plugins/event/quick-event-plugin"
          (some ["my-list", "o-button"])) = some r3 ∧
      r1.2.getLast? = some (.emit "buildFileDone" 1) ∧
      r2.2.getLast? = some (.emit "buildFileDone" 2) ∧
      r3.2.head? = some (.handler 1 "view") ∧
      r4.2.map Event.compileOf = [some 3] := by
  have hs : (compileComponent demoTagEnv 2 demoTagBuild demoComponent 0).isSome
      = true := rfl
  obtain ⟨⟨st, evs⟩, h⟩ := Option.isSome_iff_exists.1 hs
  obtain ⟨r1, bm4, r2, r3, r4, tags, h1, h2, h3, _, hpin, h4, _, _, e, l1, l2, hh, hc⟩ :=
    (compileComponent_order demoTagEnv 2 demoTagBuild demoComponent 0 1 2 [3]
      rfl rfl rfl st evs).1 h
  have v1 : compile demoTagEnv 2 demoTagBuild 1
      = some ((compile demoTagEnv 2 demoTagBuild 1).getD ({}, [])) := rfl
  have e1 := Option.some.inj (h1.symm.trans v1)
  subst e1
  have v2 : prepareScript demoTagEnv ((compile demoTagEnv 2 demoTagBuild 1).getD ({}, [])).1 1 2 0
      = some ((prepareScript demoTagEnv
          ((compile demoTagEnv 2 demoTagBuild 1).getD ({}, [])).1 1 2 0).getD {}) := rfl
  have e2 := Option.some.inj (h2.symm.trans v2)
  subst e2
  have v3 : compile demoTagEnv 2 ((prepareScript demoTagEnv
        ((compile demoTagEnv 2 demoTagBuild 1).getD ({}, [])).1 1 2 0).getD {}) 2
      = some ((compile demoTagEnv 2 ((prepareScript demoTagEnv
        ((compile demoTagEnv 2 demoTagBuild 1).getD ({}, [])).1 1 2 0).getD {}) 2).getD
          ({}, [])) := rfl
  have e3 := Option.some.inj (h3.symm.trans v3)
  subst e3
  have ht := hpin [("myList", .str "../components/List"), ("oButton", .str "okam/Button")] rfl
  subst ht
  exact ⟨st, evs, _, _, r3, r4, h, e, h4, l1, l2, hh, hc⟩

/-- The sample of C20 evaluated: the template's processor hands a task to `addAsyncTask`
and the compile of the template returns; the script is compiled next; the second template
pass runs with the tags `my-list` and `o-button` of the script's config; the style file is
compiled last. -/
theorem compileComponent_order_sample :
    (compileComponent demoTagEnv 2 demoTagBuild demoComponent 0).map (fun r => r.2)
      = some [.compile 1 [.handler 1 "view", .asyncTask 1, .emit "buildFileDone" 1],
              .compile 2 [.handler 2 "babel", .updateResult 2 (some "Page()"),
                          .compile 4 [.emit "buildFileDone" 4],
                          .emit "buildFileDone" 2],
              .handler 1 "view", .updateResult 1 (some "<view tags=my-list,o-button>"),
              .compile 3 [.handler 3 "less", .updateResult 3 (some "a: b"),
                          .handler 3 "postcss", .emit "buildFileDone" 3]] := by
  rfl

/-! ## The nesting depth only bounds how far nested calls are followed -/

theorem forEachStep_mono {α : Type}
    (step step2 : BuildManager → α → Option (BuildManager × List Event))
    (h : ∀ b x r, step b x = some r → step2 b x = some r) :
    ∀ (xs : List α) (bm : BuildManager) (r : BuildManager × List Event),
      forEachStep step xs bm = some r → forEachStep step2 xs bm = some r := by
  intro xs
  induction xs with
  | nil => intro bm r hr; exact hr
  | cons x xs ih =>
    intro bm r hr
    simp only [forEachStep] at hr ⊢
    split at hr
    · cases hr
    · next r1 h1 =>
      split at hr
      · cases hr
      · next r2 h2 =>
        simp only [h bm x r1 h1, ih r1.1 r2 h2]
        exact hr

theorem compileStep_mono (a b : Funs) (h : a.le b) (bm : BuildManager) (item : Nat)
    (r : BuildManager × List Event) (hr : compileStep a bm item = some r) :
    compileStep b bm item = some r := by
  unfold compileStep at hr ⊢
  cases hc : a.compile bm item with
  | none => simp [hc] at hr
  | some r0 => rw [h.1 bm item r0 hc]; rw [hc] at hr; exact hr

theorem compileScriptPart_mono (a b : Funs) (h : a.le b) (cenv : CompileEnv)
    (bm : BuildManager) (tpl : Option Nat) (s file : Nat) (r : BuildManager × List Event)
    (hr : compileScriptPart a cenv bm tpl s file = some r) :
    compileScriptPart b cenv bm tpl s file = some r := by
  unfold compileScriptPart at hr ⊢
  split at hr
  · cases hr
  · split at hr
    · cases hr
    · next bm4 h4 =>
      split at hr
      · cases hr
      · next r1 h1 =>
        split at hr
        · cases hr
        · next r2 h2 =>
          simp only [h4, compileStep_mono a b h _ _ _ h1, h.2 _ _ _ _ h2]
          exact hr

theorem compileComponentWith_mono (a b : Funs) (h : a.le b) (cenv : CompileEnv)
    (bm : BuildManager) (c : Component) (file : Nat) (r : BuildManager × List Event)
    (hr : compileComponentWith a cenv bm c file = some r) :
    compileComponentWith b cenv bm c file = some r := by
  obtain ⟨tpl, script, styles⟩ := c
  have hstyles := forEachStep_mono (compileStep a) (compileStep b) (compileStep_mono a b h)
    (styles.getD [])
  cases tpl with
  | none =>
    cases script with
    | none =>
      simp only [compileComponentWith] at hr ⊢
      split at hr
      · cases hr
      · next r3 h3 => rw [hstyles _ _ h3]; exact hr
    | some s =>
      simp only [compileComponentWith, compileScriptPart] at hr
      cases hr
  | some t =>
    simp only [compileComponentWith] at hr ⊢
    cases h1 : compileStep a bm t with
    | none => simp [h1] at hr
    | some r1 =>
      simp only [h1] at hr
      rw [compileStep_mono a b h _ _ _ h1]
      simp only []
      cases script with
      | none =>
        simp only [] at hr ⊢
        split at hr
        · cases hr
        · next r3 h3 => rw [hstyles _ _ h3]; exact hr
      | some s =>
        simp only [] at hr ⊢
        cases h2 : compileScriptPart a cenv r1.1 (some t) s file with
        | none => simp [h2] at hr
        | some r2 =>
          simp only [h2] at hr
          rw [compileScriptPart_mono a b h cenv _ _ _ _ _ h2]
          simp only []
          split at hr
          · cases hr
          · next r3 h3 => rw [hstyles _ _ h3]; exact hr

theorem processFileWith_mono (a b : Funs) (h : a.le b) (cenv : CompileEnv)
    (bm : BuildManager) (file : Nat) (p : Processor) (r : BuildManager × List Event)
    (hr : processFileWith a cenv bm file p = some r) :
    processFileWith b cenv bm file p = some r := by
  cases hc : (p.handler (processFileLog bm file p) file).2 with
  | falsy => simp only [processFileWith, hc] at hr ⊢; exact hr
  | promise => simp only [processFileWith, hc] at hr ⊢; exact hr
  | result content => simp only [processFileWith, hc] at hr ⊢; exact hr
  | component parts =>
    simp only [processFileWith, hc] at hr ⊢
    split at hr
    · cases hr
    · next r1 h1 =>
      rw [compileComponentWith_mono a b h cenv _ _ _ _ h1]
      exact hr

theorem expandRole_mono (a b : Funs) (h : a.le b) (cenv : CompileEnv)
    (bm : BuildManager) (file : Nat) (r : BuildManager × List Event)
    (hr : expandRole a cenv bm file = some r) : expandRole b cenv bm file = some r := by
  unfold expandRole at hr ⊢
  split
  · next hE => rw [if_pos hE] at hr; exact hr
  · next hE =>
    rw [if_neg hE] at hr
    split
    · next hR =>
      rw [if_pos hR] at hr
      unfold processComponentScriptWith at hr ⊢
      simp only [] at hr ⊢
      split at hr
      · exact hr
      · exact compileStep_mono a b h _ _ _ hr
    · next hR => rw [if_neg hR] at hr; exact hr

theorem compileWith_mono (a b : Funs) (h : a.le b) (cenv : CompileEnv)
    (bm : BuildManager) (file : Nat) (r : BuildManager × List Event)
    (hr : compileWith a cenv bm file = some r) : compileWith b cenv bm file = some r := by
  unfold compileWith at hr ⊢
  simp only [] at hr ⊢
  split at hr
  · cases hr
  · next r1 h1 =>
    rw [forEachStep_mono _ (fun bm p => processFileWith b cenv bm file p)
      (fun bm p r hr => processFileWith_mono a b h cenv bm file p r hr) _ _ _ h1]
    simp only []
    split at hr
    · cases hr
    · next r2 h2 =>
      rw [expandRole_mono a b h cenv _ _ _ h2]
      exact hr

theorem run_le_succ (cenv : CompileEnv) : ∀ n, (run cenv n).le (run cenv (n + 1)) := by
  intro n
  induction n with
  | zero =>
    constructor
    · intro _ _ _ h; cases h
    · intro _ _ _ _ h; cases h
  | succ n ih =>
    constructor
    · exact fun bm file r h => compileWith_mono _ _ ih cenv bm file r h
    · exact fun bm file p r h => processFileWith_mono _ _ ih cenv bm file p r h

/-- A call of `compile` that returns at some nesting depth returns the same at every
greater depth. -/
theorem compile_mono (cenv : CompileEnv) (n m : Nat) (hnm : n ≤ m) (bm : BuildManager)
    (file : Nat) (r : BuildManager × List Event) (h : compile cenv n bm file = some r) :
    compile cenv m bm file = some r := by
  induction hnm with
  | refl => exact h
  | step _ ih => exact (run_le_succ cenv _).1 bm file r ih

/-! ## What a returning call of `compile` did -/

theorem run_le (cenv : CompileEnv) (n m : Nat) (hnm : n ≤ m) : (run cenv n).le (run cenv m) := by
  induction hnm with
  | refl => exact ⟨fun _ _ _ h => h, fun _ _ _ _ h => h⟩
  | step _ ih =>
    exact ⟨fun bm file r h => (run_le_succ cenv _).1 bm file r (ih.1 bm file r h),
      fun bm file p r h => (run_le_succ cenv _).2 bm file p r (ih.2 bm file p r h)⟩

theorem processFile_mono (cenv : CompileEnv) (n m : Nat) (hnm : n ≤ m) (bm : BuildManager)
    (file : Nat) (p : Processor) (r : BuildManager × List Event)
    (h : processFile cenv n bm file p = some r) : processFile cenv m bm file p = some r :=
  (run_le cenv n m hnm).2 bm file p r h

theorem processComponentScript_mono (cenv : CompileEnv) (n m : Nat) (hnm : n ≤ m)
    (bm : BuildManager) (file : Nat) (r : BuildManager × List Event)
    (h : processComponentScript cenv n bm file = some r) :
    processComponentScript cenv m bm file = some r := by
  unfold processComponentScript processComponentScriptWith at h ⊢
  simp only [] at h ⊢
  split
  · next hn => rw [hn] at h; exact h
  · next j hj =>
    rw [hj] at h
    exact compileStep_mono _ _ (run_le cenv n m hnm) _ _ _ h

/-- The handlers loop of `compile` returns at some nesting depth exactly when each of its
`processFile` calls returns. -/
theorem handlersReturn_iff (cenv : CompileEnv) (file : Nat) :
    ∀ (ps : List Processor) (bm : BuildManager) (r : BuildManager × List Event),
      handlersReturn cenv file ps bm r ↔
        ∃ fuel, forEachStep (fun b p => processFile cenv fuel b file p) ps bm = some r := by
  intro ps
  induction ps with
  | nil =>
    intro bm r
    simp only [handlersReturn, forEachStep, Option.some.injEq, exists_const]
    exact eq_comm
  | cons p ps ih =>
    intro bm r
    simp only [handlersReturn]
    constructor
    · rintro ⟨r1, r2, ⟨n1, h1⟩, h2, e⟩
      obtain ⟨n2, h2⟩ := (ih r1.1 r2).1 h2
      refine ⟨max n1 n2, ?_⟩
      have h1' := processFile_mono cenv n1 (max n1 n2) (le_max_left _ _) bm file p r1 h1
      have h2' := forEachStep_mono (fun b p => processFile cenv n2 b file p)
        (fun b p => processFile cenv (max n1 n2) b file p)
        (fun b p r hr => processFile_mono cenv n2 (max n1 n2) (le_max_right _ _) b file p r hr)
        ps r1.1 r2 h2
      simp only [forEachStep, h1', h2', e]
    · rintro ⟨n, h⟩
      simp only [forEachStep] at h
      split at h
      · cases h
      · next r1 h1 =>
        split at h
        · cases h
        · next r2 h2 =>
          cases h
          exact ⟨r1, r2, ⟨n, h1⟩, (ih r1.1 r2).2 ⟨n, h2⟩, rfl⟩

theorem handlersReturn_events (cenv : CompileEnv) (file : Nat) (ps : List Processor)
    (bm : BuildManager) (r : BuildManager × List Event) (h : handlersReturn cenv file ps bm r) :
    r.2.filterMap Event.handlerOf = ps.map (fun p => (file, p.name)) ∧
      r.2.filterMap Event.emitOf = [] := by
  obtain ⟨n, hn⟩ := (handlersReturn_iff cenv file ps bm r).1 h
  cases n with
  | zero =>
    cases ps with
    | nil => simp only [forEachStep, Option.some.injEq] at hn; rw [← hn]; exact ⟨rfl, rfl⟩
    | cons p ps => simp only [forEachStep, processFile, run] at hn; cases hn
  | succ n =>
    have e1 := forEachStep_events Event.handlerOf (fun p : Processor => [(file, p.name)])
      (fun b p => processFileWith (run cenv n) cenv b file p)
      (fun b p r hr => (processFileWith_events _ cenv b file p r hr).1) _ _ _ hn
    have e2 := forEachStep_events Event.emitOf (fun _ : Processor => [])
      (fun b p => processFileWith (run cenv n) cenv b file p)
      (fun b p r hr => (processFileWith_events _ cenv b file p r hr).2) _ _ _ hn
    rw [flatten_map_singleton] at e1
    rw [flatten_map_nil] at e2
    exact ⟨e1, e2⟩

/-- The handlers loop returns whenever no handler returns a component. -/
theorem handlersReturn_total (cenv : CompileEnv) (file : Nat) (ps : List Processor)
    (bm : BuildManager) (h : ∀ p ∈ ps, ∀ b c, (p.handler b file).2 ≠ .component c) :
    ∃ r, handlersReturn cenv file ps bm r := by
  obtain ⟨r, hr⟩ := forEachStep_total (fun b p => processFileWith (run cenv 0) cenv b file p) ps
    (fun p hp b => processFileWith_total _ cenv b file p (h p hp)) bm
  exact ⟨r, (handlersReturn_iff cenv file ps bm r).2 ⟨1, hr⟩⟩

theorem role_events (cenv : CompileEnv) (bmL st : BuildManager) (file : Nat)
    (evX : List Event)
    (h : if (bmL.file file).isEntryScript then
        processEntryScript cenv.env bmL file = some st ∧ evX = []
      else if (bmL.file file).isPageScript || (bmL.file file).isComponentScript then
        processComponentScriptReturns cenv bmL file (st, evX)
      else st = bmL ∧ evX = []) :
    evX.filterMap Event.handlerOf = [] ∧ evX.filterMap Event.emitOf = [] := by
  split at h
  · rw [h.2]; exact ⟨rfl, rfl⟩
  · split at h
    · obtain ⟨n, hn⟩ := h
      unfold processComponentScript processComponentScriptWith at hn
      simp only [] at hn
      split at hn
      · cases hn; exact ⟨rfl, rfl⟩
      · obtain ⟨inner, e⟩ := compileStep_events _ _ _ _ hn
        simp only at e
        rw [e]; exact ⟨rfl, rfl⟩
    · rw [h.2]; exact ⟨rfl, rfl⟩

theorem compileReturns_iff (cenv : CompileEnv) (bm : BuildManager) (file : Nat)
    (st : BuildManager) (evs : List Event) :
    compileReturns cenv bm file (st, evs) ↔
      ∃ bmL evL evX,
        handlersReturn cenv file (cenv.findMatchProcessor bm file) (startCompile cenv bm file)
          (bmL, evL) ∧
        evs = evL ++ evX ++ [.emit "buildFileDone" file] ∧
        (if (bmL.file file).isEntryScript then
          processEntryScript cenv.env bmL file = some st ∧ evX = []
        else if (bmL.file file).isPageScript || (bmL.file file).isComponentScript then
          processComponentScriptReturns cenv bmL file (st, evX)
        else st = bmL ∧ evX = []) := by
  constructor
  · rintro ⟨fuel, h⟩
    cases fuel with
    | zero => cases h
    | succ n =>
      change compileWith (run cenv n) cenv bm file = some (st, evs) at h
      unfold compileWith at h
      simp only [] at h
      split at h
      · cases h
      · next r1 h1 =>
        split at h
        · cases h
        · next r2 h2 =>
          cases h
          refine ⟨r1.1, r1.2, r2.2, (handlersReturn_iff cenv file _ _ _).2 ⟨n + 1, h1⟩, rfl, ?_⟩
          unfold expandRole at h2
          split
          · next hE =>
            rw [if_pos hE] at h2
            cases hp : processEntryScript cenv.env r1.1 file with
            | none => simp [hp] at h2
            | some st0 =>
              simp only [hp, Option.map_some', Option.some.injEq] at h2
              rw [← h2]; exact ⟨rfl, rfl⟩
          · next hE =>
            rw [if_neg hE] at h2
            split
            · next hR =>
              rw [if_pos hR] at h2
              exact ⟨n, h2⟩
            · next hR =>
              rw [if_neg hR] at h2
              cases h2; exact ⟨rfl, rfl⟩
  · rintro ⟨bmL, evL, evX, hL, e, hX⟩
    obtain ⟨n1, h1⟩ := (handlersReturn_iff cenv file _ _ _).1 hL
    have key : ∀ n, n1 ≤ n + 1 → expandRole (run cenv n) cenv bmL file = some (st, evX) →
        compileReturns cenv bm file (st, evs) := by
      intro n hn hx
      refine ⟨n + 1, ?_⟩
      change compileWith (run cenv n) cenv bm file = some (st, evs)
      have h1' := forEachStep_mono (fun b p => processFile cenv n1 b file p)
        (fun b p => processFileWith (run cenv n) cenv b file p)
        (fun b p r hr => processFile_mono cenv n1 (n + 1) hn b file p r hr) _ _ _ h1
      unfold compileWith
      simp only [h1', hx, e]
    split at hX
    · next hE =>
      refine key n1 (Nat.le_succ _) ?_
      unfold expandRole
      rw [if_pos hE, hX.1, hX.2]; rfl
    · next hE =>
      split at hX
      · next hR =>
        obtain ⟨n2, h2⟩ := hX
        refine key (max n1 n2) (Nat.le_succ_of_le (le_max_left _ _)) ?_
        unfold expandRole
        rw [if_neg hE, if_pos hR]
        exact processComponentScript_mono cenv n2 _ (le_max_right _ _) _ _ _ h2
      · next hR =>
        refine key n1 (Nat.le_succ _) ?_
        unfold expandRole
        rw [if_neg hE, if_neg hR, hX.1, hX.2]

/-- A call of `compile` returns when no handler returns a component and either the file
has no role after the handlers loop or it is an entry script whose expansion returns. -/
theorem compileReturns_of_handlers (cenv : CompileEnv) (bm : BuildManager) (file : Nat)
    (h : ∀ p ∈ cenv.findMatchProcessor bm file, ∀ b c, (p.handler b file).2 ≠ .component c) :
    ∃ bmL evL,
      handlersReturn cenv file (cenv.findMatchProcessor bm file) (startCompile cenv bm file)
        (bmL, evL) ∧
      ((bmL.file file).isEntryScript = false → (bmL.file file).isPageScript = false →
        (bmL.file file).isComponentScript = false →
        compileReturns cenv bm file (bmL, evL ++ [.emit "buildFileDone" file])) ∧
      (∀ st, (bmL.file file).isEntryScript = true →
        processEntryScript cenv.env bmL file = some st →
        compileReturns cenv bm file (st, evL ++ [.emit "buildFileDone" file])) := by
  obtain ⟨⟨bmL, evL⟩, hL⟩ := handlersReturn_total cenv file _ (startCompile cenv bm file) h
  refine ⟨bmL, evL, hL, ?_, ?_⟩
  · intro hE hP hC
    refine (compileReturns_iff cenv bm file _ _).2 ⟨bmL, evL, [], hL, by simp, ?_⟩
    simp [hE, hP, hC]
  · intro st hE hp
    refine (compileReturns_iff cenv bm file _ _).2 ⟨bmL, evL, [], hL, by simp, ?_⟩
    simp [hE, hp]

/-- C19, as the code has it. A call of `compile` on a file whose rule-matched processors
are `p1 ... pn` returns exactly when each call of `processFile` on the file, with `p1`
to `pn` in that order, returns and the expansion of the file's role returns (the
entry-script expansion for an entry script, else the component-script expansion for a page
script or component script, else nothing). A call that returns has invoked the handlers of
`p1 ... pn` on the file in that order, each once, has run the expansion after them, and
has emitted `buildFileDone` for the file once, as its last step. -/
theorem compile_steps (cenv : CompileEnv) (bm : BuildManager) (file : Nat)
    (st : BuildManager) (evs : List Event) :
    (compileReturns cenv bm file (st, evs) ↔
      ∃ bmL evL evX,
        handlersReturn cenv file (cenv.findMatchProcessor bm file) (startCompile cenv bm file)
          (bmL, evL) ∧
        evs = evL ++ evX ++ [.emit "buildFileDone" file] ∧
        (if (bmL.file file).isEntryScript then
          processEntryScript cenv.env bmL file = some st ∧ evX = []
        else if (bmL.file file).isPageScript || (bmL.file file).isComponentScript then
          processComponentScriptReturns cenv bmL file (st, evX)
        else st = bmL ∧ evX = [])) ∧
    (compileReturns cenv bm file (st, evs) →
      evs.filterMap Event.handlerOf
        = (cenv.findMatchProcessor bm file).map (fun p => (file, p.name)) ∧
      evs.filterMap Event.emitOf = [("buildFileDone", file)] ∧
      evs.getLast? = some (.emit "buildFileDone" file)) := by
  refine ⟨compileReturns_iff cenv bm file st evs, ?_⟩
  intro h
  obtain ⟨bmL, evL, evX, hL, e, hX⟩ := (compileReturns_iff cenv bm file st evs).1 h
  obtain ⟨a1, a2⟩ := handlersReturn_events cenv file _ _ _ hL
  obtain ⟨b1, b2⟩ := role_events cenv bmL st file evX hX
  simp only at a1 a2
  subst e
  refine ⟨?_, ?_, ?_⟩
  · simp only [List.filterMap_append, a1, b1, List.append_nil]
    exact List.append_nil _
  · simp only [List.filterMap_append, a2, b2, List.nil_append]
    rfl
  · simp

/-- C19 as stated fails: the entry script of the sample has no rule-matched processor and
a config whose `pages` is the string `'pages/index/index'`; `pages.forEach` is no function
and the entry-script expansion throws at line 60, so that the call of `compile` does not
return, at whatever depth nested calls are followed, and `buildFileDone` is not emitted for
the file. -/
theorem compile_steps_counterexample :
    demoBareEnv.findMatchProcessor (demoAppWith demoTextPages) 0 = [] ∧
    ((demoAppWith demoTextPages).file 0).isEntryScript = true ∧
    (∀ fuel, compile demoBareEnv fuel (demoAppWith demoTextPages) 0 = none) ∧
    ∀ r, ¬ compileReturns demoBareEnv (demoAppWith demoTextPages) 0 r := by
  have h : ∀ fuel, compile demoBareEnv fuel (demoAppWith demoTextPages) 0 = none := by
    intro fuel
    cases fuel with
    | zero => rfl
    | succ n => rfl
  refine ⟨rfl, rfl, h, ?_⟩
  rintro r ⟨fuel, hf⟩
  rw [h fuel] at hf
  cases hf

/-- C19 at a sample input: the compile of the component file returns, having invoked the
component processor once and emitted `buildFileDone` once, as its last step. -/
theorem compile_steps_witness :
    ∃ st evs, compileReturns demoCompileEnv demoComponentBuild 0 (st, evs) ∧
      evs.filterMap Event.handlerOf = [(0, "component")] ∧
      evs.filterMap Event.emitOf = [("buildFileDone", 0)] ∧
      evs.getLast? = some (.emit "buildFileDone" 0) := by
  have hs : (compile demoCompileEnv 3 demoComponentBuild 0).isSome = true := rfl
  obtain ⟨⟨st, evs⟩, h⟩ := Option.isSome_iff_exists.1 hs
  exact ⟨st, evs, ⟨3, h⟩, (compile_steps demoCompileEnv demoComponentBuild 0 st evs).2 ⟨3, h⟩⟩

/-! ## A component without a template -/

/-- A component with a script and without a template: `compileComponent` does not return,
at whatever depth nested calls are followed (the TypeError of line 201). -/
theorem compileComponent_no_template (cenv : CompileEnv) (fuel : Nat) (bm : BuildManager)
    (component : Component) (file script : Nat)
    (ht : component.tpl = none) (hs : component.script = some script) :
    compileComponent cenv fuel bm component file = none := by
  obtain ⟨tpl, scr, styles⟩ := component
  simp only at ht hs
  subst ht hs
  simp only [compileComponent, compileComponentWith, compileScriptPart]

/-- C21 at a sample input: the sample page component with its script and style file and
without a template. `compileComponent` does not return, however deep nested calls are
followed, although the compile of its script file and the compile of its style file both
return; the same component with its template compiles (`compile_sample`). -/
theorem compileComponent_no_template_sample :
    (∀ fuel, compileComponent demoCompileEnv fuel demoComponentBuild demoScriptOnly 0 = none) ∧
    (compile demoCompileEnv 2 demoComponentBuild 2).isSome = true ∧
    (compile demoCompileEnv 2 demoComponentBuild 3).isSome = true :=
  ⟨fun _ => rfl, rfl, rfl⟩

/-! ## The tag-usage set -/

theorem mem_tagsDelete(tags : List String) (k x : String) :
    x ∈ tagsDelete tags k ↔ x ∈ tags ∧ x ≠ k := by
  simp [tagsDelete]

theorem mem_tagsSet (tags : List String) (k x : String) (hk : k ≠ "__proto__") :
    x ∈ tagsSet tags k ↔ x ∈ tags ∨ x = k := by
  unfold tagsSet
  rw [if_neg hk]
  split
  · next h =>
    have : k ∈ tags := by simpa using h
    constructor
    · exact Or.inl
    · rintro (h1 | h1)
      · exact h1
      · rw [h1]; exact this
  · simp

/-- C24: for a file of the build, a reported tag `t` other than `__proto__` and a tag-usage
object without an own key `hasOwnProperty`, `handleOnTag(file, t, r)` returns, and
afterwards the file has a tag-usage object that contains `t`; a replaced tag `r` that is
given (not empty) and differs from `t` is not in it; and every tag other than `t` and the
given `r` is in it exactly when it was before (in no set when the file had none). -/
theorem handleOnTag_spec (bm : BuildManager) (file : Nat) (t : String) (r : Option String)
    (hf : file < bm.heap.length) (ht : t ≠ "__proto__")
    (hown : "hasOwnProperty" ∉ tagsOf bm file) :
    ∃ st, handleOnTag bm file t r = some st ∧
      (st.file file).tags ≠ none ∧
      t ∈ tagsOf st file ∧
      (∀ x, r = some x → x ≠ "" → x ≠ t → x ∉ tagsOf st file) ∧
      (∀ k, k ≠ t → (r = some k → k = "") → (k ∈ tagsOf st file ↔ k ∈ tagsOf bm file)) ∧
      (∀ g, g ≠ file → st.file g = bm.file g) := by
  have hown' : (tagsOf bm file).contains "hasOwnProperty" = false := by
    simpa using hown
  obtain ⟨ts, hts, hmem⟩ : ∃ ts, replaceTag (tagsOf bm file) r = some ts ∧
      ∀ k, k ∈ ts ↔ k ∈ tagsOf bm file ∧ ¬ (r = some k ∧ k ≠ "") := by
    cases r with
    | none => exact ⟨_, rfl, by simp⟩
    | some x =>
      by_cases hx : x = ""
      · refine ⟨tagsOf bm file, by simp [replaceTag, hx], ?_⟩
        intro k
        simp only [Option.some.injEq, hx]
        constructor
        · intro h; exact ⟨h, fun h2 => h2.2 h2.1.symm⟩
        · exact fun h => h.1
      · by_cases hc : (tagsOf bm file).contains x = true
        · refine ⟨tagsDelete (tagsOf bm file) x, by
            simp only [replaceTag, hx, if_false, hown', Bool.false_eq_true, hc, if_true], ?_⟩
          intro k
          rw [mem_tagsDelete]
          simp only [Option.some.injEq]
          constructor
          · rintro ⟨h1, h2⟩; exact ⟨h1, fun h3 => h2 h3.1.symm⟩
          · rintro ⟨h1, h2⟩
            exact ⟨h1, fun h3 => h2 ⟨h3.symm, h3 ▸ hx⟩⟩
        · refine ⟨tagsOf bm file, by
            simp only [replaceTag, hx, if_false, hown', Bool.false_eq_true, hc], ?_⟩
          intro k
          simp only [Option.some.injEq]
          constructor
          · intro h
            refine ⟨h, fun h2 => hc ?_⟩
            rw [h2.1]; simpa using h
          · exact fun h => h.1
  have hres : handleOnTag bm file t r
      = some (bm.modify file (fun f => { f with tags := some (tagsSet ts t) })) := by
    unfold handleOnTag
    simp only []
    have : replaceTag (((bm.file file).tags).getD []) r = some ts := hts
    rw [this]; rfl
  have htags : tagsOf (bm.modify file (fun f => { f with tags := some (tagsSet ts t) })) file
      = tagsSet ts t := by
    unfold tagsOf
    rw [file_modify_same _ _ _ hf]
    rfl
  refine ⟨_, hres, ?_, ?_, ?_, ?_, ?_⟩
  · rw [file_modify_same _ _ _ hf]; simp
  · rw [htags, mem_tagsSet _ _ _ ht]; exact Or.inr rfl
  · intro x hx hne hxt
    rw [htags, mem_tagsSet _ _ _ ht, hmem]
    rintro (h | h)
    · exact h.2 ⟨hx, hne⟩
    · exact hxt h
  · intro k hk hr
    rw [htags, mem_tagsSet _ _ _ ht, hmem]
    constructor
    · rintro (h | h)
      · exact h.1
      · exact absurd h hk
    · intro h
      exact Or.inl ⟨h, fun h2 => h2.2 (hr h2.1)⟩
  · intro g hg
    exact file_modify_ne _ _ _ _ (Ne.symm hg)

/-- C24 at a sample input: the sample template reports the tag `o-button` in place of
`button`. -/
theorem handleOnTag_spec_witness :
    ∃ st, handleOnTag demoComponentBuild 1 "o-button" (some "button") = some st ∧
      (st.file 1).tags = some ["o-button"] :=
  have h := handleOnTag_spec demoComponentBuild 1 "o-button" (some "button")
    (by decide) (by decide) (by decide)
  h.elim (fun st hst => ⟨st, hst.1, by
    have e : handleOnTag demoComponentBuild 1 "o-button" (some "button")
        = some (demoComponentBuild.modify 1 (fun f => { f with tags := some ["o-button"] })) := rfl
    rw [e] at hst
    have := hst.1
    injection this with e2
    rw [← e2]; rfl⟩)

/-! ## The components to inject -/

theorem tagUsed_of_plain (tags : List String) (k : String) (hk : k ∉ objectPrototypeKeys) :
    tagUsed tags k = tags.contains k := by
  unfold tagUsed
  have : objectPrototypeKeys.contains k = false := by simpa using hk
  rw [this, Bool.or_false]

theorem foldl_addImportComponent (env : Env) (fullPath : String) (tags : List String) :
    ∀ (g : List (String × GlobalComponent)) (acc : List (String × String)),
      (g.map Prod.fst).Nodup → (∀ kv ∈ g, kv.1 ∉ objectPrototypeKeys) →
      (∀ kv ∈ g, ∀ a ∈ acc, a.1 ≠ kv.1) →
      g.foldl (addImportComponent env fullPath tags) acc
        = acc ++ (g.filter (fun kv => tags.contains kv.1)).map (fun kv =>
            (kv.1, if kv.2.isNpmMod then kv.2.modPath
                   else env.getRequirePath kv.2.modPath (some fullPath))) := by
  intro g
  induction g with
  | nil => intro acc _ _ _; simp
  | cons x g ih =>
    intro acc hnd hp hfresh
    have hnd' : x.1 ∉ g.map Prod.fst ∧ (g.map Prod.fst).Nodup := by simpa using hnd
    have hx : x.1 ∉ objectPrototypeKeys := hp x (by simp)
    have hx2 : x.1 ≠ "__proto__" := fun e => hx (by rw [e]; decide)
    rw [List.foldl_cons]
    by_cases hu : tags.contains x.1 = true
    · have e : addImportComponent env fullPath tags acc x
          = acc ++ [(x.1, if x.2.isNpmMod then x.2.modPath
                   else env.getRequirePath x.2.modPath (some fullPath))] := by
        unfold addImportComponent
        rw [tagUsed_of_plain _ _ hx, if_pos hu]
        simp only [hx2, if_false]
        rw [objSet_of_new _ _ _ (fun a ha => hfresh x (by simp) a ha)]
        cases x.2.isNpmMod <;> rfl
      rw [e, ih _ hnd'.2 (fun kv hkv => hp kv (by simp [hkv])) ?_]
      · have hu2 : x.1 ∈ tags := by simpa using hu
        simp [List.filter_cons, hu2]
      · intro kv hkv a ha
        rcases List.mem_append.1 ha with h | h
        · exact hfresh kv (by simp [hkv]) a h
        · have : a = (x.1, if x.2.isNpmMod then x.2.modPath
                   else env.getRequirePath x.2.modPath (some fullPath)) := by simpa using h
          rw [this]
          intro e2
          exact hnd'.1 (List.mem_map.2 ⟨kv, hkv, e2.symm⟩)
    · have e : addImportComponent env fullPath tags acc x = acc := by
        unfold addImportComponent
        rw [tagUsed_of_plain _ _ hx, if_neg hu]
      rw [e, ih _ hnd'.2 (fun kv hkv => hp kv (by simp [hkv]))
        (fun kv hkv a ha => hfresh kv (by simp [hkv]) a ha)]
      have hu2 : x.1 ∉ tags := by simpa using hu
      simp [List.filter_cons, hu2]

/-- C22: for a script file `s`, a global-components map `g` (an object: its keys are
distinct, and none is a name that every object inherits from `Object.prototype`) and a
tag-usage set `T`, `getImportComponents(s, g, T)` is the map whose keys are the tags of `g`
that are in `T`, in the order of `g`, each mapped to `g[k].modPath` when `g[k].isNpmMod` is
set and to `getRequirePath(g[k].modPath, s.fullPath)` otherwise, and `null` when no tag of
`g` is in `T`; it is `null` as well when `g` is absent. -/
theorem getImportComponents_spec (env : Env) (bm : BuildManager) (s : Nat)
    (g : List (String × GlobalComponent)) (tags : List String)
    (hkeys : (g.map Prod.fst).Nodup) (hplain : ∀ kv ∈ g, kv.1 ∉ objectPrototypeKeys) :
    (getImportComponents env bm s (some g) (some tags)
      = some (if (∀ kv ∈ g, kv.1 ∉ tags) then none
          else some ((g.filter (fun kv => tags.contains kv.1)).map (fun kv =>
            (kv.1, if kv.2.isNpmMod then kv.2.modPath
                   else env.getRequirePath kv.2.modPath (some (bm.file s).fullPath)))))) ∧
    (∀ allTags, getImportComponents env bm s none allTags = some none) := by
  refine ⟨?_, fun _ => rfl⟩
  have hfold := foldl_addImportComponent env (bm.file s).fullPath tags g [] hkeys hplain
    (fun _ _ a ha => by cases ha)
  rw [List.nil_append] at hfold
  have hempty : (g.filter (fun kv => tags.contains kv.1)) = [] ↔ ∀ kv ∈ g, kv.1 ∉ tags := by
    rw [List.filter_eq_nil_iff]
    constructor
    · intro h kv hkv hm; exact h kv hkv (by simpa using hm)
    · intro h kv hkv hm; exact h kv hkv (by simpa using hm)
  unfold getImportComponents
  cases g with
  | nil => simp
  | cons x g =>
    simp only [List.isEmpty_cons, Bool.false_eq_true, if_false]
    rw [hfold]
    by_cases hn : ∀ kv ∈ x :: g, kv.1 ∉ tags
    · rw [if_pos hn, hempty.2 hn]; rfl
    · rw [if_neg hn]
      have hne : (List.filter (fun kv => tags.contains kv.1) (x :: g)) ≠ [] :=
        fun e => hn (hempty.1 e)
      cases hf : List.filter (fun kv => tags.contains kv.1) (x :: g) with
      | nil => exact absurd hf hne
      | cons y ys => simp

/-- With global components configured and no tag-usage object on the template,
`getImportComponents` does not return (the TypeError of reading `allTags[k]`). -/
theorem getImportComponents_no_tags (env : Env) (bm : BuildManager) (s : Nat)
    (x : String × GlobalComponent) (g : List (String × GlobalComponent)) :
    getImportComponents env bm s (some (x :: g)) none = none := rfl

/-- C22 at a sample input: of the two sample global components, the template uses
`o-button`, which comes from an npm module. -/
theorem getImportComponents_spec_witness :
    getImportComponents demoEnv demoComponentBuild 2 (some demoGlobalComponents)
        (some ["view", "o-button"])
      = some (some [("o-button", "okam/Button")]) :=
  (getImportComponents_spec demoEnv demoComponentBuild 2 demoGlobalComponents
    ["view", "o-button"] (by decide) (by decide)).1.trans rfl

/-! ## When `allowRelease` is set -/

/-- C23 as stated fails. The style file 3 of the sample build has never been compiled and
has no `allowRelease`; in its first compile the handler of its only processor, the probe,
observes `allowRelease` set. And `initAddCSSDependenciesProcessor` sets `allowRelease` on
the entry style of `demoStyleBuild`, which has never been compiled. -/
theorem compile_allowRelease_counterexample :
    (demoComponentBuild.file 3).allowRelease = false ∧
    (compile demoProbeEnv 1 demoComponentBuild 3).map (fun r => r.2)
      = some [.handler 3 "probe", .updateResult 3 (some "allowRelease is set"),
              .emit "buildFileDone" 3] ∧
    (demoStyleBuild.file 0).allowRelease = false ∧
    ((initAddCSSDependenciesProcessor {} demoStyleBuild []).1.file 0).allowRelease = true := by
  refine ⟨rfl, rfl, rfl, rfl⟩

theorem startCompile_allowRelease (cenv : CompileEnv) (bm : BuildManager) (file : Nat)
    (hf : file < bm.heap.length) :
    ((startCompile cenv bm file).file file).allowRelease = true := by
  unfold startCompile
  rw [file_modify_same _ _ _ (by simpa using hf)]

/-- C23, amended: `compile` sets `allowRelease` on the file before the processor loop, so
the handler of the file's first rule-matched processor observes the flag set, also in the
file's first compile: with the probe as first processor, the first two steps of every
returning compile are the probe's handler call and the update of the compile result with
the report that the flag is set. And `initAddCSSDependenciesProcessor` sets `allowRelease`
on the entry style, the first registered file with `isEntryStyle`, without compiling it:
`compiled` is unset afterwards and the processor `addCssDependencies` is registered for
the output path of the entry style. -/
theorem compile_allowRelease_first (cenv : CompileEnv) (fuel : Nat) (bm : BuildManager)
    (file : Nat) (ps : List Processor) (hf : file < bm.heap.length)
    (hps : cenv.findMatchProcessor bm file = allowReleaseProbe :: ps) :
    ((startCompile cenv bm file).file file).allowRelease = true ∧
    (∀ st evs, compile cenv (fuel + 1) bm file = some (st, evs) →
      ∃ rest, evs = .handler file "probe" ::
        .updateResult file (some "allowRelease is set") :: rest) ∧
    (ps = [] → (bm.file file).isEntryScript = false → (bm.file file).isPageScript = false →
      (bm.file file).isComponentScript = false →
      ∃ st, compile cenv (fuel + 1) bm file
        = some (st, [.handler file "probe", .updateResult file (some "allowRelease is set"),
                     .emit "buildFileDone" file])) ∧
    (∀ (qenv : QuickEnv) (registry : List ProcessorDef) (found : Nat),
      bm.files.find? (fun r => (bm.file r).isEntryStyle) = some found →
      found < bm.heap.length →
        ((initAddCSSDependenciesProcessor qenv bm registry).1.file found).allowRelease = true ∧
        ((initAddCSSDependenciesProcessor qenv bm registry).1.file found).compiled = false ∧
        ∃ outputPath, (initAddCSSDependenciesProcessor qenv bm registry).2
          = registry ++ [[("name", .str "addCssDependencies"),
              ("options", .obj [("styleFiles",
                .arr [.str (qenv.pathJoin [qenv.root, outputPath])])])]]) := by
  have hstart := startCompile_allowRelease cenv bm file hf
  have hseen : ((processFileLog (startCompile cenv bm file) file allowReleaseProbe).file
      file).allowRelease = true := hstart
  have hfirst : processFileWith (run cenv fuel) cenv (startCompile cenv bm file) file
      allowReleaseProbe
      = some (processFileLog (startCompile cenv bm file) file allowReleaseProbe,
          [.handler file "probe", .updateResult file (some "allowRelease is set")]) := by
    unfold processFileWith
    simp only [allowReleaseProbe, setRext] at hseen ⊢
    rw [hseen]
    rfl
  refine ⟨hstart, ?_, ?_, ?_⟩
  · intro st evs h
    change compileWith (run cenv fuel) cenv bm file = some (st, evs) at h
    unfold compileWith at h
    simp only [hps, forEachStep, hfirst] at h
    split at h
    · cases h
    · next r1 h1 =>
      split at h1
      · cases h1
      · next r2 h2 =>
        cases h1
        split at h
        · cases h
        · next r3 h3 =>
          cases h
          exact ⟨r2.2 ++ r3.2 ++ [.emit "buildFileDone" file], by simp⟩
  · intro hnil hE hP hC
    subst hnil
    refine ⟨processFileLog (startCompile cenv bm file) file allowReleaseProbe, ?_⟩
    change compileWith (run cenv fuel) cenv bm file = _
    have hflags : ∀ {α : Type} (proj : File → α),
        (∀ (x : File) (b : Bool), proj { x with allowRelease := b } = proj x) →
        proj ((processFileLog (startCompile cenv bm file) file allowReleaseProbe).file file)
          = proj (bm.file file) := by
      intro α proj hproj
      unfold processFileLog startCompile
      simp only [logMsg_file]
      exact file_modify_field proj _ _ _ _ (fun x => hproj x true)
    unfold compileWith
    simp only [hps, forEachStep, hfirst]
    unfold expandRole
    rw [hflags (fun x => x.isEntryScript) (fun _ _ => rfl),
      hflags (fun x => x.isPageScript) (fun _ _ => rfl),
      hflags (fun x => x.isComponentScript) (fun _ _ => rfl), hE, hP, hC]
    rfl
  · intro qenv registry found hfound hfv
    unfold initAddCSSDependenciesProcessor
    simp only [hfound]
    refine ⟨?_, ?_, ?_⟩
    · rw [file_modify_same _ _ _ (by simpa using hfv), file_modify_same _ _ _ (by simpa using hfv),
        file_modify_same _ _ _ hfv]
    · rw [file_modify_same _ _ _ (by simpa using hfv)]
    · exact ⟨_, rfl⟩

/-- C23, amended, at a sample input: the first compile of the sample style file with the
probe as its only processor, and the entry style of `demoStyleBuild`. -/
theorem compile_allowRelease_first_witness :
    ((startCompile demoProbeEnv demoComponentBuild 3).file 3).allowRelease = true ∧
    (∃ st, compile demoProbeEnv 1 demoComponentBuild 3
        = some (st, [.handler 3 "probe", .updateResult 3 (some "allowRelease is set"),
                     .emit "buildFileDone" 3])) :=
  have h := compile_allowRelease_first demoProbeEnv 0 demoComponentBuild 3 [] (by decide) rfl
  ⟨h.1, h.2.2.1 rfl rfl rfl rfl⟩

end Okam
